import Mathlib

/-!
Verification of the `Iso8601` timestamp type of `core_types/src/time.rs`.

The embedding models, over `List Char`:
  * chrono's `DateTime::parse_from_rfc3339` (the strict parser), including its
    item-by-item behaviour: every numeric item trims leading whitespace and
    accepts 1 to `width` ASCII digits, literals are matched exactly, the
    fractional-second item fires only on `'.'`, and the timezone item accepts
    `Z`/`z` or an ASCII sign, two digit hours, a run of colons/whitespace, and
    two digit minutes whose first digit is at most `5`;
  * the final `Parsed::to_datetime` validation (calendar correctness, hour
    below 24, leap-second folding, offset magnitude strictly below one day);
  * `DateTime::to_rfc3339` rendering;
  * the permissive `ISO8601_RE` regular expression as a backtracking matcher
    producing the named capture groups in the engine's preference order
    (alternatives left to right, optional groups present first).  The character
    class repetitions `\s*`, `\s+` and `\d+` are matched greedily without
    giveback; this is equivalent here because no character they match can start
    the following regex element.  `\d` is modelled as an ASCII digit: a
    non-ASCII decimal digit accepted by the pattern could never survive the
    strict re-parse, which only reads ASCII digits;
  * the candidate reassembly `format!` of the `TryFrom` implementation and the
    comparison relations `PartialEq`, `PartialOrd` and `Ord` of `Iso8601`.

Instants are encoded as `days * 86400 + seconds - offset` scaled by `2 * 10^9`
plus the (possibly leap-extended) nanosecond field, which is order-isomorphic
to chrono's lexicographic comparison of the offset-adjusted naive datetime
because the nanosecond field is always below `2 * 10^9`.
-/

namespace HoloTime

/-- ASCII digit test, as used by chrono's `scan::number`. -/
def isDig (c : Char) : Bool := '0' ≤ c && c ≤ '9'

/-- Unicode `White_Space` test: the set matched by the regex class `\s` and by
`str::trim_left` and `char::is_whitespace` in the source. -/
def isWs (c : Char) : Bool :=
  let n := c.toNat
  n = 0x20 || (0x9 ≤ n && n ≤ 0xD) || n = 0x85 || n = 0xA0 || n = 0x1680 ||
  (0x2000 ≤ n && n ≤ 0x200A) || n = 0x2028 || n = 0x2029 || n = 0x202F ||
  n = 0x205F || n = 0x3000

/-- Numeric value of an ASCII digit character. -/
def digVal (c : Char) : Nat := c.toNat - 48

/-- Value of a digit string, most significant digit first. -/
def toNum (ds : List Char) : Nat := ds.foldl (fun a c => 10 * a + digVal c) 0

/-- The ASCII digit character for a value below ten. -/
def dchar (n : Nat) : Char := Char.ofNat (48 + n)

/-- Left-pad a character list with zeros to the given width, the behaviour of
the Rust format specifier used by the candidate reassembly. -/
def padZero (w : Nat) (s : List Char) : List Char :=
  List.replicate (w - s.length) '0' ++ s

/-- Decimal digit characters of a natural number, no leading zeros. -/
def natDigits (n : Nat) : List Char :=
  if _h : n < 10 then [dchar n] else natDigits (n / 10) ++ [dchar (n % 10)]
  termination_by n
  decreasing_by exact Nat.div_lt_self (by omega) (by omega)

/-- Zero-padded decimal rendering of a natural number. -/
def padNum (w n : Nat) : List Char := padZero w (natDigits n)

/-- Drop leading whitespace, the `trim_left` of chrono's parser items. -/
def trimWs (s : List Char) : List Char := s.dropWhile isWs

/-- Take up to `k` leading ASCII digits. -/
def takeDigits : Nat → List Char → List Char × List Char
  | 0, s => ([], s)
  | _ + 1, [] => ([], [])
  | k + 1, c :: r =>
    if isDig c then
      let p := takeDigits k r
      (c :: p.1, p.2)
    else ([], c :: r)

/-- chrono `scan::number(s, 1, maxw)`: between one and `maxw` digits, greedy. -/
def scanNum (maxw : Nat) (s : List Char) : Option (Nat × List Char) :=
  let p := takeDigits maxw s
  if p.1 = [] then none else some (toNum p.1, p.2)

/-- All leading digits together with the remainder. -/
def spanDigs (s : List Char) : List Char × List Char :=
  (s.takeWhile isDig, s.dropWhile isDig)

/-- The year item of the strict parser: signed, at most four digits when no
sign is present, arbitrarily many digits after an explicit ASCII sign. -/
def scanYear (s : List Char) : Option (Int × List Char) :=
  match s with
  | c :: r =>
    if c = '-' then
      let p := spanDigs r
      if p.1 = [] then none else some (-(toNum p.1 : Int), p.2)
    else if c = '+' then
      let p := spanDigs r
      if p.1 = [] then none else some ((toNum p.1 : Int), p.2)
    else (scanNum 4 (c :: r)).map fun x => ((x.1 : Int), x.2)
  | [] => none

/-- Require an exact literal character. -/
def expectChar (c : Char) (s : List Char) : Option (List Char) :=
  match s with
  | c2 :: r => if c2 = c then some r else none
  | [] => none

/-- The scaling applied by chrono `scan::nanosecond` to the digits consumed
out of the first nine. -/
def nanoOf (p : List Char × List Char) : Option (Nat × List Char) :=
  if p.1 = [] then none
  else some (toNum p.1 * 10 ^ (9 - p.1.length), p.2.dropWhile isDig)

/-- chrono `Fixed::Nanosecond`: if the input starts with a dot, read at least
one digit, scale the first nine digits to nanoseconds and skip the rest;
otherwise leave the input untouched with zero nanoseconds. -/
def scanNano (s : List Char) : Option (Nat × List Char) :=
  match s with
  | c :: r =>
    if c = '.' then nanoOf (takeDigits 9 r)
    else some (0, c :: r)
  | [] => some (0, [])

/-- chrono `scan::colon_or_space`: drop any run of colons and whitespace. -/
def dropColonWs (s : List Char) : List Char :=
  s.dropWhile (fun c => c = ':' || isWs c)

/-- chrono `Fixed::TimezoneOffsetColonZ`: `Z`/`z`, or an ASCII sign, two digit
hours, a colon-or-space run, and mandatory two digit minutes with the first
minute digit at most `5`. -/
def scanTz (s : List Char) : Option (Int × List Char) :=
  match s with
  | c :: r =>
    if c = 'Z' || c = 'z' then some (0, r)
    else if c = '+' || c = '-' then
      match r with
      | h1 :: h2 :: r2 =>
        if isDig h1 && isDig h2 then
          match dropColonWs r2 with
          | m1 :: m2 :: r3 =>
            if ('0' ≤ m1 && m1 ≤ '5') && isDig m2 then
              some (if c = '-'
                then -(((digVal h1 * 10 + digVal h2) * 3600
                  + (digVal m1 * 10 + digVal m2) * 60 : Nat) : Int)
                else (((digVal h1 * 10 + digVal h2) * 3600
                  + (digVal m1 * 10 + digVal m2) * 60 : Nat) : Int), r3)
            else none
          | _ => none
        else none
      | _ => none
    else none
  | [] => none

/-- The fields collected by the strict parse before final validation. -/
structure ParsedTs where
  year : Int
  month : Nat
  day : Nat
  hour : Nat
  minute : Nat
  second : Nat
  nano : Nat
  offset : Int
deriving DecidableEq

/-- A validated fixed-offset datetime, chrono's `DateTime<FixedOffset>`: the
local calendar fields (with a leap second folded into `second = 59` and a
nanosecond field at or above `10^9`) together with the offset in seconds. -/
structure DT where
  year : Int
  month : Nat
  day : Nat
  hour : Nat
  minute : Nat
  second : Nat
  nano : Nat
  offset : Int
deriving DecidableEq

/-- Proleptic Gregorian leap year, on the floored remainder as chrono's
`YearFlags::from_year` computes it. -/
def isLeap (y : Int) : Bool :=
  y.emod 4 = 0 && (y.emod 100 ≠ 0 || y.emod 400 = 0)

/-- Days in a month of the proleptic Gregorian calendar. -/
def daysInMonth (y : Int) (m : Nat) : Nat :=
  if m = 2 then (if isLeap y then 29 else 28)
  else if m = 4 || m = 6 || m = 9 || m = 11 then 30
  else 31

/-- Leap-second folding of `Parsed::to_naive_time`: a second of `60` becomes
`59` with the nanosecond field pushed past `10^9`. -/
def foldSec (sec : Nat) : Nat := if sec = 60 then 59 else sec

/-- The nanosecond half of the leap-second folding. -/
def foldNano (sec nano : Nat) : Nat :=
  if sec = 60 then nano + 1000000000 else nano

/-- chrono `Parsed::to_datetime`: calendar validation, hour below 24,
leap-second folding, and the fixed-offset bound of one day. -/
def toDatetime (p : ParsedTs) : Option DT :=
  if -262144 ≤ p.year ∧ p.year ≤ 262143 ∧
      1 ≤ p.month ∧ p.month ≤ 12 ∧
      1 ≤ p.day ∧ p.day ≤ daysInMonth p.year p.month ∧
      p.hour ≤ 23 ∧ p.minute ≤ 59 ∧
      foldSec p.second ≤ 59 ∧ foldNano p.second p.nano < 2000000000 ∧
      -86400 < p.offset ∧ p.offset < 86400
  then some ⟨p.year, p.month, p.day, p.hour, p.minute, foldSec p.second,
    foldNano p.second p.nano, p.offset⟩
  else none

/-- The item sequence of `parse_from_rfc3339` after the year: literals,
two-digit numeric fields (each trimming leading whitespace), the fractional
second item, and the timezone item, with the trailing input required empty. -/
def parseAfterYear (y : Int) (s1 : List Char) : Option DT :=
  (expectChar '-' (trimWs s1)).bind fun s2 =>
  (scanNum 2 (trimWs s2)).bind fun mo =>
  (expectChar '-' (trimWs mo.2)).bind fun s4 =>
  (scanNum 2 (trimWs s4)).bind fun d =>
  (expectChar 'T' (trimWs d.2)).bind fun s6 =>
  (scanNum 2 (trimWs s6)).bind fun h =>
  (expectChar ':' (trimWs h.2)).bind fun s8 =>
  (scanNum 2 (trimWs s8)).bind fun mi =>
  (expectChar ':' (trimWs mi.2)).bind fun s10 =>
  (scanNum 2 (trimWs s10)).bind fun se =>
  (scanNano se.2).bind fun na =>
  (scanTz (trimWs na.2)).bind fun off =>
  if off.2 = [] then
    toDatetime ⟨y, mo.1, d.1, h.1, mi.1, se.1, na.1, off.1⟩
  else none

/-- chrono `DateTime::parse_from_rfc3339`, the strict parser used both as step
one of the conversion and as the authoritative re-validation of the candidate
assembled from the permissive match. -/
def parseRfc3339 (s0 : List Char) : Option DT :=
  (scanYear (trimWs s0)).bind fun y => parseAfterYear y.1 y.2

/-- Days since the epoch of a proleptic Gregorian date (civil-days
algorithm), used to linearise datetimes for comparison. -/
def daysFromCivil (y : Int) (m d : Nat) : Int :=
  let yAdj : Int := if m ≤ 2 then y - 1 else y
  let era : Int := yAdj.fdiv 400
  let yoe : Int := yAdj - era * 400
  let mp : Int := ((m : Int) + 9).emod 12
  let doy : Int := (153 * mp + 2).fdiv 5 + (d : Int) - 1
  let doe : Int := yoe * 365 + yoe.fdiv 4 - yoe.fdiv 100 + doy
  era * 146097 + doe - 719468

/-- The comparison key of a `DateTime<FixedOffset>`: chrono compares the
offset-adjusted naive datetime lexicographically by (days-and-seconds,
nanoseconds); as the nanosecond field stays below `2 * 10^9` the scaled sum
is order-isomorphic to that comparison. -/
def DT.instant (dt : DT) : Int :=
  ((daysFromCivil dt.year dt.month dt.day) * 86400
    + (dt.hour : Int) * 3600 + (dt.minute : Int) * 60 + (dt.second : Int)
    - dt.offset) * 2000000000 + (dt.nano : Int)

/-- Rust `%Y`: four zero-padded digits, or an explicit sign and five-wide
zero padding outside `0..9999`. -/
def renderYear (y : Int) : List Char :=
  if 0 ≤ y ∧ y < 10000 then padNum 4 y.toNat
  else (if y < 0 then '-' else '+') :: padNum 4 y.natAbs

/-- Rust `%.f`: nothing for zero, otherwise a dot and 3, 6 or 9 digits. -/
def renderFrac (n : Nat) : List Char :=
  if n = 0 then []
  else if n % 1000000 = 0 then '.' :: padNum 3 (n / 1000000)
  else if n % 1000 = 0 then '.' :: padNum 6 (n / 1000)
  else '.' :: padNum 9 n

/-- Rust `%:z`: sign, two digit hours, colon, two digit minutes. -/
def renderOffset (off : Int) : List Char :=
  let sgn : Char := if off < 0 then '-' else '+'
  let o : Nat := off.natAbs
  sgn :: (padNum 2 (o / 3600) ++ ':' :: padNum 2 (o / 60 % 60))

/-- chrono `DateTime::to_rfc3339`; a leap second renders its second field as
`60` with the nanosecond remainder as the fraction. -/
def toRfc3339 (dt : DT) : List Char :=
  renderYear dt.year ++ '-' :: padNum 2 dt.month ++ '-' :: padNum 2 dt.day
  ++ 'T' :: padNum 2 dt.hour ++ ':' :: padNum 2 dt.minute
  ++ ':' :: padNum 2 (dt.second + dt.nano / 1000000000)
  ++ renderFrac (dt.nano % 1000000000) ++ renderOffset dt.offset

/-! ## The permissive pattern `ISO8601_RE`

Each regex element is a function from the input to the list of possible
(capture, remainder) pairs in the engine's preference order; the overall
match is the first alternative that consumes the whole input. -/

/-- An optional regex group: matching alternatives first, then skipping. -/
def pOpt (p : List Char → List (α × List Char)) (s : List Char) :
    List (Option α × List Char) :=
  ((p s).map fun x => (some x.1, x.2)) ++ [(none, s)]

/-- The element `-?`. -/
def pOptDash (s : List Char) : List (Unit × List Char) :=
  match s with
  | c :: r => if c = '-' then [((), r), ((), c :: r)] else [((), c :: r)]
  | [] => [((), [])]

/-- The element `:?`, remembering the matched text. -/
def pOptColon (s : List Char) : List (List Char × List Char) :=
  match s with
  | c :: r => if c = ':' then [([':'], r), ([], c :: r)] else [([], c :: r)]
  | [] => [([], [])]

/-- The group `(?P<Y>\d{4})`. -/
def pYear (s : List Char) : List (List Char × List Char) :=
  match s with
  | c1 :: c2 :: c3 :: c4 :: r =>
    if isDig c1 && isDig c2 && isDig c3 && isDig c4 then [([c1, c2, c3, c4], r)]
    else []
  | _ => []

/-- The group `(?P<M>0[1-9]|1[012])`. -/
def pMonth (s : List Char) : List (List Char × List Char) :=
  match s with
  | c1 :: c2 :: r =>
    if c1 = '0' && '1' ≤ c2 && c2 ≤ '9' then [([c1, c2], r)]
    else if c1 = '1' && (c2 = '0' || c2 = '1' || c2 = '2') then [([c1, c2], r)]
    else []
  | _ => []

/-- The group `(?P<D>0[1-9]|[12][0-9]|3[01])`. -/
def pDay (s : List Char) : List (List Char × List Char) :=
  match s with
  | c1 :: c2 :: r =>
    if c1 = '0' && '1' ≤ c2 && c2 ≤ '9' then [([c1, c2], r)]
    else if (c1 = '1' || c1 = '2') && '0' ≤ c2 && c2 ≤ '9' then [([c1, c2], r)]
    else if c1 = '3' && (c2 = '0' || c2 = '1') then [([c1, c2], r)]
    else []
  | _ => []

/-- The group `(?P<h>[01][0-9]|2[0-3])`; `24` is not matched. -/
def pHour (s : List Char) : List (List Char × List Char) :=
  match s with
  | c1 :: c2 :: r =>
    if (c1 = '0' || c1 = '1') && '0' ≤ c2 && c2 ≤ '9' then [([c1, c2], r)]
    else if c1 = '2' && '0' ≤ c2 && c2 ≤ '3' then [([c1, c2], r)]
    else []
  | _ => []

/-- The group `(?P<m>[0-5][0-9])`. -/
def pMinu (s : List Char) : List (List Char × List Char) :=
  match s with
  | c1 :: c2 :: r =>
    if '0' ≤ c1 && c1 ≤ '5' && '0' ≤ c2 && c2 ≤ '9' then [([c1, c2], r)]
    else []
  | _ => []

/-- The group `(?P<s>[0-5][0-9]|60)`, leap second included. -/
def pSecnd (s : List Char) : List (List Char × List Char) :=
  match s with
  | c1 :: c2 :: r =>
    if '0' ≤ c1 && c1 ≤ '5' && '0' ≤ c2 && c2 ≤ '9' then [([c1, c2], r)]
    else if c1 = '6' && c2 = '0' then [([c1, c2], r)]
    else []
  | _ => []

/-- The subsecond digits `\d+`, matched greedily. -/
def pFracDigs (s : List Char) : List (List Char × List Char) :=
  match spanDigs s with
  | ([], _) => []
  | (ds, rest) => [(ds, rest)]

/-- The element `\s+`, matched greedily. -/
def pWsPlus (s : List Char) : List (Unit × List Char) :=
  match s with
  | c :: _ => if isWs c then [((), trimWs s)] else []
  | [] => []

/-- A two digit group `\d{2}` (`Zhrs`, `Zmin`). -/
def pTwoDigs (s : List Char) : List (List Char × List Char) :=
  match s with
  | c1 :: c2 :: r => if isDig c1 && isDig c2 then [([c1, c2], r)] else []
  | _ => []

/-- The zone sign class `[+-−]`: ASCII plus, ASCII hyphen, or U+2212. -/
def pSign (s : List Char) : List (Char × List Char) :=
  match s with
  | c :: r => if c = '+' || c = '-' || c = '−' then [(c, r)] else []
  | [] => []

/-- The inner group `(?:-?(?P<D>...)?)?` without its outer optionality. -/
def pDayGroup (s : List Char) : List (Option (List Char) × List Char) :=
  (pOptDash s).flatMap fun x => pOpt pDay x.2

/-- The content of the date group `-?(?P<M>...)?(?:-?(?P<D>...)?)?`. -/
def pDateContent (s : List Char) :
    List ((Option (List Char) × Option (List Char)) × List Char) :=
  (pOptDash s).flatMap fun x =>
  (pOpt pMonth x.2).flatMap fun m =>
  (pOpt pDayGroup m.2).map fun d =>
  ((m.1, d.1.bind id), d.2)

/-- The whole optional date group following the year. -/
def pDate (s : List Char) :
    List ((Option (List Char) × Option (List Char)) × List Char) :=
  (pOpt pDateContent s).map fun x =>
  (match x.1 with
   | some md => md
   | none => (none, none), x.2)

/-- The subsecond group `(?:[.,](?P<ss>\d+))?` without its optionality. -/
def pFracGroup (s : List Char) : List (List Char × List Char) :=
  match s with
  | c :: r => if c = '.' || c = ',' then pFracDigs r else []
  | [] => []

/-- The seconds group `:?(?P<s>...)(?:[.,](?P<ss>\d+))?`. -/
def pSecGroup (s : List Char) :
    List ((List Char × Option (List Char)) × List Char) :=
  (pOptColon s).flatMap fun x =>
  (pSecnd x.2).flatMap fun sec =>
  (pOpt pFracGroup sec.2).map fun f => ((sec.1, f.1), f.2)

/-- The minutes group `:?(?P<m>...)(?:seconds)?`. -/
def pMinGroup (s : List Char) :
    List ((List Char × Option (List Char × Option (List Char))) × List Char) :=
  (pOptColon s).flatMap fun x =>
  (pMinu x.2).flatMap fun mn =>
  (pOpt pSecGroup mn.2).map fun sg => ((mn.1, sg.1), sg.2)

/-- The time separator `(?:[Tt]|\s+)`. -/
def pTimeSep (s : List Char) : List (Unit × List Char) :=
  (match s with
   | c :: r => if c = 'T' || c = 't' then [((), r)] else []
   | [] => []) ++ pWsPlus s

/-- The captures of the time-of-day group when it is present. -/
structure TimeCaps where
  h : List Char
  m : Option (List Char)
  s : Option (List Char)
  ss : Option (List Char)
deriving DecidableEq

/-- The content of the time group: separator, mandatory hours, optional
minutes group. -/
def pTimeContent (s : List Char) : List (TimeCaps × List Char) :=
  (pTimeSep s).flatMap fun x =>
  (pHour x.2).flatMap fun hh =>
  (pOpt pMinGroup hh.2).map fun mg =>
  (⟨hh.1, mg.1.map (·.1), mg.1.bind (fun y => y.2.map (·.1)),
     mg.1.bind (fun y => y.2.bind (·.2))⟩, mg.2)

/-- The captures of the timezone group when it is present. -/
structure ZoneCaps where
  Z : List Char
  Zsgn : Option Char
  Zhrs : Option (List Char)
  Zmin : Option (List Char)
deriving DecidableEq

/-- The group `(?::?(?P<Zmin>\d{2}))?` without its optionality, remembering
the matched text and the captured digits. -/
def pZminGroup (s : List Char) : List ((List Char × List Char) × List Char) :=
  (pOptColon s).flatMap fun x =>
  (pTwoDigs x.2).map fun d => ((x.1 ++ d.1, d.1), d.2)

/-- The content of the zone group: `[Zz]` or sign, hours, optional minutes. -/
def pZoneContent (s : List Char) : List (ZoneCaps × List Char) :=
  (match s with
   | c :: r => if c = 'Z' || c = 'z' then [(⟨[c], none, none, none⟩, r)] else []
   | [] => [])
  ++ ((pSign s).flatMap fun sg =>
      (pTwoDigs sg.2).flatMap fun hrs =>
      (pOpt pZminGroup hrs.2).map fun mn =>
      (⟨sg.1 :: hrs.1 ++ (mn.1.map (·.1)).getD [], some sg.1, some hrs.1,
         mn.1.map (·.2)⟩, mn.2))

/-- All named captures of `ISO8601_RE`. -/
structure Caps where
  Y : List Char
  M : Option (List Char)
  D : Option (List Char)
  h : Option (List Char)
  m : Option (List Char)
  s : Option (List Char)
  ss : Option (List Char)
  Z : Option (List Char)
  Zsgn : Option Char
  Zhrs : Option (List Char)
  Zmin : Option (List Char)
deriving DecidableEq

/-- All anchored matches of `ISO8601_RE` in preference order, each with the
input left over after the trailing `\s*`. -/
def reAll (s : List Char) : List (Caps × List Char) :=
  (pYear (trimWs s)).flatMap fun y =>
  (pDate y.2).flatMap fun md =>
  (pOpt pTimeContent md.2).flatMap fun t =>
  (pOpt pZoneContent (trimWs t.2)).map fun z =>
  ({ Y := y.1, M := md.1.1, D := md.1.2,
     h := t.1.map TimeCaps.h, m := t.1.bind TimeCaps.m,
     s := t.1.bind TimeCaps.s, ss := t.1.bind TimeCaps.ss,
     Z := z.1.map ZoneCaps.Z, Zsgn := z.1.bind ZoneCaps.Zsgn,
     Zhrs := z.1.bind ZoneCaps.Zhrs, Zmin := z.1.bind ZoneCaps.Zmin },
   trimWs z.2)

/-- `ISO8601_RE.captures`: the first alternative consuming the whole input. -/
def iso8601Captures (s : List Char) : Option Caps :=
  ((reAll s).filter fun x => x.2.isEmpty).head?.map (·.1)

/-- The date part of the reassembled candidate: year and the month and day
captures, absent groups replaced by `1` and zero-padded to two digits. -/
def candDate (c : Caps) : List Char :=
  padZero 4 c.Y ++ '-' :: padZero 2 (c.M.getD ['1'])
    ++ '-' :: padZero 2 (c.D.getD ['1'])

/-- The time part of the reassembled candidate: absent groups replaced by `0`
and zero-padded to two digits. -/
def candTime (c : Caps) : List Char :=
  padZero 2 (c.h.getD ['0']) ++ ':' :: padZero 2 (c.m.getD ['0'])
    ++ ':' :: padZero 2 (c.s.getD ['0'])

/-- The fractional part of the reassembled candidate: a dot and the captured
digits, or nothing. -/
def candFrac (c : Caps) : List Char :=
  match c.ss with
  | none => []
  | some f => '.' :: f

/-- The zone part of the reassembled candidate: `Z` when the zone is absent or
Zulu, otherwise the sign normalised to ASCII, the hours, a colon and the
minutes defaulted to `00`. -/
def candZone (c : Caps) : List Char :=
  match c.Z with
  | none => ['Z']
  | some z =>
    if z = ['Z'] ∨ z = ['z'] then ['Z']
    else (if c.Zsgn = some '+' then '+' else '-') ::
      (c.Zhrs.getD [] ++ ':' :: c.Zmin.getD ['0', '0'])

/-- The fully specified RFC 3339 candidate assembled by the `format!` call of
the `TryFrom` implementation. -/
def buildCandidate (c : Caps) : List Char :=
  candDate c ++ 'T' :: candTime c ++ candFrac c ++ candZone c

/-- The `Iso8601` value type: an unvalidated owned string. -/
structure Iso8601 where
  raw : List Char
deriving DecidableEq

/-- The single error kind, carrying the texts named by the two diagnostic
messages of the source. -/
inductive TimeErr where
  /-- Failed to find an ISO 8601 / RFC 3339 timestamp in the input. -/
  | notFound (input : List Char)
  /-- The reconstructed RFC 3339 candidate failed the strict re-parse; both
  the candidate and the original input are named. -/
  | convertFail (candidate : List Char) (input : List Char)
deriving DecidableEq

/-- `TryFrom<&Iso8601> for DateTime<FixedOffset>`: strict parse first, then
the permissive pattern, candidate reassembly and strict re-parse. -/
def tryFromIso (ts : Iso8601) : Except TimeErr DT :=
  match parseRfc3339 ts.raw with
  | some dt => .ok dt
  | none =>
    match iso8601Captures ts.raw with
    | none => .error (.notFound ts.raw)
    | some cap =>
      match parseRfc3339 (buildCandidate cap) with
      | some dt => .ok dt
      | none => .error (.convertFail (buildCandidate cap) ts.raw)

deriving instance DecidableEq for Except

/-- Rust's `Ord::cmp` on integers. -/
def intCompare (x y : Int) : Ordering :=
  if x < y then .lt else if x = y then .eq else .gt

/-- `PartialEq for Iso8601`: both conversions must succeed and denote the
same instant; any failure compares unequal. -/
def iso8601Eq (a b : Iso8601) : Bool :=
  match tryFromIso a with
  | .ok x =>
    match tryFromIso b with
    | .ok y => x.instant == y.instant
    | .error _ => false
  | .error _ => false

/-- `PartialOrd for Iso8601`: defined only when both conversions succeed. -/
def meaningCmp (a b : Iso8601) : Option Ordering :=
  match tryFromIso a with
  | .ok x =>
    match tryFromIso b with
    | .ok y => some (intCompare x.instant y.instant)
    | .error _ => none
  | .error _ => none

/-- `Ord for Iso8601`: the total sorting order; a valid operand is greater
than an invalid one, and two invalid operands are equal. -/
def sortCmp (a b : Iso8601) : Ordering :=
  match tryFromIso a with
  | .ok x =>
    match tryFromIso b with
    | .ok y => intCompare x.instant y.instant
    | .error _ => .gt
  | .error _ =>
    match tryFromIso b with
    | .ok _ => .lt
    | .error _ => .eq

/-! ## Properties of the comparison relations -/

/-- The sorting key: the instant when conversion succeeds, `none` otherwise. -/
def sortKey (a : Iso8601) : Option Int :=
  match tryFromIso a with
  | .ok x => some x.instant
  | .error _ => none

/-- Comparison of optional instants with `none` ordered first. -/
def optCompare : Option Int → Option Int → Ordering
  | none, none => .eq
  | none, some _ => .lt
  | some _, none => .gt
  | some x, some y => intCompare x y

theorem intCompare_self (x : Int) : intCompare x x = .eq := by
  unfold intCompare
  rw [if_neg (lt_irrefl x), if_pos rfl]

theorem intCompare_swap (x y : Int) : (intCompare x y).swap = intCompare y x := by
  unfold intCompare
  by_cases h1 : x < y
  · rw [if_pos h1, if_neg (by omega : ¬ y < x), if_neg (by omega : ¬ y = x)]
    rfl
  · by_cases h2 : x = y
    · rw [if_neg h1, if_pos h2, if_neg (by omega : ¬ y < x),
        if_pos (by omega : y = x)]
      rfl
    · rw [if_neg h1, if_neg h2, if_pos (by omega : y < x)]
      rfl

theorem intCompare_le_trans {x y z : Int} (h1 : intCompare x y ≠ .gt)
    (h2 : intCompare y z ≠ .gt) : intCompare x z ≠ .gt := by
  unfold intCompare at *
  split_ifs at * <;>
    first
    | decide
    | exact absurd rfl h1
    | exact absurd rfl h2
    | omega

theorem sortCmp_eq_optCompare (a b : Iso8601) :
    sortCmp a b = optCompare (sortKey a) (sortKey b) := by
  unfold sortCmp sortKey
  cases tryFromIso a <;> cases tryFromIso b <;> rfl

theorem optCompare_self (x : Option Int) : optCompare x x = .eq := by
  cases x <;> simp [optCompare, intCompare_self]

theorem optCompare_swap (x y : Option Int) :
    (optCompare x y).swap = optCompare y x := by
  cases x <;> cases y <;>
    first
    | rfl
    | exact intCompare_swap _ _

theorem optCompare_le_trans {x y z : Option Int} (h1 : optCompare x y ≠ .gt)
    (h2 : optCompare y z ≠ .gt) : optCompare x z ≠ .gt := by
  cases x <;> cases y <;> cases z <;>
    simp_all [optCompare] <;> exact intCompare_le_trans h1 h2

/-- Claim C1: when exactly one operand of `Ord::cmp` fails conversion, the
failing operand is ordered strictly before the succeeding one (`Less` when it
is the left operand, `Greater` when it is the right one), and two failing
operands compare `Equal` regardless of their raw text. -/
theorem sortCmp_invalid_first (a b c : Iso8601)
    (ha : (tryFromIso a).isOk = false) (hb : (tryFromIso b).isOk = true)
    (hc : (tryFromIso c).isOk = false) :
    sortCmp a b = .lt ∧ sortCmp b a = .gt ∧ sortCmp a c = .eq ∧
      sortCmp c a = .eq := by
  unfold sortCmp
  cases hA : tryFromIso a <;> cases hB : tryFromIso b <;>
    cases hC : tryFromIso c <;> simp_all [Except.isOk, Except.toBool]

/-- Witness for C1 at concrete inputs: `"boo"` and `"bar"` fail conversion,
`"2018-10-11T03:23:38Z"` succeeds. -/
theorem sortCmp_invalid_first_witness :
    (tryFromIso ⟨"boo".data⟩).isOk = false ∧
    (tryFromIso ⟨"2018-10-11T03:23:38Z".data⟩).isOk = true ∧
    (tryFromIso ⟨"bar".data⟩).isOk = false ∧
    (sortCmp ⟨"boo".data⟩ ⟨"2018-10-11T03:23:38Z".data⟩ = .lt ∧
      sortCmp ⟨"2018-10-11T03:23:38Z".data⟩ ⟨"boo".data⟩ = .gt ∧
      sortCmp ⟨"boo".data⟩ ⟨"bar".data⟩ = .eq ∧
      sortCmp ⟨"bar".data⟩ ⟨"boo".data⟩ = .eq) :=
  ⟨by decide, by decide, by decide,
    sortCmp_invalid_first _ _ _ (by decide) (by decide) (by decide)⟩

/-- Claim C2: `Ord::cmp` is a valid total order over all values, including
unparsable ones: every comparison is one of the three orderings, swapping the
operands reverses the result, comparison is reflexive-equal, and the
at-most relation is transitive. -/
theorem sortCmp_total_order (a b c : Iso8601)
    (hab : sortCmp a b ≠ .gt) (hbc : sortCmp b c ≠ .gt) :
    (sortCmp a b = .lt ∨ sortCmp a b = .eq ∨ sortCmp a b = .gt) ∧
    sortCmp b a = (sortCmp a b).swap ∧ sortCmp a a = .eq ∧
    sortCmp a c ≠ .gt := by
  refine ⟨?_, ?_, ?_, ?_⟩
  · cases sortCmp a b <;> simp
  · rw [sortCmp_eq_optCompare a b, sortCmp_eq_optCompare b a, optCompare_swap]
  · rw [sortCmp_eq_optCompare]; exact optCompare_self _
  · rw [sortCmp_eq_optCompare] at hab hbc ⊢
    exact optCompare_le_trans hab hbc

/-- Witness for C2 at concrete inputs: an invalid value below two valid ones. -/
theorem sortCmp_total_order_witness :
    sortCmp ⟨"boo".data⟩ ⟨"2018-10-11T03:23:38Z".data⟩ ≠ .gt ∧
    sortCmp ⟨"2018-10-11T03:23:38Z".data⟩ ⟨"2018-10-11T03:23:39Z".data⟩ ≠ .gt ∧
    ((sortCmp ⟨"boo".data⟩ ⟨"2018-10-11T03:23:38Z".data⟩ = .lt ∨
       sortCmp ⟨"boo".data⟩ ⟨"2018-10-11T03:23:38Z".data⟩ = .eq ∨
       sortCmp ⟨"boo".data⟩ ⟨"2018-10-11T03:23:38Z".data⟩ = .gt) ∧
     sortCmp ⟨"2018-10-11T03:23:38Z".data⟩ ⟨"boo".data⟩ =
       (sortCmp ⟨"boo".data⟩ ⟨"2018-10-11T03:23:38Z".data⟩).swap ∧
     sortCmp ⟨"boo".data⟩ ⟨"boo".data⟩ = .eq ∧
     sortCmp ⟨"boo".data⟩ ⟨"2018-10-11T03:23:39Z".data⟩ ≠ .gt) :=
  ⟨by decide, by decide,
    sortCmp_total_order _ _ _ (by decide) (by decide)⟩

/-- Claim C3: when either operand fails conversion, `PartialEq::eq` is false
in both directions and `PartialOrd::partial_cmp` is undefined in both
directions; in particular an invalid value is not equal to itself. -/
theorem meaning_invalid_undefined (a b : Iso8601)
    (ha : (tryFromIso a).isOk = false) :
    iso8601Eq a b = false ∧ iso8601Eq b a = false ∧
    meaningCmp a b = none ∧ meaningCmp b a = none ∧
    iso8601Eq a a = false := by
  unfold iso8601Eq meaningCmp
  cases hA : tryFromIso a <;> cases hB : tryFromIso b <;>
    simp_all [Except.isOk, Except.toBool]

/-- Witness for C3 at the repository's own example `"boo"`. -/
theorem meaning_invalid_undefined_witness :
    (tryFromIso ⟨"boo".data⟩).isOk = false ∧
    (iso8601Eq ⟨"boo".data⟩ ⟨"2018-10-11T03:23:38Z".data⟩ = false ∧
     iso8601Eq ⟨"2018-10-11T03:23:38Z".data⟩ ⟨"boo".data⟩ = false ∧
     meaningCmp ⟨"boo".data⟩ ⟨"2018-10-11T03:23:38Z".data⟩ = none ∧
     meaningCmp ⟨"2018-10-11T03:23:38Z".data⟩ ⟨"boo".data⟩ = none ∧
     iso8601Eq ⟨"boo".data⟩ ⟨"boo".data⟩ = false) :=
  ⟨by decide, meaning_invalid_undefined _ _ (by decide)⟩

/-- Claim C4: when both conversions succeed, `PartialEq::eq` is true whenever
the two denoted fixed-offset instants are identical (whatever the raw texts),
and `PartialOrd::partial_cmp` is the chronological comparison of the denoted
instants. -/
theorem meaning_valid_chronological (a b : Iso8601) (x y : DT)
    (hx : tryFromIso a = .ok x) (hy : tryFromIso b = .ok y) :
    (x.instant = y.instant → iso8601Eq a b = true) ∧
    meaningCmp a b = some (intCompare x.instant y.instant) := by
  unfold iso8601Eq meaningCmp
  rw [hx, hy]
  exact ⟨fun h => by simp [h], rfl⟩

/-- Witness for C4 at the spec's offset-equality example: two different raw
texts denoting the same instant in different timezones. -/
theorem meaning_valid_chronological_witness :
    tryFromIso ⟨"2018-10-11T03:23:38-08:00".data⟩ =
      .ok ⟨2018, 10, 11, 3, 23, 38, 0, -28800⟩ ∧
    tryFromIso ⟨"2018-10-11T11:23:38Z".data⟩ =
      .ok ⟨2018, 10, 11, 11, 23, 38, 0, 0⟩ ∧
    ((DT.instant ⟨2018, 10, 11, 3, 23, 38, 0, -28800⟩ =
        DT.instant ⟨2018, 10, 11, 11, 23, 38, 0, 0⟩ →
      iso8601Eq ⟨"2018-10-11T03:23:38-08:00".data⟩
        ⟨"2018-10-11T11:23:38Z".data⟩ = true) ∧
     meaningCmp ⟨"2018-10-11T03:23:38-08:00".data⟩
        ⟨"2018-10-11T11:23:38Z".data⟩ =
      some (intCompare (DT.instant ⟨2018, 10, 11, 3, 23, 38, 0, -28800⟩)
        (DT.instant ⟨2018, 10, 11, 11, 23, 38, 0, 0⟩))) :=
  ⟨by decide, by decide,
    meaning_valid_chronological _ _ _ _ (by decide) (by decide)⟩

/-! ## Digit, whitespace and scanning facts -/

/-- Every character of the list is an ASCII digit. -/
def AllDig (l : List Char) : Prop := ∀ c ∈ l, isDig c = true

/-- The list is empty or starts with a non-whitespace character. -/
def HeadNotWs : List Char → Prop
  | [] => True
  | c :: _ => isWs c = false

/-- The list is empty or starts with a non-digit character. -/
def HeadNotDig : List Char → Prop
  | [] => True
  | c :: _ => isDig c = false

theorem charLe_iff {a b : Char} : a ≤ b ↔ a.toNat ≤ b.toNat :=
  ⟨fun h => by rw [Char.le_def] at h; exact h,
   fun h => by rw [Char.le_def]; exact h⟩

theorem charEq_iff {a b : Char} : a = b ↔ a.toNat = b.toNat :=
  ⟨fun h => by rw [h], fun h => Char.eq_of_val_eq (UInt32.toNat.inj h)⟩

theorem isDig_toNat {c : Char} (h : isDig c = true) :
    48 ≤ c.toNat ∧ c.toNat ≤ 57 := by
  unfold isDig at h
  rw [Bool.and_eq_true, decide_eq_true_eq, decide_eq_true_eq] at h
  exact ⟨charLe_iff.mp h.1, charLe_iff.mp h.2⟩

theorem digVal_le_of_dig {c : Char} (h : isDig c = true) : digVal c ≤ 9 := by
  obtain ⟨h1, h2⟩ := isDig_toNat h
  unfold digVal
  omega

theorem not_ws_of_dig {c : Char} (h : isDig c = true) : isWs c = false := by
  obtain ⟨h1, h2⟩ := isDig_toNat h
  unfold isWs
  simp only [Bool.or_eq_false_iff, Bool.and_eq_false_iff,
    decide_eq_false_iff_not]
  omega

theorem headNotWs_of_allDig {l r : List Char} (h : AllDig l) (hne : l ≠ []) :
    HeadNotWs (l ++ r) := by
  cases l with
  | nil => exact absurd rfl hne
  | cons c cs => exact not_ws_of_dig (h c (List.mem_cons_self c cs))

theorem trimWs_eq_self {s : List Char} (h : HeadNotWs s) : trimWs s = s := by
  cases s with
  | nil => rfl
  | cons c cs =>
    have h2 : isWs c = false := h
    simp [trimWs, List.dropWhile_cons, h2]

theorem takeDigits_le {ds : List Char} {k : Nat} (hd : AllDig ds)
    (hlen : k ≤ ds.length) (rest : List Char) :
    takeDigits k (ds ++ rest) = (ds.take k, ds.drop k ++ rest) := by
  induction k generalizing ds with
  | zero => simp [takeDigits]
  | succ k ih =>
    cases ds with
    | nil => simp at hlen
    | cons c cs =>
      have hc : isDig c = true := hd c (List.mem_cons_self c cs)
      have hcs : AllDig cs := fun x hx => hd x (List.mem_cons_of_mem c hx)
      simp only [List.cons_append, takeDigits, hc, if_true, List.append_eq,
        ih hcs (by simpa using hlen), List.take_succ_cons, List.drop_succ_cons]

theorem takeDigits_all {ds rest : List Char} {k : Nat} (hd : AllDig ds)
    (hlen : ds.length ≤ k) (hrest : HeadNotDig rest) :
    takeDigits k (ds ++ rest) = (ds, rest) := by
  induction ds generalizing k with
  | nil =>
    cases k with
    | zero => rfl
    | succ k =>
      cases rest with
      | nil => rfl
      | cons c cs =>
        have h2 : isDig c = false := hrest
        simp only [List.nil_append, takeDigits]
        rw [if_neg (by simp [h2])]
  | cons c cs ih =>
    cases k with
    | zero => simp at hlen
    | succ k =>
      have hc : isDig c = true := hd c (List.mem_cons_self c cs)
      have hcs : AllDig cs := fun x hx => hd x (List.mem_cons_of_mem c hx)
      simp only [List.cons_append, takeDigits, hc, if_true, List.append_eq,
        ih hcs (by simpa using hlen) ]

theorem takeDigits_allDig {k : Nat} {s : List Char} :
    AllDig (takeDigits k s).1 := by
  induction k generalizing s with
  | zero => intro c hc; simp [takeDigits] at hc
  | succ k ih =>
    cases s with
    | nil => intro c hc; simp [takeDigits] at hc
    | cons c cs =>
      by_cases hc : isDig c = true
      · intro x hx
        simp only [takeDigits, hc, if_true] at hx
        rcases List.mem_cons.mp hx with h | h
        · exact h ▸ hc
        · exact ih x h
      · intro x hx
        simp only [takeDigits, Bool.not_eq_true] at hc
        simp [takeDigits, hc] at hx

theorem scanNum_exact {w : Nat} {ds rest : List Char} (hd : AllDig ds)
    (hlen : ds.length = w) (hne : ds ≠ []) :
    scanNum w (ds ++ rest) = some (toNum ds, rest) := by
  unfold scanNum
  rw [takeDigits_le hd (le_of_eq hlen.symm) rest, ← hlen, List.take_length,
    List.drop_length, List.nil_append]
  cases ds with
  | nil => exact absurd rfl hne
  | cons c cs => rfl

theorem scanNum_all {w : Nat} {ds rest : List Char} (hd : AllDig ds)
    (hlen : ds.length ≤ w) (hne : ds ≠ []) (hrest : HeadNotDig rest) :
    scanNum w (ds ++ rest) = some (toNum ds, rest) := by
  unfold scanNum
  rw [takeDigits_all hd hlen hrest]
  cases ds with
  | nil => exact absurd rfl hne
  | cons c cs => rfl

theorem dropDigs_append {ds rest : List Char} (hd : AllDig ds) :
    (ds ++ rest).dropWhile isDig = rest.dropWhile isDig := by
  induction ds with
  | nil => rfl
  | cons c cs ih =>
    have hc : isDig c = true := hd c (List.mem_cons_self c cs)
    simp only [List.cons_append, List.dropWhile_cons, hc, if_true]
    exact ih fun x hx => hd x (List.mem_cons_of_mem c hx)

theorem dropWhile_headNot {rest : List Char} (h : HeadNotDig rest) :
    rest.dropWhile isDig = rest := by
  cases rest with
  | nil => rfl
  | cons c cs =>
    have h2 : isDig c = false := h
    simp [List.dropWhile_cons, h2]

theorem spanDigs_all {ds rest : List Char} (hd : AllDig ds)
    (hrest : HeadNotDig rest) : spanDigs (ds ++ rest) = (ds, rest) := by
  unfold spanDigs
  rw [dropDigs_append hd, dropWhile_headNot hrest]
  congr 1
  induction ds with
  | nil =>
    cases rest with
    | nil => rfl
    | cons c cs =>
      have h2 : isDig c = false := hrest
      simp [List.takeWhile_cons, h2]
  | cons c cs ih =>
    have hc : isDig c = true := hd c (List.mem_cons_self c cs)
    simp only [List.cons_append, List.takeWhile_cons, hc, if_true,
      List.cons.injEq, true_and]
    exact ih fun x hx => hd x (List.mem_cons_of_mem c hx)

/-! ## Digit string arithmetic -/

theorem foldl_toNum (acc : Nat) (ds : List Char) :
    ds.foldl (fun a c => 10 * a + digVal c) acc
      = acc * 10 ^ ds.length + toNum ds := by
  induction ds generalizing acc with
  | nil => simp [toNum]
  | cons c cs ih =>
    simp only [List.foldl_cons, toNum, List.length_cons]
    rw [ih (10 * acc + digVal c), ih (10 * 0 + digVal c)]
    ring

theorem toNum_single (c : Char) : toNum [c] = digVal c := by
  simp [toNum]

theorem toNum_two (a b : Char) : toNum [a, b] = 10 * digVal a + digVal b := by
  simp [toNum]

theorem toNum_append_single (ds : List Char) (c : Char) :
    toNum (ds ++ [c]) = 10 * toNum ds + digVal c := by
  simp only [toNum, List.foldl_append, List.foldl_cons, List.foldl_nil]

theorem toNum_replicate_zero (k : Nat) (ds : List Char) :
    toNum (List.replicate k '0' ++ ds) = toNum ds := by
  induction k with
  | zero => rfl
  | succ k ih =>
    have h0 : (10 : Nat) * 0 + digVal '0' = 10 * 0 + 0 := by decide
    simp only [List.replicate_succ, List.cons_append, toNum, List.foldl_cons,
      h0] at ih ⊢
    exact ih

theorem toNum_padZero (w : Nat) (ds : List Char) :
    toNum (padZero w ds) = toNum ds := toNum_replicate_zero _ _

theorem toNum_lt {ds : List Char} (hd : AllDig ds) :
    toNum ds < 10 ^ ds.length := by
  induction ds with
  | nil => simp [toNum]
  | cons c cs ih =>
    have hv : digVal c ≤ 9 := digVal_le_of_dig (hd c (List.mem_cons_self c cs))
    have hcs := ih fun x hx => hd x (List.mem_cons_of_mem c hx)
    have hP : 0 < 10 ^ cs.length := pow_pos (by omega) _
    have hsplit : toNum (c :: cs) = digVal c * 10 ^ cs.length + toNum cs := by
      show List.foldl _ (10 * 0 + digVal c) cs = _
      rw [foldl_toNum]
      ring
    rw [hsplit, List.length_cons, pow_succ]
    have h1 : digVal c * 10 ^ cs.length ≤ 9 * 10 ^ cs.length :=
      Nat.mul_le_mul_right _ hv
    omega

theorem dchar_isDig {n : Nat} (h : n ≤ 9) : isDig (dchar n) = true := by
  interval_cases n <;> decide

theorem digVal_dchar {n : Nat} (h : n ≤ 9) : digVal (dchar n) = n := by
  interval_cases n <;> decide

theorem natDigits_ne_nil (n : Nat) : natDigits n ≠ [] := by
  rw [natDigits]
  split <;> simp

theorem allDig_natDigits (n : Nat) : AllDig (natDigits n) := by
  induction n using Nat.strong_induction_on with
  | _ n ih =>
    rw [natDigits]
    split
    · intro c hc
      rw [List.mem_singleton.mp hc]
      exact dchar_isDig (by omega)
    · rename_i h10
      intro c hc
      rcases List.mem_append.mp hc with h | h
      · exact ih (n / 10) (Nat.div_lt_self (by omega) (by omega)) c h
      · rw [List.mem_singleton.mp h]
        exact dchar_isDig (by omega)

theorem toNum_natDigits (n : Nat) : toNum (natDigits n) = n := by
  induction n using Nat.strong_induction_on with
  | _ n ih =>
    rw [natDigits]
    split
    · rename_i h10
      rw [toNum_single, digVal_dchar (by omega)]
    · rename_i h10
      rw [toNum_append_single,
        ih (n / 10) (Nat.div_lt_self (by omega) (by omega)),
        digVal_dchar (by omega)]
      omega

theorem natDigits_len_le (w : Nat) : ∀ {n : Nat}, n < 10 ^ (w + 1) →
    (natDigits n).length ≤ w + 1 := by
  induction w with
  | zero =>
    intro n h
    rw [natDigits, dif_pos (by simpa using h)]
    simp
  | succ w ih =>
    intro n h
    rw [natDigits]
    split
    · simp
    · rename_i h10
      have hdiv : n / 10 < 10 ^ (w + 1) := by
        rw [Nat.div_lt_iff_lt_mul (by omega)]
        calc n < 10 ^ (w + 2) := h
        _ = 10 ^ (w + 1) * 10 := by ring
      have h2 := ih hdiv
      simp only [List.length_append, List.length_singleton]
      omega

theorem length_padZero {w : Nat} {ds : List Char} (h : ds.length ≤ w) :
    (padZero w ds).length = w := by
  simp [padZero]
  omega

theorem padZero_self {w : Nat} {ds : List Char} (h : ds.length = w) :
    padZero w ds = ds := by
  simp [padZero, h]

theorem allDig_padZero {w : Nat} {ds : List Char} (h : AllDig ds) :
    AllDig (padZero w ds) := by
  intro c hc
  rcases List.mem_append.mp hc with h2 | h2
  · rw [List.eq_of_mem_replicate h2]
    decide
  · exact h c h2

theorem allDig_padNum (w n : Nat) : AllDig (padNum w n) :=
  allDig_padZero (allDig_natDigits n)

theorem toNum_padNum (w n : Nat) : toNum (padNum w n) = n := by
  rw [padNum, toNum_padZero, toNum_natDigits]

theorem length_padNum {w n : Nat} (h : n < 10 ^ (w + 1)) :
    (padNum (w + 1) n).length = w + 1 :=
  length_padZero (natDigits_len_le w h)

theorem padNum_ne_nil (w n : Nat) : padNum w n ≠ [] := by
  intro hc
  rcases (List.append_eq_nil.mp hc) with ⟨-, h2⟩
  exact natDigits_ne_nil n h2

theorem padNum_two {n : Nat} (h : n ≤ 99) :
    padNum 2 n = [dchar (n / 10), dchar (n % 10)] := by
  unfold padNum
  by_cases h10 : n < 10
  · rw [natDigits, dif_pos h10]
    show List.replicate (2 - 1) '0' ++ [dchar n] = _
    rw [Nat.div_eq_of_lt h10, Nat.mod_eq_of_lt h10]
    rfl
  · rw [natDigits, dif_neg h10, natDigits, dif_pos (by omega : n / 10 < 10),
      padZero_self (by simp)]
    rfl

/-! ## Symbolic execution of the strict parser on canonical shapes -/

theorem headNotWs_cons {c : Char} {r : List Char} (h : isWs c = false) :
    HeadNotWs (c :: r) := h

theorem headNotDig_cons {c : Char} {r : List Char} (h : isDig c = false) :
    HeadNotDig (c :: r) := h

/-- The list is empty or starts with something other than a dot. -/
def HeadNotDot : List Char → Prop
  | [] => True
  | c :: _ => c ≠ '.'

/-- The zone slice of a canonical string: possibly empty, and a nonempty one
must not begin with a digit, whitespace or a dot, so that the preceding
fractional-second and whitespace items cannot consume it. -/
def ZoneHead : List Char → Prop
  | [] => True
  | c :: _ => isDig c = false ∧ isWs c = false ∧ c ≠ '.'

theorem ZoneHead.headNotWs {zt : List Char} (h : ZoneHead zt) :
    HeadNotWs zt := by
  cases zt with
  | nil => trivial
  | cons c cs => exact (h : isDig c = false ∧ isWs c = false ∧ c ≠ '.').2.1

theorem ZoneHead.headNotDig {zt : List Char} (h : ZoneHead zt) :
    HeadNotDig zt := by
  cases zt with
  | nil => trivial
  | cons c cs => exact (h : isDig c = false ∧ isWs c = false ∧ c ≠ '.').1

theorem ZoneHead.headNotDot {zt : List Char} (h : ZoneHead zt) :
    HeadNotDot zt := by
  cases zt with
  | nil => trivial
  | cons c cs => exact (h : isDig c = false ∧ isWs c = false ∧ c ≠ '.').2.2

theorem scanYear_digits {yt rest : List Char} (hy : AllDig yt)
    (hylen : yt.length = 4) :
    scanYear (yt ++ rest) = some ((toNum yt : Int), rest) := by
  cases yt with
  | nil => simp at hylen
  | cons c cs =>
    have hc : isDig c = true := hy c (List.mem_cons_self c cs)
    have hne : ¬ c = '-' := by
      intro h
      rw [h] at hc
      exact absurd hc (by decide)
    have hne2 : ¬ c = '+' := by
      intro h
      rw [h] at hc
      exact absurd hc (by decide)
    show scanYear (c :: (cs ++ rest)) = _
    simp only [scanYear, if_neg hne, if_neg hne2]
    rw [show c :: (cs ++ rest) = (c :: cs) ++ rest from rfl,
      scanNum_exact hy hylen (by simp)]
    rfl

theorem scanYear_neg {yt rest : List Char} (hy : AllDig yt) (hne : yt ≠ [])
    (hrest : HeadNotDig rest) :
    scanYear ('-' :: (yt ++ rest)) = some (-(toNum yt : Int), rest) := by
  simp only [scanYear, if_pos rfl]
  rw [spanDigs_all hy hrest]
  cases yt with
  | nil => exact absurd rfl hne
  | cons c cs => rfl

theorem scanYear_pos {yt rest : List Char} (hy : AllDig yt) (hne : yt ≠ [])
    (hrest : HeadNotDig rest) :
    scanYear ('+' :: (yt ++ rest)) = some ((toNum yt : Int), rest) := by
  simp only [scanYear, if_neg (by decide : ¬('+' : Char) = '-'), if_pos rfl]
  rw [spanDigs_all hy hrest]
  cases yt with
  | nil => exact absurd rfl hne
  | cons c cs => rfl

theorem expectChar_cons (c : Char) (r : List Char) :
    expectChar c (c :: r) = some r := by
  simp [expectChar]

theorem scanNano_nodot {s : List Char} (h : HeadNotDot s) :
    scanNano s = some (0, s) := by
  cases s with
  | nil => rfl
  | cons c cs =>
    have h2 : c ≠ '.' := h
    simp [scanNano, h2]

theorem scanNano_dot {fd rest : List Char} (hd : AllDig fd) (hne : fd ≠ [])
    (hrest : HeadNotDig rest) :
    scanNano ('.' :: (fd ++ rest))
      = some (toNum (fd.take 9) * 10 ^ (9 - (fd.take 9).length), rest) := by
  show nanoOf (takeDigits 9 (fd ++ rest)) = _
  by_cases hlen : fd.length ≤ 9
  · rw [takeDigits_all hd hlen hrest, List.take_of_length_le hlen]
    unfold nanoOf
    rw [if_neg (by simpa using hne)]
    simp only []
    rw [dropWhile_headNot hrest]
  · push_neg at hlen
    rw [takeDigits_le hd (by omega) rest]
    have h9 : (fd.take 9).length = 9 := by
      rw [List.length_take]
      omega
    have hne9 : fd.take 9 ≠ [] := by
      intro hc
      rw [hc] at h9
      simp at h9
    unfold nanoOf
    rw [if_neg (by simpa using hne9)]
    simp only []
    rw [dropDigs_append fun x hx => hd x (List.mem_of_mem_drop hx),
      dropWhile_headNot hrest]

/-- The offset value produced by the timezone item on a signed zone slice. -/
def tzVal (sgn h1 h2 n1 n2 : Char) : Int :=
  if sgn = '-'
  then -(((digVal h1 * 10 + digVal h2) * 3600
      + (digVal n1 * 10 + digVal n2) * 60 : Nat) : Int)
  else (((digVal h1 * 10 + digVal h2) * 3600
      + (digVal n1 * 10 + digVal n2) * 60 : Nat) : Int)

theorem dropColonWs_digit {n1 : Char} {r : List Char} (h : isDig n1 = true) :
    dropColonWs (':' :: n1 :: r) = n1 :: r := by
  have hw := not_ws_of_dig h
  have hne : ¬ n1 = ':' := by
    intro hc
    rw [hc] at h
    exact absurd h (by decide)
  unfold dropColonWs
  rw [List.dropWhile_cons, if_pos (by decide), List.dropWhile_cons,
    if_neg (by simp [hne, hw])]

theorem scanTz_zulu_upper (r : List Char) : scanTz ('Z' :: r) = some (0, r) := by
  simp [scanTz]

theorem scanTz_zulu_lower (r : List Char) : scanTz ('z' :: r) = some (0, r) := by
  simp [scanTz]

theorem scanTz_signed {sgn h1 h2 n1 n2 : Char} {r : List Char}
    (hsgn : sgn = '+' ∨ sgn = '-')
    (hh1 : isDig h1 = true) (hh2 : isDig h2 = true)
    (hn1 : isDig n1 = true) (hle : n1 ≤ '5') (hn2 : isDig n2 = true) :
    scanTz (sgn :: h1 :: h2 :: ':' :: n1 :: n2 :: r)
      = some (tzVal sgn h1 h2 n1 n2, r) := by
  have h0 : '0' ≤ n1 := charLe_iff.mpr (isDig_toNat hn1).1
  have hz : ¬ (sgn = 'Z' || sgn = 'z') = true := by
    rcases hsgn with h | h <;> subst h <;> decide
  have hpm : (sgn = '+' || sgn = '-') = true := by
    rcases hsgn with h | h <;> subst h <;> decide
  have hcond1 : (isDig h1 && isDig h2) = true := by rw [hh1, hh2]; rfl
  have hcond2 : (('0' ≤ n1 && n1 ≤ '5') && isDig n2) = true := by
    simp [h0, hle, hn2]
  simp only [scanTz, if_neg hz, if_pos hpm]
  rw [if_pos hcond1, dropColonWs_digit hn1]
  simp only [hcond2, if_true]
  unfold tzVal
  rfl

theorem scanTz_signed_badmin {sgn h1 h2 n1 n2 : Char} {r : List Char}
    (hsgn : sgn = '+' ∨ sgn = '-')
    (hh1 : isDig h1 = true) (hh2 : isDig h2 = true)
    (hn1 : isDig n1 = true) (hgt : ¬ n1 ≤ '5') :
    scanTz (sgn :: h1 :: h2 :: ':' :: n1 :: n2 :: r) = none := by
  have hz : ¬ (sgn = 'Z' || sgn = 'z') = true := by
    rcases hsgn with h | h <;> subst h <;> decide
  have hpm : (sgn = '+' || sgn = '-') = true := by
    rcases hsgn with h | h <;> subst h <;> decide
  have hcond1 : (isDig h1 && isDig h2) = true := by rw [hh1, hh2]; rfl
  have hcond2 : (('0' ≤ n1 && n1 ≤ '5') && isDig n2) = false := by
    simp [hgt]
  simp only [scanTz, if_neg hz, if_pos hpm]
  rw [if_pos hcond1, dropColonWs_digit hn1]
  simp only [hcond2]
  rfl

/-- The fractional slice of a canonical string together with the nanosecond
value the strict parser extracts from it. -/
inductive FracShape : List Char → Nat → Prop where
  | nil : FracShape [] 0
  | dot (fd : List Char) (hd : AllDig fd) (hne : fd ≠ []) :
      FracShape ('.' :: fd) (toNum (fd.take 9) * 10 ^ (9 - (fd.take 9).length))

/-- Symbolic execution of the strict parser items after the year on a fully
canonical tail: dashed two-digit month and day, a literal `T`, colon-separated
two-digit time fields, a fractional slice and a zone slice. -/
theorem parseAfterYear_canon {y : Int} {mt dt2 ht mit st ft zt : List Char}
    {fracN : Nat}
    (hm : AllDig mt) (hmlen : mt.length = 2)
    (hd2 : AllDig dt2) (hdlen : dt2.length = 2)
    (hh : AllDig ht) (hhlen : ht.length = 2)
    (hmi : AllDig mit) (hmilen : mit.length = 2)
    (hs : AllDig st) (hslen : st.length = 2)
    (hf : FracShape ft fracN) (hz : ZoneHead zt) :
    parseAfterYear y ('-' :: (mt ++ '-' :: (dt2 ++ 'T' :: (ht ++ ':' :: (mit
        ++ ':' :: (st ++ (ft ++ zt)))))))
      = match scanTz zt with
        | some (off, []) =>
          toDatetime ⟨y, toNum mt, toNum dt2, toNum ht, toNum mit, toNum st,
            fracN, off⟩
        | _ => none := by
  have hmne : mt ≠ [] := by intro hc; rw [hc] at hmlen; simp at hmlen
  have hdne : dt2 ≠ [] := by intro hc; rw [hc] at hdlen; simp at hdlen
  have hhne : ht ≠ [] := by intro hc; rw [hc] at hhlen; simp at hhlen
  have hmine : mit ≠ [] := by intro hc; rw [hc] at hmilen; simp at hmilen
  have hsne : st ≠ [] := by intro hc; rw [hc] at hslen; simp at hslen
  unfold parseAfterYear
  rw [trimWs_eq_self (headNotWs_cons (by decide)), expectChar_cons]
  simp only [Option.some_bind]
  rw [trimWs_eq_self (headNotWs_of_allDig hm hmne),
    scanNum_exact hm hmlen hmne]
  simp only [Option.some_bind]
  rw [trimWs_eq_self (headNotWs_cons (by decide)), expectChar_cons]
  simp only [Option.some_bind]
  rw [trimWs_eq_self (headNotWs_of_allDig hd2 hdne),
    scanNum_exact hd2 hdlen hdne]
  simp only [Option.some_bind]
  rw [trimWs_eq_self (headNotWs_cons (by decide)), expectChar_cons]
  simp only [Option.some_bind]
  rw [trimWs_eq_self (headNotWs_of_allDig hh hhne),
    scanNum_exact hh hhlen hhne]
  simp only [Option.some_bind]
  rw [trimWs_eq_self (headNotWs_cons (by decide)), expectChar_cons]
  simp only [Option.some_bind]
  rw [trimWs_eq_self (headNotWs_of_allDig hmi hmine),
    scanNum_exact hmi hmilen hmine]
  simp only [Option.some_bind]
  rw [trimWs_eq_self (headNotWs_cons (by decide)), expectChar_cons]
  simp only [Option.some_bind]
  rw [trimWs_eq_self (headNotWs_of_allDig hs hsne),
    scanNum_exact hs hslen hsne]
  simp only [Option.some_bind]
  cases hf with
  | nil =>
    rw [List.nil_append, scanNano_nodot hz.headNotDot]
    simp only [Option.some_bind]
    rw [trimWs_eq_self hz.headNotWs]
    rcases hsz : scanTz zt with _ | ⟨off, rest2⟩
    · rfl
    · simp only [Option.some_bind]
      cases rest2 with
      | nil => rw [if_pos rfl]
      | cons a as => rw [if_neg (by simp)]
  | dot fd hfd hfne =>
    rw [show ('.' :: fd) ++ zt = '.' :: (fd ++ zt) from rfl,
      scanNano_dot hfd hfne hz.headNotDig]
    simp only [Option.some_bind]
    rw [trimWs_eq_self hz.headNotWs]
    rcases hsz : scanTz zt with _ | ⟨off, rest2⟩
    · rfl
    · simp only [Option.some_bind]
      cases rest2 with
      | nil => rw [if_pos rfl]
      | cons a as => rw [if_neg (by simp)]

/-- Symbolic execution of the strict parser on a fully canonical string with
an unsigned four-digit year. -/
theorem parseRfc3339_canon {yt mt dt2 ht mit st ft zt : List Char}
    {fracN : Nat}
    (hy : AllDig yt) (hylen : yt.length = 4)
    (hm : AllDig mt) (hmlen : mt.length = 2)
    (hd2 : AllDig dt2) (hdlen : dt2.length = 2)
    (hh : AllDig ht) (hhlen : ht.length = 2)
    (hmi : AllDig mit) (hmilen : mit.length = 2)
    (hs : AllDig st) (hslen : st.length = 2)
    (hf : FracShape ft fracN) (hz : ZoneHead zt) :
    parseRfc3339 (yt ++ '-' :: (mt ++ '-' :: (dt2 ++ 'T' :: (ht ++ ':' :: (mit
        ++ ':' :: (st ++ (ft ++ zt)))))))
      = match scanTz zt with
        | some (off, []) =>
          toDatetime ⟨(toNum yt : Int), toNum mt, toNum dt2, toNum ht,
            toNum mit, toNum st, fracN, off⟩
        | _ => none := by
  have hyne : yt ≠ [] := by intro hc; rw [hc] at hylen; simp at hylen
  unfold parseRfc3339
  rw [trimWs_eq_self (headNotWs_of_allDig hy hyne), scanYear_digits hy hylen]
  simp only [Option.some_bind]
  exact parseAfterYear_canon hm hmlen hd2 hdlen hh hhlen hmi hmilen hs hslen
    hf hz

/-- Symbolic execution of the strict parser on a canonical string with an
explicitly negative year. -/
theorem parseRfc3339_canon_neg {yt mt dt2 ht mit st ft zt : List Char}
    {fracN : Nat}
    (hy : AllDig yt) (hyne : yt ≠ [])
    (hm : AllDig mt) (hmlen : mt.length = 2)
    (hd2 : AllDig dt2) (hdlen : dt2.length = 2)
    (hh : AllDig ht) (hhlen : ht.length = 2)
    (hmi : AllDig mit) (hmilen : mit.length = 2)
    (hs : AllDig st) (hslen : st.length = 2)
    (hf : FracShape ft fracN) (hz : ZoneHead zt) :
    parseRfc3339 ('-' :: (yt ++ '-' :: (mt ++ '-' :: (dt2 ++ 'T' :: (ht
        ++ ':' :: (mit ++ ':' :: (st ++ (ft ++ zt))))))))
      = match scanTz zt with
        | some (off, []) =>
          toDatetime ⟨-(toNum yt : Int), toNum mt, toNum dt2, toNum ht,
            toNum mit, toNum st, fracN, off⟩
        | _ => none := by
  unfold parseRfc3339
  rw [trimWs_eq_self (headNotWs_cons (by decide)),
    scanYear_neg hy hyne (headNotDig_cons (by decide))]
  simp only [Option.some_bind]
  exact parseAfterYear_canon hm hmlen hd2 hdlen hh hhlen hmi hmilen hs hslen
    hf hz

/-- Symbolic execution of the strict parser on a canonical string with an
explicitly positive year. -/
theorem parseRfc3339_canon_pos {yt mt dt2 ht mit st ft zt : List Char}
    {fracN : Nat}
    (hy : AllDig yt) (hyne : yt ≠ [])
    (hm : AllDig mt) (hmlen : mt.length = 2)
    (hd2 : AllDig dt2) (hdlen : dt2.length = 2)
    (hh : AllDig ht) (hhlen : ht.length = 2)
    (hmi : AllDig mit) (hmilen : mit.length = 2)
    (hs : AllDig st) (hslen : st.length = 2)
    (hf : FracShape ft fracN) (hz : ZoneHead zt) :
    parseRfc3339 ('+' :: (yt ++ '-' :: (mt ++ '-' :: (dt2 ++ 'T' :: (ht
        ++ ':' :: (mit ++ ':' :: (st ++ (ft ++ zt))))))))
      = match scanTz zt with
        | some (off, []) =>
          toDatetime ⟨(toNum yt : Int), toNum mt, toNum dt2, toNum ht,
            toNum mit, toNum st, fracN, off⟩
        | _ => none := by
  unfold parseRfc3339
  rw [trimWs_eq_self (headNotWs_cons (by decide)),
    scanYear_pos hy hyne (headNotDig_cons (by decide))]
  simp only [Option.some_bind]
  exact parseAfterYear_canon hm hmlen hd2 hdlen hh hhlen hmi hmilen hs hslen
    hf hz

/-! ## The invariant of parsed datetimes and the render round trip -/

theorem takeDigits_len_le (k : Nat) (s : List Char) :
    (takeDigits k s).1.length ≤ k := by
  induction k generalizing s with
  | zero => simp [takeDigits]
  | succ k ih =>
    cases s with
    | nil => simp [takeDigits]
    | cons c cs =>
      by_cases hc : isDig c = true
      · simp only [takeDigits, hc, if_true, List.length_cons]
        have := ih cs
        omega
      · rw [Bool.not_eq_true] at hc
        simp [takeDigits, hc]

theorem scanNano_bound {s : List Char} {na : Nat × List Char}
    (h : scanNano s = some na) : na.1 ≤ 999999999 := by
  cases s with
  | nil =>
    simp only [scanNano] at h
    cases h
    simp
  | cons c cs =>
    simp only [scanNano] at h
    split_ifs at h with hdot
    · unfold nanoOf at h
      split_ifs at h with hnil
      cases h
      have hdig : AllDig (takeDigits 9 cs).1 := takeDigits_allDig
      have hlen : (takeDigits 9 cs).1.length ≤ 9 := takeDigits_len_le 9 cs
      have hlt := toNum_lt hdig
      have hA : (10 : Nat) ^ (takeDigits 9 cs).1.length
          * 10 ^ (9 - (takeDigits 9 cs).1.length) = 10 ^ 9 := by
        rw [← pow_add]
        congr 1
        omega
      have hB : 1 ≤ (10 : Nat) ^ (9 - (takeDigits 9 cs).1.length) :=
        Nat.one_le_pow _ _ (by omega)
      have hmul := Nat.mul_le_mul_right
        (10 ^ (9 - (takeDigits 9 cs).1.length))
        (Nat.le_sub_one_of_lt hlt)
      simp only []
      have h109 : (10 : Nat) ^ 9 = 1000000000 := by norm_num
      have hsub : ((10 : Nat) ^ (takeDigits 9 cs).1.length - 1)
            * 10 ^ (9 - (takeDigits 9 cs).1.length)
          = 10 ^ 9 - 10 ^ (9 - (takeDigits 9 cs).1.length) := by
        rw [Nat.sub_mul, hA]
        simp
      omega
    · cases h
      simp

theorem cast_hm_emod (a b : Nat) :
    ((a * 3600 + b * 60 : Nat) : Int) % 60 = 0 := by
  have h : ((a * 3600 + b * 60 : Nat) : Int) = 60 * ((a : Int) * 60 + b) := by
    push_cast
    ring
  rw [h]
  exact Int.mul_emod_right 60 _

theorem cast_hm_emod_neg (a b : Nat) :
    (-((a * 3600 + b * 60 : Nat) : Int)) % 60 = 0 := by
  have h : (-((a * 3600 + b * 60 : Nat) : Int)) = 60 * (-((a : Int) * 60 + b)) := by
    push_cast
    ring
  rw [h]
  exact Int.mul_emod_right 60 _

theorem scanTz_mod60 {s : List Char} {off : Int × List Char}
    (h : scanTz s = some off) : off.1 % 60 = 0 := by
  cases s with
  | nil => exact Option.noConfusion (by simpa only [scanTz] using h)
  | cons c cs =>
    simp only [scanTz] at h
    by_cases hzu : (c = 'Z' || c = 'z') = true
    · rw [if_pos hzu] at h
      cases h
      exact Int.zero_emod 60
    · rw [if_neg hzu] at h
      by_cases hpm : (c = '+' || c = '-') = true
      · rw [if_pos hpm] at h
        split at h
        · rename_i h1 h2 r2
          by_cases hd : (isDig h1 && isDig h2) = true
          · rw [if_pos hd] at h
            split at h
            · rename_i m1 m2 r3 heq
              by_cases hm : (('0' ≤ m1 && m1 ≤ '5') && isDig m2) = true
              · rw [if_pos hm] at h
                cases h
                by_cases hneg : c = '-'
                · rw [if_pos hneg]
                  exact cast_hm_emod_neg _ _
                · rw [if_neg hneg]
                  exact cast_hm_emod _ _
              · rw [if_neg hm] at h
                exact Option.noConfusion h
            · exact Option.noConfusion h
          · rw [if_neg hd] at h
            exact Option.noConfusion h
        · exact Option.noConfusion h
      · rw [if_neg hpm] at h
        exact Option.noConfusion h

/-- The invariant satisfied by every datetime produced by the strict parser:
the `to_datetime` bounds, a sub-`2s` nanosecond field that only exceeds one
second on a leap second at second 59, and a whole-minute offset. -/
structure DT.Valid (dt : DT) : Prop where
  year_lb : -262144 ≤ dt.year
  year_ub : dt.year ≤ 262143
  month_lb : 1 ≤ dt.month
  month_ub : dt.month ≤ 12
  day_lb : 1 ≤ dt.day
  day_ub : dt.day ≤ daysInMonth dt.year dt.month
  hour_ub : dt.hour ≤ 23
  minute_ub : dt.minute ≤ 59
  second_ub : dt.second ≤ 59
  nano_ub : dt.nano < 2000000000
  leap : 1000000000 ≤ dt.nano → dt.second = 59
  off_lb : -86400 < dt.offset
  off_ub : dt.offset < 86400
  off_min : dt.offset % 60 = 0

theorem toDatetime_valid {p : ParsedTs} {dt : DT} (h : toDatetime p = some dt)
    (hn : p.nano ≤ 999999999) (ho : p.offset % 60 = 0) : dt.Valid := by
  unfold toDatetime at h
  split_ifs at h with hc
  obtain ⟨h1, h2, h3, h4, h5, h6, h7, h8, h9, h10, h11, h12⟩ := hc
  cases h
  have hleap : (1000000000 : Nat) ≤ foldNano p.second p.nano →
      foldSec p.second = 59 := by
    unfold foldSec foldNano
    by_cases h60 : p.second = 60
    · rw [if_pos h60, if_pos h60]
      intro _
      rfl
    · rw [if_neg h60, if_neg h60]
      intro hbig
      omega
  exact ⟨h1, h2, h3, h4, h5, h6, h7, h8, h9, h10, hleap, h11, h12, ho⟩

theorem parseAfterYear_spec {y : Int} {s : List Char} {dt : DT}
    (h : parseAfterYear y s = some dt) :
    ∃ p : ParsedTs, toDatetime p = some dt ∧ p.nano ≤ 999999999 ∧
      p.offset % 60 = 0 := by
  unfold parseAfterYear at h
  simp only [Option.bind_eq_some] at h
  obtain ⟨s2, -, mo, -, s4, -, d, -, s6, -, hh, -, s8, -, mi, -, s10, -,
    se, -, na, hna, off, hoff, hfin⟩ := h
  split at hfin
  · exact ⟨_, hfin, scanNano_bound hna, scanTz_mod60 hoff⟩
  · cases hfin

theorem parseRfc3339_valid {s : List Char} {dt : DT}
    (h : parseRfc3339 s = some dt) : dt.Valid := by
  unfold parseRfc3339 at h
  simp only [Option.bind_eq_some] at h
  obtain ⟨y, -, hfin⟩ := h
  obtain ⟨p, hp, hn, ho⟩ := parseAfterYear_spec hfin
  exact toDatetime_valid hp hn ho

theorem dchar_le_five {a : Nat} (h : a ≤ 5) : dchar a ≤ '5' := by
  interval_cases a <;> decide

theorem fracShape_renderFrac {m : Nat} (h : m < 1000000000) :
    FracShape (renderFrac m) m := by
  unfold renderFrac
  split_ifs with h0 h3 h6
  · subst h0
    exact FracShape.nil
  · have hd := allDig_padNum 3 (m / 1000000)
    have hlen : (padNum 3 (m / 1000000)).length = 3 :=
      length_padNum (show m / 1000000 < 10 ^ (2 + 1) by omega)
    have hkey : toNum ((padNum 3 (m / 1000000)).take 9)
        * 10 ^ (9 - ((padNum 3 (m / 1000000)).take 9).length) = m := by
      rw [List.take_of_length_le (by omega), toNum_padNum, hlen]
      have hdvd : m / 1000000 * 1000000 = m :=
        Nat.div_mul_cancel (Nat.dvd_of_mod_eq_zero h3)
      calc m / 1000000 * 10 ^ (9 - 3) = m / 1000000 * 1000000 := by norm_num
      _ = m := hdvd
    have hfs := FracShape.dot (padNum 3 (m / 1000000)) hd (padNum_ne_nil _ _)
    rwa [hkey] at hfs
  · have hd := allDig_padNum 6 (m / 1000)
    have hlen : (padNum 6 (m / 1000)).length = 6 :=
      length_padNum (show m / 1000 < 10 ^ (5 + 1) by omega)
    have hkey : toNum ((padNum 6 (m / 1000)).take 9)
        * 10 ^ (9 - ((padNum 6 (m / 1000)).take 9).length) = m := by
      rw [List.take_of_length_le (by omega), toNum_padNum, hlen]
      have hdvd : m / 1000 * 1000 = m :=
        Nat.div_mul_cancel (Nat.dvd_of_mod_eq_zero h6)
      calc m / 1000 * 10 ^ (9 - 6) = m / 1000 * 1000 := by norm_num
      _ = m := hdvd
    have hfs := FracShape.dot (padNum 6 (m / 1000)) hd (padNum_ne_nil _ _)
    rwa [hkey] at hfs
  · have hd := allDig_padNum 9 m
    have hlen : (padNum 9 m).length = 9 :=
      length_padNum (show m < 10 ^ (8 + 1) by omega)
    have hkey : toNum ((padNum 9 m).take 9)
        * 10 ^ (9 - ((padNum 9 m).take 9).length) = m := by
      rw [List.take_of_length_le (by omega), toNum_padNum, hlen]
      norm_num
    have hfs := FracShape.dot (padNum 9 m) hd (padNum_ne_nil _ _)
    rwa [hkey] at hfs

theorem zoneHead_renderOffset (off : Int) : ZoneHead (renderOffset off) := by
  simp only [renderOffset]
  by_cases hneg : off < 0
  · rw [if_pos hneg]
    exact ⟨by decide, by decide, by decide⟩
  · rw [if_neg hneg]
    exact ⟨by decide, by decide, by decide⟩

theorem scanTz_renderOffset {off : Int} (h1 : -86400 < off) (h2 : off < 86400)
    (h3 : off % 60 = 0) : scanTz (renderOffset off) = some (off, []) := by
  have hhr : off.natAbs / 3600 ≤ 99 := by omega
  have hmn : off.natAbs / 60 % 60 ≤ 99 := by omega
  simp only [renderOffset]
  rw [padNum_two hhr, padNum_two hmn]
  simp only [List.cons_append, List.nil_append]
  by_cases hneg : off < 0
  · rw [if_pos hneg,
      scanTz_signed (Or.inr rfl) (dchar_isDig (by omega)) (dchar_isDig (by omega))
        (dchar_isDig (by omega)) (dchar_le_five (by omega))
        (dchar_isDig (by omega))]
    unfold tzVal
    rw [if_pos rfl, digVal_dchar (by omega), digVal_dchar (by omega),
      digVal_dchar (by omega), digVal_dchar (by omega)]
    simp only [Option.some.injEq, Prod.mk.injEq]
    refine ⟨?_, trivial⟩
    omega
  · rw [if_neg hneg,
      scanTz_signed (Or.inl rfl) (dchar_isDig (by omega)) (dchar_isDig (by omega))
        (dchar_isDig (by omega)) (dchar_le_five (by omega))
        (dchar_isDig (by omega))]
    unfold tzVal
    rw [if_neg (by decide : ¬('+' : Char) = '-'), digVal_dchar (by omega),
      digVal_dchar (by omega), digVal_dchar (by omega), digVal_dchar (by omega)]
    simp only [Option.some.injEq, Prod.mk.injEq]
    refine ⟨?_, trivial⟩
    omega

theorem toDatetime_render {dt : DT} (hv : dt.Valid) :
    toDatetime ⟨dt.year, dt.month, dt.day, dt.hour, dt.minute,
      dt.second + dt.nano / 1000000000, dt.nano % 1000000000, dt.offset⟩
      = some dt := by
  obtain ⟨y, mo, d, hh, mi, se, na, off⟩ := dt
  have h2 : se ≤ 59 := hv.second_ub
  have h10 : na < 2000000000 := hv.nano_ub
  have hle : 1000000000 ≤ na → se = 59 := hv.leap
  unfold toDatetime
  have hcond : -262144 ≤ y ∧ y ≤ 262143 ∧ 1 ≤ mo ∧ mo ≤ 12 ∧ 1 ≤ d ∧
      d ≤ daysInMonth y mo ∧ hh ≤ 23 ∧ mi ≤ 59 ∧
      foldSec (se + na / 1000000000) ≤ 59 ∧
      foldNano (se + na / 1000000000) (na % 1000000000) < 2000000000 ∧
      -86400 < off ∧ off < 86400 := by
    refine ⟨hv.year_lb, hv.year_ub, hv.month_lb, hv.month_ub, hv.day_lb,
      hv.day_ub, hv.hour_ub, hv.minute_ub, ?_, ?_, hv.off_lb, hv.off_ub⟩
    · unfold foldSec
      split_ifs with h60 <;> omega
    · unfold foldNano
      split_ifs with h60 <;> omega
  rw [if_pos hcond]
  by_cases hbig : 1000000000 ≤ na
  · have h59 := hle hbig
    have hsum : se + na / 1000000000 = 60 := by omega
    have hsec : foldSec (se + na / 1000000000) = se := by
      unfold foldSec
      rw [if_pos hsum]
      omega
    have hnano : foldNano (se + na / 1000000000) (na % 1000000000) = na := by
      unfold foldNano
      rw [if_pos hsum]
      omega
    rw [hsec, hnano]
  · have hsum : se + na / 1000000000 = se := by omega
    have hne60 : ¬ (se + na / 1000000000 = 60) := by omega
    have hsec : foldSec (se + na / 1000000000) = se := by
      unfold foldSec
      rw [if_neg hne60, hsum]
    have hnano : foldNano (se + na / 1000000000) (na % 1000000000) = na := by
      unfold foldNano
      rw [if_neg hne60]
      omega
    rw [hsec, hnano]

/-- Re-parsing the RFC 3339 rendering of any datetime satisfying the parser
invariant recovers the datetime exactly. -/
theorem valid_roundtrip {dt : DT} (hv : dt.Valid) :
    parseRfc3339 (toRfc3339 dt) = some dt := by
  have hshape : toRfc3339 dt
      = renderYear dt.year ++ '-' :: (padNum 2 dt.month
        ++ '-' :: (padNum 2 dt.day
        ++ 'T' :: (padNum 2 dt.hour ++ ':' :: (padNum 2 dt.minute
        ++ ':' :: (padNum 2 (dt.second + dt.nano / 1000000000)
        ++ (renderFrac (dt.nano % 1000000000) ++ renderOffset dt.offset)))))) := by
    simp [toRfc3339, List.append_assoc]
  rw [hshape]
  have hfrac : FracShape (renderFrac (dt.nano % 1000000000))
      (dt.nano % 1000000000) :=
    fracShape_renderFrac (Nat.mod_lt _ (by omega))
  have hzh : ZoneHead (renderOffset dt.offset) := zoneHead_renderOffset _
  have hmo : dt.month < 10 ^ (1 + 1) := by
    have := hv.month_ub
    omega
  have hd : dt.day < 10 ^ (1 + 1) := by
    have h1 := hv.day_ub
    have h2 : daysInMonth dt.year dt.month ≤ 31 := by
      unfold daysInMonth
      split_ifs <;> omega
    omega
  have hhr : dt.hour < 10 ^ (1 + 1) := by
    have := hv.hour_ub
    omega
  have hmi : dt.minute < 10 ^ (1 + 1) := by
    have := hv.minute_ub
    omega
  have hse : dt.second + dt.nano / 1000000000 < 10 ^ (1 + 1) := by
    have h1 := hv.second_ub
    have h2 := hv.nano_ub
    omega
  by_cases hy0 : 0 ≤ dt.year ∧ dt.year < 10000
  · rw [show renderYear dt.year = padNum 4 dt.year.toNat by
      unfold renderYear
      rw [if_pos hy0]]
    rw [parseRfc3339_canon (allDig_padNum 4 dt.year.toNat)
      (length_padNum (show dt.year.toNat < 10 ^ (3 + 1) by omega))
      (allDig_padNum 2 dt.month) (length_padNum hmo)
      (allDig_padNum 2 dt.day) (length_padNum hd)
      (allDig_padNum 2 dt.hour) (length_padNum hhr)
      (allDig_padNum 2 dt.minute) (length_padNum hmi)
      (allDig_padNum 2 (dt.second + dt.nano / 1000000000)) (length_padNum hse)
      hfrac hzh]
    rw [scanTz_renderOffset hv.off_lb hv.off_ub hv.off_min]
    simp only [toNum_padNum, Int.toNat_of_nonneg hy0.1]
    exact toDatetime_render hv
  · by_cases hyneg : dt.year < 0
    · rw [show renderYear dt.year = '-' :: padNum 4 dt.year.natAbs by
        unfold renderYear
        rw [if_neg hy0, if_pos hyneg]]
      rw [List.cons_append]
      rw [parseRfc3339_canon_neg (allDig_padNum 4 dt.year.natAbs)
        (padNum_ne_nil 4 dt.year.natAbs)
        (allDig_padNum 2 dt.month) (length_padNum hmo)
        (allDig_padNum 2 dt.day) (length_padNum hd)
        (allDig_padNum 2 dt.hour) (length_padNum hhr)
        (allDig_padNum 2 dt.minute) (length_padNum hmi)
        (allDig_padNum 2 (dt.second + dt.nano / 1000000000)) (length_padNum hse)
        hfrac hzh]
      rw [scanTz_renderOffset hv.off_lb hv.off_ub hv.off_min]
      simp only [toNum_padNum]
      rw [show -(dt.year.natAbs : Int) = dt.year by omega]
      exact toDatetime_render hv
    · rw [show renderYear dt.year = '+' :: padNum 4 dt.year.natAbs by
        unfold renderYear
        rw [if_neg hy0, if_neg hyneg]]
      rw [List.cons_append]
      rw [parseRfc3339_canon_pos (allDig_padNum 4 dt.year.natAbs)
        (padNum_ne_nil 4 dt.year.natAbs)
        (allDig_padNum 2 dt.month) (length_padNum hmo)
        (allDig_padNum 2 dt.day) (length_padNum hd)
        (allDig_padNum 2 dt.hour) (length_padNum hhr)
        (allDig_padNum 2 dt.minute) (length_padNum hmi)
        (allDig_padNum 2 (dt.second + dt.nano / 1000000000)) (length_padNum hse)
        hfrac hzh]
      rw [scanTz_renderOffset hv.off_lb hv.off_ub hv.off_min]
      simp only [toNum_padNum]
      rw [show (dt.year.natAbs : Int) = dt.year by omega]
      exact toDatetime_render hv

/-- A successful `to_datetime` validation bounds the hour by 23. -/
theorem toDatetime_hour {p : ParsedTs} {dt : DT} (h : toDatetime p = some dt) :
    dt.hour ≤ 23 := by
  unfold toDatetime at h
  split_ifs at h with hc
  obtain ⟨-, -, -, -, -, -, h7, -⟩ := hc
  cases h
  exact h7

/-- Every successful `parseAfterYear` factors through `to_datetime`. -/
theorem parseAfterYear_toDatetime {y : Int} {s : List Char} {dt : DT}
    (h : parseAfterYear y s = some dt) :
    ∃ p : ParsedTs, toDatetime p = some dt := by
  unfold parseAfterYear at h
  simp only [Option.bind_eq_some] at h
  obtain ⟨s2, -, mo, -, s4, -, d, -, s6, -, hh, -, s8, -, mi, -, s10, -,
    se, -, na, -, off, -, hfin⟩ := h
  split at hfin
  · exact ⟨_, hfin⟩
  · cases hfin

/-- Every successful strict parse factors through `to_datetime`. -/
theorem parseRfc3339_toDatetime {s : List Char} {dt : DT}
    (h : parseRfc3339 s = some dt) : ∃ p : ParsedTs, toDatetime p = some dt := by
  unfold parseRfc3339 at h
  simp only [Option.bind_eq_some] at h
  obtain ⟨y, -, hfin⟩ := h
  exact parseAfterYear_toDatetime hfin

/-- Every successful conversion bounds the hour by 23. -/
theorem tryFromIso_hour {ts : Iso8601} {dt : DT} (h : tryFromIso ts = .ok dt) :
    dt.hour ≤ 23 := by
  unfold tryFromIso at h
  split at h
  · rename_i d0 hp
    cases h
    obtain ⟨p, hpd⟩ := parseRfc3339_toDatetime hp
    exact toDatetime_hour hpd
  · split at h
    · cases h
    · split at h
      · rename_i d0 hp
        cases h
        obtain ⟨p, hpd⟩ := parseRfc3339_toDatetime hp
        exact toDatetime_hour hpd
      · cases h

/-- Claim C7: an hour-of-day of `24` is never accepted: every successful
conversion yields an instant whose hour is at most 23, and concrete end-of-day
midnight inputs in strict form, space-separated form, minute-only form,
separator-free form and lowercase-t form all fail to convert. -/
theorem hour24_never_accepted :
    (∀ (ts : Iso8601) (dt : DT), tryFromIso ts = .ok dt → dt.hour ≤ 23) ∧
    (tryFromIso ⟨"2018-10-11T24:00:00Z".data⟩).isOk = false ∧
    (tryFromIso ⟨"2018-10-11 24:00:00Z".data⟩).isOk = false ∧
    (tryFromIso ⟨"2018-10-11T24:00".data⟩).isOk = false ∧
    (tryFromIso ⟨"20181011 240000Z".data⟩).isOk = false ∧
    (tryFromIso ⟨"20181011t2400".data⟩).isOk = false :=
  ⟨fun _ _ h => tryFromIso_hour h, by decide, by decide, by decide, by decide,
    by decide⟩

/-- Witness for C7: a concrete successful conversion, with its hour bounded
through the theorem. -/
theorem hour24_never_accepted_witness :
    tryFromIso ⟨"2018-10-11T03:23:38Z".data⟩ =
      .ok ⟨2018, 10, 11, 3, 23, 38, 0, 0⟩ ∧
    DT.hour ⟨2018, 10, 11, 3, 23, 38, 0, 0⟩ ≤ 23 :=
  ⟨by decide,
    hour24_never_accepted.1 ⟨"2018-10-11T03:23:38Z".data⟩
      ⟨2018, 10, 11, 3, 23, 38, 0, 0⟩ (by decide)⟩

/-- Claim C5, counterexample: the strict parser accepts
`2018-10-11T03:23:38Z`, but rendering the parsed instant back to RFC 3339
yields `2018-10-11T03:23:38+00:00`, not the original string: the textual
round-trip of the claim fails on `Z`-suffixed input. -/
theorem strict_roundtrip_counterexample :
    (parseRfc3339 ("2018-10-11T03:23:38Z".data)).isSome = true ∧
    (parseRfc3339 ("2018-10-11T03:23:38Z".data)).map toRfc3339
      ≠ some ("2018-10-11T03:23:38Z".data) ∧
    (parseRfc3339 ("2018-10-11T03:23:38Z".data)).map toRfc3339
      = some ("2018-10-11T03:23:38+00:00".data) := by
  refine ⟨by decide, ?_, ?_⟩
  · intro hc
    have h1 : parseRfc3339 ("2018-10-11T03:23:38Z".data)
        = some ⟨2018, 10, 11, 3, 23, 38, 0, 0⟩ := by decide
    rw [h1] at hc
    simp only [Option.map_some'] at hc
    have h2 : toRfc3339 ⟨2018, 10, 11, 3, 23, 38, 0, 0⟩
        = "2018-10-11T03:23:38+00:00".data := by
      rw [show toRfc3339 ⟨2018, 10, 11, 3, 23, 38, 0, 0⟩
          = renderYear 2018 ++ '-' :: padNum 2 10 ++ '-' :: padNum 2 11
            ++ 'T' :: padNum 2 3 ++ ':' :: padNum 2 23 ++ ':' :: padNum 2 38
            ++ renderFrac 0 ++ renderOffset 0 from rfl]
      rw [show renderYear 2018 = padNum 4 2018 from by
        unfold renderYear
        rw [if_pos (by omega)]
        rfl]
      rw [show padNum 4 2018 = ['2', '0', '1', '8'] from by
        rw [padNum, natDigits, natDigits, natDigits, natDigits]
        rfl]
      rw [padNum_two (by omega : (10 : Nat) ≤ 99),
        padNum_two (by omega : (11 : Nat) ≤ 99),
        padNum_two (by omega : (3 : Nat) ≤ 99),
        padNum_two (by omega : (23 : Nat) ≤ 99),
        padNum_two (by omega : (38 : Nat) ≤ 99)]
      rw [show renderFrac 0 = [] from by unfold renderFrac; rw [if_pos rfl]]
      rw [show renderOffset 0 = '+' :: (padNum 2 0 ++ ':' :: padNum 2 0) from by
        simp only [renderOffset]
        rw [if_neg (by omega)]
        rfl]
      rw [padNum_two (by omega : (0 : Nat) ≤ 99)]
      decide
    rw [h2] at hc
    have := Option.some.inj hc
    exact absurd (congrArg List.length this) (by decide)
  · have h1 : parseRfc3339 ("2018-10-11T03:23:38Z".data)
        = some ⟨2018, 10, 11, 3, 23, 38, 0, 0⟩ := by decide
    rw [h1]
    simp only [Option.map_some']
    have h2 : toRfc3339 ⟨2018, 10, 11, 3, 23, 38, 0, 0⟩
        = "2018-10-11T03:23:38+00:00".data := by
      rw [show toRfc3339 ⟨2018, 10, 11, 3, 23, 38, 0, 0⟩
          = renderYear 2018 ++ '-' :: padNum 2 10 ++ '-' :: padNum 2 11
            ++ 'T' :: padNum 2 3 ++ ':' :: padNum 2 23 ++ ':' :: padNum 2 38
            ++ renderFrac 0 ++ renderOffset 0 from rfl]
      rw [show renderYear 2018 = padNum 4 2018 from by
        unfold renderYear
        rw [if_pos (by omega)]
        rfl]
      rw [show padNum 4 2018 = ['2', '0', '1', '8'] from by
        rw [padNum, natDigits, natDigits, natDigits, natDigits]
        rfl]
      rw [padNum_two (by omega : (10 : Nat) ≤ 99),
        padNum_two (by omega : (11 : Nat) ≤ 99),
        padNum_two (by omega : (3 : Nat) ≤ 99),
        padNum_two (by omega : (23 : Nat) ≤ 99),
        padNum_two (by omega : (38 : Nat) ≤ 99)]
      rw [show renderFrac 0 = [] from by unfold renderFrac; rw [if_pos rfl]]
      rw [show renderOffset 0 = '+' :: (padNum 2 0 ++ ':' :: padNum 2 0) from by
        simp only [renderOffset]
        rw [if_neg (by omega)]
        rfl]
      rw [padNum_two (by omega : (0 : Nat) ≤ 99)]
      decide
    rw [h2]

/-- Claim C5 as amended: for every string the strict RFC 3339 parser accepts,
the conversion succeeds in step one without invoking the permissive pattern,
and the RFC 3339 rendering of the parsed instant round-trips as an instant:
strictly re-parsing the rendering recovers exactly the same instant.  The
rendering need not equal the original text (for example a `Z` suffix renders
as `+00:00`). -/
theorem strict_parse_step_one_and_render_roundtrip (s : List Char) (dt : DT)
    (h : parseRfc3339 s = some dt) :
    tryFromIso ⟨s⟩ = .ok dt ∧ parseRfc3339 (toRfc3339 dt) = some dt := by
  constructor
  · unfold tryFromIso
    rw [h]
  · exact valid_roundtrip (parseRfc3339_valid h)

/-- Witness for C5 at a concrete strictly-valid input. -/
theorem strict_parse_step_one_and_render_roundtrip_witness :
    parseRfc3339 ("2018-10-11T03:23:38Z".data)
      = some ⟨2018, 10, 11, 3, 23, 38, 0, 0⟩ ∧
    (tryFromIso ⟨"2018-10-11T03:23:38Z".data⟩
        = .ok ⟨2018, 10, 11, 3, 23, 38, 0, 0⟩ ∧
      parseRfc3339 (toRfc3339 ⟨2018, 10, 11, 3, 23, 38, 0, 0⟩)
        = some ⟨2018, 10, 11, 3, 23, 38, 0, 0⟩) :=
  ⟨by decide,
    strict_parse_step_one_and_render_roundtrip ("2018-10-11T03:23:38Z".data)
      ⟨2018, 10, 11, 3, 23, 38, 0, 0⟩ (by decide)⟩

/-! ## Well-formedness of the permissive captures -/

theorem isDig_of_toNat {c : Char} (h1 : 48 ≤ c.toNat) (h2 : c.toNat ≤ 57) :
    isDig c = true := by
  unfold isDig
  rw [Bool.and_eq_true, decide_eq_true_eq, decide_eq_true_eq]
  exact ⟨charLe_iff.mpr h1, charLe_iff.mpr h2⟩

theorem allDig_two {a b : Char} (ha : isDig a = true) (hb : isDig b = true) :
    AllDig [a, b] := by
  intro c hc
  simp only [List.mem_cons, List.not_mem_nil, or_false] at hc
  rcases hc with h | h <;> subst h <;> assumption

theorem toNat_c0 : ('0' : Char).toNat = 48 := rfl

theorem toNat_c1 : ('1' : Char).toNat = 49 := rfl

theorem toNat_c2 : ('2' : Char).toNat = 50 := rfl

theorem toNat_c3 : ('3' : Char).toNat = 51 := rfl

theorem toNat_c5 : ('5' : Char).toNat = 53 := rfl

theorem toNat_c9 : ('9' : Char).toNat = 57 := rfl

theorem pYear_mem {s : List Char} {x : List Char × List Char}
    (hx : x ∈ pYear s) : AllDig x.1 ∧ x.1.length = 4 := by
  rcases s with _ | ⟨c1, _ | ⟨c2, _ | ⟨c3, _ | ⟨c4, r⟩⟩⟩⟩ <;>
    simp only [pYear, List.not_mem_nil] at hx
  split_ifs at hx with hc
  · simp only [List.mem_singleton] at hx
    subst hx
    simp only [Bool.and_eq_true] at hc
    refine ⟨?_, rfl⟩
    intro c hc2
    simp only [List.mem_cons, List.not_mem_nil, or_false] at hc2
    rcases hc2 with h | h | h | h <;> subst h <;> tauto
  · exact absurd hx (List.not_mem_nil _)

theorem pMonth_mem {s : List Char} {x : List Char × List Char}
    (hx : x ∈ pMonth s) :
    AllDig x.1 ∧ x.1.length = 2 ∧ 1 ≤ toNum x.1 ∧ toNum x.1 ≤ 12 := by
  rcases s with _ | ⟨c1, _ | ⟨c2, r⟩⟩ <;>
    simp only [pMonth, List.not_mem_nil] at hx
  split_ifs at hx with h1 h2
  · simp only [List.mem_singleton] at hx
    subst hx
    simp only [Bool.and_eq_true, decide_eq_true_eq] at h1
    obtain ⟨⟨hc1, hc2⟩, hc3⟩ := h1
    subst hc1
    rw [charLe_iff, toNat_c1] at hc2
    rw [charLe_iff, toNat_c9] at hc3
    have hd2 : isDig c2 = true := isDig_of_toNat (by omega) (by omega)
    refine ⟨allDig_two (by decide) hd2, rfl, ?_, ?_⟩ <;>
      rw [toNum_two] <;> unfold digVal <;> rw [toNat_c0] <;> omega
  · simp only [List.mem_singleton] at hx
    subst hx
    simp only [Bool.and_eq_true, decide_eq_true_eq, Bool.or_eq_true] at h2
    obtain ⟨hc1, hc3⟩ := h2
    subst hc1
    have hn2 : c2.toNat = 48 ∨ c2.toNat = 49 ∨ c2.toNat = 50 := by
      rcases hc3 with (h | h) | h <;> subst h <;> decide
    have hd2 : isDig c2 = true := isDig_of_toNat (by omega) (by omega)
    refine ⟨allDig_two (by decide) hd2, rfl, ?_, ?_⟩ <;>
      rw [toNum_two] <;> unfold digVal <;> rw [toNat_c1] <;> omega
  · exact absurd hx (List.not_mem_nil _)

theorem pDay_mem {s : List Char} {x : List Char × List Char}
    (hx : x ∈ pDay s) :
    AllDig x.1 ∧ x.1.length = 2 ∧ 1 ≤ toNum x.1 ∧ toNum x.1 ≤ 31 := by
  rcases s with _ | ⟨c1, _ | ⟨c2, r⟩⟩ <;>
    simp only [pDay, List.not_mem_nil] at hx
  split_ifs at hx with h1 h2 h3
  · simp only [List.mem_singleton] at hx
    subst hx
    simp only [Bool.and_eq_true, decide_eq_true_eq] at h1
    obtain ⟨⟨hc1, hc2⟩, hc3⟩ := h1
    subst hc1
    rw [charLe_iff, toNat_c1] at hc2
    rw [charLe_iff, toNat_c9] at hc3
    have hd2 : isDig c2 = true := isDig_of_toNat (by omega) (by omega)
    refine ⟨allDig_two (by decide) hd2, rfl, ?_, ?_⟩ <;>
      rw [toNum_two] <;> unfold digVal <;> rw [toNat_c0] <;> omega
  · simp only [List.mem_singleton] at hx
    subst hx
    simp only [Bool.and_eq_true, decide_eq_true_eq, Bool.or_eq_true] at h2
    obtain ⟨⟨hc1, hc2⟩, hc3⟩ := h2
    rw [charLe_iff, toNat_c0] at hc2
    rw [charLe_iff, toNat_c9] at hc3
    have hn1 : c1.toNat = 49 ∨ c1.toNat = 50 := by
      rcases hc1 with h | h <;> subst h <;> decide
    have hd1 : isDig c1 = true := isDig_of_toNat (by omega) (by omega)
    have hd2 : isDig c2 = true := isDig_of_toNat (by omega) (by omega)
    refine ⟨allDig_two hd1 hd2, rfl, ?_, ?_⟩ <;>
      rw [toNum_two] <;> unfold digVal <;> omega
  · simp only [List.mem_singleton] at hx
    subst hx
    simp only [Bool.and_eq_true, decide_eq_true_eq, Bool.or_eq_true] at h3
    obtain ⟨hc1, hc3⟩ := h3
    subst hc1
    have hn2 : c2.toNat = 48 ∨ c2.toNat = 49 := by
      rcases hc3 with h | h <;> subst h <;> decide
    have hd2 : isDig c2 = true := isDig_of_toNat (by omega) (by omega)
    refine ⟨allDig_two (by decide) hd2, rfl, ?_, ?_⟩ <;>
      rw [toNum_two] <;> unfold digVal <;> rw [toNat_c3] <;> omega
  · exact absurd hx (List.not_mem_nil _)

theorem pHour_mem {s : List Char} {x : List Char × List Char}
    (hx : x ∈ pHour s) :
    AllDig x.1 ∧ x.1.length = 2 ∧ toNum x.1 ≤ 23 := by
  rcases s with _ | ⟨c1, _ | ⟨c2, r⟩⟩ <;>
    simp only [pHour, List.not_mem_nil] at hx
  split_ifs at hx with h1 h2
  · simp only [List.mem_singleton] at hx
    subst hx
    simp only [Bool.and_eq_true, decide_eq_true_eq, Bool.or_eq_true] at h1
    obtain ⟨⟨hc1, hc2⟩, hc3⟩ := h1
    rw [charLe_iff, toNat_c0] at hc2
    rw [charLe_iff, toNat_c9] at hc3
    have hn1 : c1.toNat = 48 ∨ c1.toNat = 49 := by
      rcases hc1 with h | h <;> subst h <;> decide
    have hd1 : isDig c1 = true := isDig_of_toNat (by omega) (by omega)
    have hd2 : isDig c2 = true := isDig_of_toNat (by omega) (by omega)
    refine ⟨allDig_two hd1 hd2, rfl, ?_⟩
    rw [toNum_two]
    unfold digVal
    omega
  · simp only [List.mem_singleton] at hx
    subst hx
    simp only [Bool.and_eq_true, decide_eq_true_eq] at h2
    obtain ⟨⟨hc1, hc2⟩, hc3⟩ := h2
    subst hc1
    rw [charLe_iff, toNat_c0] at hc2
    rw [charLe_iff, toNat_c3] at hc3
    have hd2 : isDig c2 = true := isDig_of_toNat (by omega) (by omega)
    refine ⟨allDig_two (by decide) hd2, rfl, ?_⟩
    rw [toNum_two]
    unfold digVal
    rw [toNat_c2]
    omega
  · exact absurd hx (List.not_mem_nil _)

theorem pMinu_mem {s : List Char} {x : List Char × List Char}
    (hx : x ∈ pMinu s) :
    AllDig x.1 ∧ x.1.length = 2 ∧ toNum x.1 ≤ 59 := by
  rcases s with _ | ⟨c1, _ | ⟨c2, r⟩⟩ <;>
    simp only [pMinu, List.not_mem_nil] at hx
  split_ifs at hx with h1
  · simp only [List.mem_singleton] at hx
    subst hx
    simp only [Bool.and_eq_true, decide_eq_true_eq] at h1
    obtain ⟨⟨⟨hc1, hc2⟩, hc3⟩, hc4⟩ := h1
    rw [charLe_iff, toNat_c0] at hc1
    rw [charLe_iff, toNat_c5] at hc2
    rw [charLe_iff, toNat_c0] at hc3
    rw [charLe_iff, toNat_c9] at hc4
    have hd1 : isDig c1 = true := isDig_of_toNat (by omega) (by omega)
    have hd2 : isDig c2 = true := isDig_of_toNat (by omega) (by omega)
    refine ⟨allDig_two hd1 hd2, rfl, ?_⟩
    rw [toNum_two]
    unfold digVal
    omega
  · exact absurd hx (List.not_mem_nil _)

theorem pSecnd_mem {s : List Char} {x : List Char × List Char}
    (hx : x ∈ pSecnd s) :
    AllDig x.1 ∧ x.1.length = 2 ∧ toNum x.1 ≤ 60 := by
  rcases s with _ | ⟨c1, _ | ⟨c2, r⟩⟩ <;>
    simp only [pSecnd, List.not_mem_nil] at hx
  split_ifs at hx with h1 h2
  · simp only [List.mem_singleton] at hx
    subst hx
    simp only [Bool.and_eq_true, decide_eq_true_eq] at h1
    obtain ⟨⟨⟨hc1, hc2⟩, hc3⟩, hc4⟩ := h1
    rw [charLe_iff, toNat_c0] at hc1
    rw [charLe_iff, toNat_c5] at hc2
    rw [charLe_iff, toNat_c0] at hc3
    rw [charLe_iff, toNat_c9] at hc4
    have hd1 : isDig c1 = true := isDig_of_toNat (by omega) (by omega)
    have hd2 : isDig c2 = true := isDig_of_toNat (by omega) (by omega)
    refine ⟨allDig_two hd1 hd2, rfl, ?_⟩
    rw [toNum_two]
    unfold digVal
    omega
  · simp only [List.mem_singleton] at hx
    subst hx
    simp only [Bool.and_eq_true, decide_eq_true_eq] at h2
    obtain ⟨hc1, hc2⟩ := h2
    subst hc1
    subst hc2
    refine ⟨allDig_two (by decide) (by decide), rfl, ?_⟩
    show toNum ['6', '0'] ≤ 60
    decide
  · exact absurd hx (List.not_mem_nil _)

theorem pTwoDigs_mem {s : List Char} {x : List Char × List Char}
    (hx : x ∈ pTwoDigs s) : AllDig x.1 ∧ x.1.length = 2 := by
  rcases s with _ | ⟨c1, _ | ⟨c2, r⟩⟩ <;>
    simp only [pTwoDigs, List.not_mem_nil] at hx
  split_ifs at hx with h1
  · simp only [List.mem_singleton] at hx
    subst hx
    simp only [Bool.and_eq_true] at h1
    exact ⟨allDig_two h1.1 h1.2, rfl⟩
  · exact absurd hx (List.not_mem_nil _)

theorem pFracDigs_mem {s : List Char} {x : List Char × List Char}
    (hx : x ∈ pFracDigs s) : AllDig x.1 ∧ x.1 ≠ [] := by
  unfold pFracDigs spanDigs at hx
  rcases hs : s.takeWhile isDig with _ | ⟨c, cs⟩
  · rw [hs] at hx
    exact absurd hx (List.not_mem_nil _)
  · rw [hs] at hx
    simp only [List.mem_singleton] at hx
    subst hx
    refine ⟨?_, by simp⟩
    intro a ha
    rw [← hs] at ha
    exact List.mem_takeWhile_imp ha

theorem pSign_mem {s : List Char} {x : Char × List Char}
    (hx : x ∈ pSign s) : x.1 = '+' ∨ x.1 = '-' ∨ x.1 = '−' := by
  rcases s with _ | ⟨c, r⟩ <;> simp only [pSign, List.not_mem_nil] at hx
  split_ifs at hx with h1
  · simp only [List.mem_singleton] at hx
    subst hx
    simp only [Bool.or_eq_true, decide_eq_true_eq] at h1
    tauto
  · exact absurd hx (List.not_mem_nil _)


/-! ## Well-formedness of the permissive captures -/

/-- The constraints the month group imposes on its capture. -/
def MFact (t : List Char) : Prop :=
  AllDig t ∧ t.length = 2 ∧ 1 ≤ toNum t ∧ toNum t ≤ 12

/-- The constraints the day group imposes on its capture. -/
def DFact (t : List Char) : Prop :=
  AllDig t ∧ t.length = 2 ∧ 1 ≤ toNum t ∧ toNum t ≤ 31

/-- The constraints the hour group imposes on its capture. -/
def HFact (t : List Char) : Prop :=
  AllDig t ∧ t.length = 2 ∧ toNum t ≤ 23

/-- The constraints the minute group imposes on its capture. -/
def MinFact (t : List Char) : Prop :=
  AllDig t ∧ t.length = 2 ∧ toNum t ≤ 59

/-- The constraints the second group imposes on its capture. -/
def SecFact (t : List Char) : Prop :=
  AllDig t ∧ t.length = 2 ∧ toNum t ≤ 60

/-- The constraints the subsecond group imposes on its capture. -/
def FracFact (t : List Char) : Prop :=
  AllDig t ∧ t ≠ []

/-- The shape of the zone captures: either a Zulu letter with no sign, hour
or minute captures, or a sign in the three-character class with two-digit
hours and optional two-digit minutes. -/
def ZoneCapsWF (z : ZoneCaps) : Prop :=
  ((z.Z = ['Z'] ∨ z.Z = ['z']) ∧ z.Zsgn = none ∧ z.Zhrs = none ∧
    z.Zmin = none) ∨
  (∃ sg hrs, z.Zsgn = some sg ∧ (sg = '+' ∨ sg = '-' ∨ sg = '−') ∧
    z.Zhrs = some hrs ∧ AllDig hrs ∧ hrs.length = 2 ∧
    (z.Zmin = none ∨ ∃ mn, z.Zmin = some mn ∧ AllDig mn ∧ mn.length = 2) ∧
    z.Z ≠ ['Z'] ∧ z.Z ≠ ['z'])

/-- The zone part of the whole-pattern capture shape. -/
def ZoneWF (c : Caps) : Prop :=
  (c.Z = none ∧ c.Zsgn = none ∧ c.Zhrs = none ∧ c.Zmin = none) ∨
  (∃ zc, c.Z = some zc.Z ∧ c.Zsgn = zc.Zsgn ∧ c.Zhrs = zc.Zhrs ∧
    c.Zmin = zc.Zmin ∧ ZoneCapsWF zc)

/-- Everything a successful match of `ISO8601_RE` guarantees about its named
captures. -/
def CapsWF (c : Caps) : Prop :=
  AllDig c.Y ∧ c.Y.length = 4 ∧
  (∀ t, c.M = some t → MFact t) ∧
  (∀ t, c.D = some t → DFact t) ∧
  (∀ t, c.h = some t → HFact t) ∧
  (∀ t, c.m = some t → MinFact t) ∧
  (∀ t, c.s = some t → SecFact t) ∧
  (∀ t, c.ss = some t → FracFact t) ∧
  (c.h = none → c.m = none ∧ c.s = none ∧ c.ss = none) ∧
  ZoneWF c

theorem pOpt_mem {α : Type} {p : List Char → List (α × List Char)}
    {s : List Char} {x : Option α × List Char} (hx : x ∈ pOpt p s) :
    x.1 = none ∨ ∃ y, y ∈ p s ∧ x = (some y.1, y.2) := by
  unfold pOpt at hx
  rw [List.mem_append] at hx
  rcases hx with h | h
  · right
    simp only [List.mem_map] at h
    obtain ⟨y, hy, hxy⟩ := h
    exact ⟨y, hy, hxy.symm⟩
  · left
    simp only [List.mem_singleton] at h
    subst h
    rfl

theorem pDayGroup_mem {s : List Char} {x : Option (List Char) × List Char}
    (hx : x ∈ pDayGroup s) : ∀ t, x.1 = some t → DFact t := by
  unfold pDayGroup at hx
  simp only [List.mem_flatMap] at hx
  obtain ⟨dash, -, hd⟩ := hx
  intro t ht
  rcases pOpt_mem hd with h | ⟨y, hy, hxy⟩
  · rw [h] at ht
    cases ht
  · rw [hxy] at ht
    simp only [Option.some.injEq] at ht
    obtain ⟨h1, h2, h3, h4⟩ := pDay_mem hy
    exact ht ▸ ⟨h1, h2, h3, h4⟩

theorem pDateContent_mem {s : List Char}
    {x : (Option (List Char) × Option (List Char)) × List Char}
    (hx : x ∈ pDateContent s) :
    (∀ t, x.1.1 = some t → MFact t) ∧ (∀ t, x.1.2 = some t → DFact t) := by
  unfold pDateContent at hx
  simp only [List.mem_flatMap, List.mem_map] at hx
  obtain ⟨dash, -, m, hm, d, hd, hxeq⟩ := hx
  subst hxeq
  constructor
  · intro t ht
    simp only at ht
    rcases pOpt_mem hm with h | ⟨y, hy, hmy⟩
    · rw [h] at ht
      cases ht
    · rw [hmy] at ht
      simp only [Option.some.injEq] at ht
      obtain ⟨h1, h2, h3, h4⟩ := pMonth_mem hy
      exact ht ▸ ⟨h1, h2, h3, h4⟩
  · intro t ht
    simp only [Option.bind_eq_some, id_eq] at ht
    obtain ⟨o, ho, hot⟩ := ht
    rcases pOpt_mem hd with h | ⟨y, hy, hdy⟩
    · rw [h] at ho
      cases ho
    · rw [hdy] at ho
      simp only [Option.some.injEq] at ho
      exact pDayGroup_mem hy t (ho ▸ hot)

theorem pDate_mem {s : List Char}
    {x : (Option (List Char) × Option (List Char)) × List Char}
    (hx : x ∈ pDate s) :
    (∀ t, x.1.1 = some t → MFact t) ∧ (∀ t, x.1.2 = some t → DFact t) := by
  unfold pDate at hx
  simp only [List.mem_map] at hx
  obtain ⟨y, hy, hxeq⟩ := hx
  subst hxeq
  rcases pOpt_mem hy with h | ⟨z, hz, hyz⟩
  · constructor <;> intro t ht <;> rw [h] at ht <;> cases ht
  · rw [hyz]
    simp only
    exact pDateContent_mem hz

theorem pFracGroup_mem {s : List Char} {x : List Char × List Char}
    (hx : x ∈ pFracGroup s) : FracFact x.1 := by
  rcases s with _ | ⟨c, r⟩ <;> simp only [pFracGroup, List.not_mem_nil] at hx
  split_ifs at hx with h1
  · exact pFracDigs_mem hx
  · exact absurd hx (List.not_mem_nil _)

theorem pSecGroup_mem {s : List Char}
    {x : (List Char × Option (List Char)) × List Char}
    (hx : x ∈ pSecGroup s) :
    SecFact x.1.1 ∧ ∀ t, x.1.2 = some t → FracFact t := by
  unfold pSecGroup at hx
  simp only [List.mem_flatMap, List.mem_map] at hx
  obtain ⟨col, -, sec, hsec, f, hf, hxeq⟩ := hx
  subst hxeq
  obtain ⟨h1, h2, h3⟩ := pSecnd_mem hsec
  refine ⟨⟨h1, h2, h3⟩, ?_⟩
  intro t ht
  simp only at ht
  rcases pOpt_mem hf with h | ⟨y, hy, hfy⟩
  · rw [h] at ht
    cases ht
  · rw [hfy] at ht
    simp only [Option.some.injEq] at ht
    exact ht ▸ pFracGroup_mem hy

theorem pMinGroup_mem {s : List Char}
    {x : (List Char × Option (List Char × Option (List Char))) × List Char}
    (hx : x ∈ pMinGroup s) :
    MinFact x.1.1 ∧ ∀ y, x.1.2 = some y →
      SecFact y.1 ∧ ∀ t, y.2 = some t → FracFact t := by
  unfold pMinGroup at hx
  simp only [List.mem_flatMap, List.mem_map] at hx
  obtain ⟨col, -, mn, hmn, sg, hsg, hxeq⟩ := hx
  subst hxeq
  obtain ⟨h1, h2, h3⟩ := pMinu_mem hmn
  refine ⟨⟨h1, h2, h3⟩, ?_⟩
  intro y hy
  simp only at hy
  rcases pOpt_mem hsg with h | ⟨z, hz, hsz⟩
  · rw [h] at hy
    cases hy
  · rw [hsz] at hy
    simp only [Option.some.injEq] at hy
    exact hy ▸ pSecGroup_mem hz

theorem pTimeContent_mem {s : List Char} {x : TimeCaps × List Char}
    (hx : x ∈ pTimeContent s) :
    HFact x.1.h ∧ (∀ t, x.1.m = some t → MinFact t) ∧
    (∀ t, x.1.s = some t → SecFact t) ∧
    (∀ t, x.1.ss = some t → FracFact t) := by
  unfold pTimeContent at hx
  simp only [List.mem_flatMap, List.mem_map] at hx
  obtain ⟨sep, -, hh, hhh, mg, hmg, hxeq⟩ := hx
  subst hxeq
  obtain ⟨h1, h2, h3⟩ := pHour_mem hhh
  refine ⟨⟨h1, h2, h3⟩, ?_, ?_, ?_⟩
  · intro t ht
    simp only [Option.map_eq_some'] at ht
    obtain ⟨y, hy, hyt⟩ := ht
    rcases pOpt_mem hmg with h | ⟨z, hz, hmz⟩
    · rw [h] at hy
      cases hy
    · rw [hmz] at hy
      simp only [Option.some.injEq] at hy
      exact hyt ▸ hy ▸ (pMinGroup_mem hz).1
  · intro t ht
    simp only [Option.bind_eq_some, Option.map_eq_some'] at ht
    obtain ⟨y, hy, z2, hz2, hz2t⟩ := ht
    rcases pOpt_mem hmg with h | ⟨z, hz, hmz⟩
    · rw [h] at hy
      cases hy
    · rw [hmz] at hy
      simp only [Option.some.injEq] at hy
      subst hy
      exact hz2t ▸ ((pMinGroup_mem hz).2 z2 hz2).1
  · intro t ht
    simp only [Option.bind_eq_some] at ht
    obtain ⟨y, hy, z2, hz2, hz2t⟩ := ht
    rcases pOpt_mem hmg with h | ⟨z, hz, hmz⟩
    · rw [h] at hy
      cases hy
    · rw [hmz] at hy
      simp only [Option.some.injEq] at hy
      subst hy
      exact ((pMinGroup_mem hz).2 z2 hz2).2 t hz2t

theorem pZminGroup_mem {s : List Char}
    {x : (List Char × List Char) × List Char} (hx : x ∈ pZminGroup s) :
    AllDig x.1.2 ∧ x.1.2.length = 2 := by
  unfold pZminGroup at hx
  simp only [List.mem_flatMap, List.mem_map] at hx
  obtain ⟨col, -, d, hd, hxeq⟩ := hx
  subst hxeq
  exact pTwoDigs_mem hd

theorem pZoneContent_mem {s : List Char} {x : ZoneCaps × List Char}
    (hx : x ∈ pZoneContent s) : ZoneCapsWF x.1 := by
  unfold pZoneContent at hx
  rw [List.mem_append] at hx
  rcases hx with h | h
  · rcases s with _ | ⟨c, r⟩
    · exact absurd h (List.not_mem_nil _)
    · simp only at h
      split_ifs at h with hc
      · simp only [List.mem_singleton] at h
        subst h
        left
        refine ⟨?_, rfl, rfl, rfl⟩
        simp only [Bool.or_eq_true, decide_eq_true_eq] at hc
        rcases hc with h' | h'
        · left
          rw [h']
        · right
          rw [h']
      · exact absurd h (List.not_mem_nil _)
  · simp only [List.mem_flatMap, List.mem_map] at h
    obtain ⟨sg, hsg, hrs, hhrs, mn, hmn, hxeq⟩ := h
    subst hxeq
    right
    obtain ⟨hd, hlen⟩ := pTwoDigs_mem hhrs
    have hZlen : (sg.1 :: hrs.1 ++ ((mn.1.map (·.1)).getD [])).length =
        3 + ((mn.1.map (·.1)).getD []).length := by
      simp [hlen]
      omega
    refine ⟨sg.1, hrs.1, rfl, pSign_mem hsg, rfl, hd, hlen, ?_, ?_, ?_⟩
    · simp only
      rcases pOpt_mem hmn with h | ⟨y, hy, hmy⟩
      · left
        rw [h]
        rfl
      · right
        rw [hmy]
        obtain ⟨ha, hb⟩ := pZminGroup_mem hy
        exact ⟨y.1.2, rfl, ha, hb⟩
    · intro hc
      have := congrArg List.length hc
      rw [hZlen] at this
      simp only [List.length_singleton] at this
      omega
    · intro hc
      have := congrArg List.length hc
      rw [hZlen] at this
      simp only [List.length_singleton] at this
      omega

theorem reAll_mem {s : List Char} {x : Caps × List Char} (hx : x ∈ reAll s) :
    CapsWF x.1 := by
  unfold reAll at hx
  simp only [List.mem_flatMap, List.mem_map] at hx
  obtain ⟨y, hy, md, hmd, t, ht, z, hz, hxeq⟩ := hx
  subst hxeq
  obtain ⟨hY1, hY2⟩ := pYear_mem hy
  obtain ⟨hM, hD⟩ := pDate_mem hmd
  refine ⟨hY1, hY2, hM, hD, ?_, ?_, ?_, ?_, ?_, ?_⟩
  · intro u hu
    simp only [Option.map_eq_some'] at hu
    obtain ⟨tc, htc, htcu⟩ := hu
    rcases pOpt_mem ht with h | ⟨w, hw, htw⟩
    · rw [h] at htc
      cases htc
    · rw [htw] at htc
      simp only [Option.some.injEq] at htc
      exact htcu ▸ htc ▸ (pTimeContent_mem hw).1
  · intro u hu
    simp only [Option.bind_eq_some] at hu
    obtain ⟨tc, htc, hval⟩ := hu
    rcases pOpt_mem ht with h | ⟨w, hw, htw⟩
    · rw [h] at htc
      cases htc
    · rw [htw] at htc
      simp only [Option.some.injEq] at htc
      exact (pTimeContent_mem hw).2.1 u (htc ▸ hval)
  · intro u hu
    simp only [Option.bind_eq_some] at hu
    obtain ⟨tc, htc, hval⟩ := hu
    rcases pOpt_mem ht with h | ⟨w, hw, htw⟩
    · rw [h] at htc
      cases htc
    · rw [htw] at htc
      simp only [Option.some.injEq] at htc
      exact (pTimeContent_mem hw).2.2.1 u (htc ▸ hval)
  · intro u hu
    simp only [Option.bind_eq_some] at hu
    obtain ⟨tc, htc, hval⟩ := hu
    rcases pOpt_mem ht with h | ⟨w, hw, htw⟩
    · rw [h] at htc
      cases htc
    · rw [htw] at htc
      simp only [Option.some.injEq] at htc
      exact (pTimeContent_mem hw).2.2.2 u (htc ▸ hval)
  · intro hh
    simp only [Option.map_eq_none'] at hh
    simp only [hh, Option.none_bind]
    exact ⟨trivial, trivial, trivial⟩
  · rcases pOpt_mem hz with h | ⟨w, hw, hzw⟩
    · left
      rw [h]
      exact ⟨rfl, rfl, rfl, rfl⟩
    · right
      rw [hzw]
      exact ⟨w.1, rfl, rfl, rfl, rfl, pZoneContent_mem hw⟩

theorem iso8601Captures_wf {s : List Char} {cap : Caps}
    (h : iso8601Captures s = some cap) : CapsWF cap := by
  unfold iso8601Captures at h
  cases hh : ((reAll s).filter fun x => x.2.isEmpty).head? with
  | none =>
    rw [hh] at h
    cases h
  | some x =>
    rw [hh] at h
    simp only [Option.map_some', Option.some.injEq] at h
    subst h
    exact reAll_mem (List.mem_of_mem_filter (List.mem_of_mem_head? hh))

/-! ## The reassembled candidate and its strict re-parse -/

theorem CapsWF.zone {c : Caps} (h : CapsWF c) : ZoneWF c :=
  h.2.2.2.2.2.2.2.2.2

theorem CapsWF.frac {c : Caps} (h : CapsWF c) :
    ∀ t, c.ss = some t → FracFact t :=
  h.2.2.2.2.2.2.2.1

theorem two_digit_first_le_five {a b : Char} (ha : isDig a = true)
    (h : toNum [a, b] ≤ 59) : a ≤ '5' := by
  rw [toNum_two] at h
  have h1 := isDig_toNat ha
  rw [charLe_iff, toNat_c5]
  unfold digVal at h
  omega

theorem two_digit_first_gt_five {a b : Char} (ha : isDig a = true)
    (hb : isDig b = true) (h : 60 ≤ toNum [a, b]) : ¬ a ≤ '5' := by
  rw [toNum_two] at h
  have h1 := isDig_toNat ha
  have h2 := isDig_toNat hb
  rw [charLe_iff, toNat_c5]
  unfold digVal at h
  omega

theorem fracN_le_aux {t : List Char} (hd : AllDig t) (hl : t.length ≤ 9) :
    toNum t * 10 ^ (9 - t.length) ≤ 999999999 := by
  have hub := toNum_lt hd
  obtain ⟨n, hn⟩ : ∃ n, t.length = n := ⟨_, rfl⟩
  rw [hn] at hub hl ⊢
  interval_cases n <;> norm_num at hub ⊢ <;> omega

theorem fracN_le {fd : List Char} (hd : AllDig fd) :
    toNum (fd.take 9) * 10 ^ (9 - (fd.take 9).length) ≤ 999999999 :=
  fracN_le_aux (fun c hc => hd c (List.mem_of_mem_take hc))
    (by rw [List.length_take]; omega)

theorem candFrac_shape {cap : Caps} (hss : ∀ t, cap.ss = some t → FracFact t) :
    ∃ n, n ≤ 999999999 ∧ FracShape (candFrac cap) n := by
  cases hc : cap.ss with
  | none =>
    refine ⟨0, by omega, ?_⟩
    simp only [candFrac, hc]
    exact FracShape.nil
  | some f =>
    obtain ⟨h1, h2⟩ := hss f hc
    refine ⟨_, fracN_le h1, ?_⟩
    simp only [candFrac, hc]
    exact FracShape.dot f h1 h2

theorem candZone_head {cap : Caps} (hz : ZoneWF cap) :
    ZoneHead (candZone cap) := by
  rcases hz with ⟨hZ, -, -, -⟩ | ⟨zc, hZ, hsgn, hhrs, hmn, hwf⟩
  · simp only [candZone, hZ]
    exact ⟨by decide, by decide, by decide⟩
  · simp only [candZone, hZ]
    rcases hwf with ⟨hzz, -⟩ | ⟨sg, hrs, -, -, -, -, -, -, hne1, hne2⟩
    · rw [if_pos hzz]
      exact ⟨by decide, by decide, by decide⟩
    · rw [if_neg (by rintro (h | h) <;> [exact hne1 h; exact hne2 h])]
      by_cases hp : cap.Zsgn = some '+'
      · rw [if_pos hp]
        exact ⟨by decide, by decide, by decide⟩
      · rw [if_neg hp]
        exact ⟨by decide, by decide, by decide⟩

theorem candZone_scan {cap : Caps} (hz : ZoneWF cap)
    (hmin : toNum (cap.Zmin.getD ['0', '0']) ≤ 59) :
    ∃ off : Int, scanTz (candZone cap) = some (off, []) ∧
      off.natAbs = toNum (cap.Zhrs.getD ['0', '0']) * 3600
        + toNum (cap.Zmin.getD ['0', '0']) * 60 := by
  rcases hz with ⟨hZ, hsgn, hhrs, hmn⟩ | ⟨zc, hZ, hsgn, hhrs, hmn, hwf⟩
  · simp only [candZone, hZ, hhrs, hmn, Option.getD_none]
    exact ⟨0, scanTz_zulu_upper [], by decide⟩
  · rcases hwf with ⟨hzz, hs0, hh0, hm0⟩ | ⟨sg, hrs, hsg, hsgcl, hhrs2,
      hhd, hhlen, hmnwf, hne1, hne2⟩
    · rw [hs0] at hsgn
      rw [hh0] at hhrs
      rw [hm0] at hmn
      simp only [candZone, hZ, hhrs, hmn, Option.getD_none]
      rw [if_pos hzz]
      exact ⟨0, scanTz_zulu_upper [], by decide⟩
    · rw [hsg] at hsgn
      rw [hhrs2] at hhrs
      obtain ⟨a, b, hab⟩ := List.length_eq_two.mp hhlen
      subst hab
      have hda : isDig a = true := hhd a (by simp)
      have hdb : isDig b = true := hhd b (by simp)
      have hsgn5 : (if cap.Zsgn = some '+' then '+' else '-') = '+' ∨
          (if cap.Zsgn = some '+' then '+' else '-') = '-' := by
        by_cases hp : cap.Zsgn = some '+'
        · rw [if_pos hp]
          exact Or.inl rfl
        · rw [if_neg hp]
          exact Or.inr rfl
      have hz5 : ∃ u v, cap.Zmin.getD ['0', '0'] = [u, v] ∧ isDig u = true ∧
          isDig v = true := by
        rcases hmnwf with h0 | ⟨mn, hmn2, hmd, hml⟩
        · rw [hmn, h0, Option.getD_none]
          exact ⟨'0', '0', rfl, by decide, by decide⟩
        · rw [hmn, hmn2, Option.getD_some]
          obtain ⟨u, v, huv⟩ := List.length_eq_two.mp hml
          subst huv
          exact ⟨u, v, rfl, hmd u (by simp), hmd v (by simp)⟩
      obtain ⟨u, v, huv, hdu, hdv⟩ := hz5
      rw [huv] at hmin
      have hle5 : u ≤ '5' := two_digit_first_le_five hdu hmin
      have hshape : candZone cap = (if cap.Zsgn = some '+' then '+' else '-')
          :: a :: b :: ':' :: u :: v :: [] := by
        simp only [candZone, hZ]
        rw [if_neg (by rintro (h | h) <;> [exact hne1 h; exact hne2 h])]
        rw [hhrs, Option.getD_some, ← huv]
        rfl
      rw [hshape, scanTz_signed hsgn5 hda hdb hdu hle5 hdv]
      refine ⟨_, rfl, ?_⟩
      rw [hhrs, Option.getD_some, huv, toNum_two, toNum_two]
      unfold tzVal
      split_ifs <;>
        first
        | (rw [Int.natAbs_neg, Int.natAbs_ofNat]; ring)
        | (rw [Int.natAbs_ofNat]; ring)

theorem candZone_scan_badmin {cap : Caps} (hz : ZoneWF cap)
    (hmin : 60 ≤ toNum (cap.Zmin.getD ['0', '0'])) :
    scanTz (candZone cap) = none := by
  rcases hz with ⟨hZ, hsgn, hhrs, hmn⟩ | ⟨zc, hZ, hsgn, hhrs, hmn, hwf⟩
  · rw [hmn] at hmin
    simp only [Option.getD_none] at hmin
    exact absurd hmin (by decide)
  · rcases hwf with ⟨hzz, hs0, hh0, hm0⟩ | ⟨sg, hrs, hsg, hsgcl, hhrs2,
      hhd, hhlen, hmnwf, hne1, hne2⟩
    · rw [hm0] at hmn
      rw [hmn] at hmin
      simp only [Option.getD_none] at hmin
      exact absurd hmin (by decide)
    · rw [hsg] at hsgn
      rw [hhrs2] at hhrs
      obtain ⟨a, b, hab⟩ := List.length_eq_two.mp hhlen
      subst hab
      have hda : isDig a = true := hhd a (by simp)
      have hdb : isDig b = true := hhd b (by simp)
      rcases hmnwf with h0 | ⟨mn, hmn2, hmd, hml⟩
      · rw [hmn, h0] at hmin
        simp only [Option.getD_none] at hmin
        exact absurd hmin (by decide)
      · obtain ⟨u, v, huv⟩ := List.length_eq_two.mp hml
        subst huv
        rw [hmn, hmn2, Option.getD_some] at hmin
        have hdu : isDig u = true := hmd u (by simp)
        have hdv : isDig v = true := hmd v (by simp)
        have hgt : ¬ u ≤ '5' := two_digit_first_gt_five hdu hdv hmin
        have hsgn5 : (if cap.Zsgn = some '+' then '+' else '-') = '+' ∨
            (if cap.Zsgn = some '+' then '+' else '-') = '-' := by
          by_cases hp : cap.Zsgn = some '+'
          · rw [if_pos hp]
            exact Or.inl rfl
          · rw [if_neg hp]
            exact Or.inr rfl
        have hshape : candZone cap = (if cap.Zsgn = some '+' then '+' else '-')
            :: a :: b :: ':' :: u :: v :: [] := by
          simp only [candZone, hZ]
          rw [if_neg (by rintro (h | h) <;> [exact hne1 h; exact hne2 h])]
          rw [hhrs, Option.getD_some, hmn, hmn2, Option.getD_some]
          rfl
        rw [hshape]
        exact scanTz_signed_badmin hsgn5 hda hdb hdu hgt

theorem allDig_single {c : Char} (h : isDig c = true) : AllDig [c] := by
  intro x hx
  simp only [List.mem_singleton] at hx
  subst hx
  exact h

theorem slice_wf (d : List Char) {o : Option (List Char)}
    (hdd : AllDig d) (hdl : d.length ≤ 2)
    (ho : ∀ t, o = some t → AllDig t ∧ t.length = 2) :
    AllDig (padZero 2 (o.getD d)) ∧ (padZero 2 (o.getD d)).length = 2 := by
  cases hc : o with
  | none =>
    simp only [Option.getD_none]
    exact ⟨allDig_padZero hdd, length_padZero hdl⟩
  | some t =>
    obtain ⟨h1, h2⟩ := ho t hc
    simp only [Option.getD_some]
    exact ⟨allDig_padZero h1, length_padZero (le_of_eq h2)⟩

theorem candidate_parse_eq {cap : Caps} (hwf : CapsWF cap) :
    ∃ fracN, fracN ≤ 999999999 ∧
      parseRfc3339 (buildCandidate cap)
        = match scanTz (candZone cap) with
          | some (off, []) =>
            toDatetime ⟨(toNum cap.Y : Int), toNum (cap.M.getD ['1']),
              toNum (cap.D.getD ['1']), toNum (cap.h.getD ['0']),
              toNum (cap.m.getD ['0']), toNum (cap.s.getD ['0']), fracN, off⟩
          | _ => none := by
  obtain ⟨hY1, hY2, hM, hD, hH, hMi, hS, hSs, hdep, hzone⟩ := hwf
  obtain ⟨fracN, hfb, hfs⟩ := candFrac_shape hSs
  refine ⟨fracN, hfb, ?_⟩
  obtain ⟨hm1, hm2⟩ := slice_wf ['1'] (allDig_single (by decide))
    (by decide) (fun t ht => ⟨(hM t ht).1, (hM t ht).2.1⟩)
  obtain ⟨hd1, hd2⟩ := slice_wf ['1'] (allDig_single (by decide))
    (by decide) (fun t ht => ⟨(hD t ht).1, (hD t ht).2.1⟩)
  obtain ⟨hh1, hh2⟩ := slice_wf ['0'] (allDig_single (by decide))
    (by decide) (fun t ht => ⟨(hH t ht).1, (hH t ht).2.1⟩)
  obtain ⟨hi1, hi2⟩ := slice_wf ['0'] (allDig_single (by decide))
    (by decide) (fun t ht => ⟨(hMi t ht).1, (hMi t ht).2.1⟩)
  obtain ⟨hs1, hs2⟩ := slice_wf ['0'] (allDig_single (by decide))
    (by decide) (fun t ht => ⟨(hS t ht).1, (hS t ht).2.1⟩)
  have hshape : buildCandidate cap
      = padZero 4 cap.Y ++ '-' :: (padZero 2 (cap.M.getD ['1']) ++ '-' ::
        (padZero 2 (cap.D.getD ['1']) ++ 'T' :: (padZero 2 (cap.h.getD ['0'])
        ++ ':' :: (padZero 2 (cap.m.getD ['0']) ++ ':' ::
        (padZero 2 (cap.s.getD ['0']) ++ (candFrac cap ++ candZone cap)))))) := by
    simp [buildCandidate, candDate, candTime, List.append_assoc]
  rw [hshape, parseRfc3339_canon (allDig_padZero hY1)
    (length_padZero (le_of_eq hY2)) hm1 hm2 hd1 hd2 hh1 hh2 hi1 hi2 hs1 hs2
    hfs (candZone_head hzone)]
  simp only [toNum_padZero]
  try rfl

theorem toDatetime_eq_some {y : Int} {mo d hh mi se na : Nat} {off : Int}
    (h1 : -262144 ≤ y) (h2 : y ≤ 262143) (h3 : 1 ≤ mo) (h4 : mo ≤ 12)
    (h5 : 1 ≤ d) (h6 : d ≤ daysInMonth y mo) (h7 : hh ≤ 23) (h8 : mi ≤ 59)
    (h9 : se ≤ 60) (h10 : na ≤ 999999999) (h11 : -86400 < off)
    (h12 : off < 86400) :
    toDatetime ⟨y, mo, d, hh, mi, se, na, off⟩
      = some ⟨y, mo, d, hh, mi, foldSec se, foldNano se na, off⟩ := by
  unfold toDatetime
  rw [if_pos]
  exact ⟨h1, h2, h3, h4, h5, h6, h7, h8,
    by show foldSec se ≤ 59; unfold foldSec; split_ifs <;> omega,
    by show foldNano se na < 2000000000; unfold foldNano; split_ifs <;> omega,
    h11, h12⟩

theorem candidate_reparse {cap : Caps} (hwf : CapsWF cap)
    (hday : toNum (cap.D.getD ['1'])
      ≤ daysInMonth (toNum cap.Y : Int) (toNum (cap.M.getD ['1'])))
    (hmin : toNum (cap.Zmin.getD ['0', '0']) ≤ 59)
    (hoff : toNum (cap.Zhrs.getD ['0', '0']) * 3600
        + toNum (cap.Zmin.getD ['0', '0']) * 60 < 86400) :
    ∃ dt, parseRfc3339 (buildCandidate cap) = some dt := by
  obtain ⟨fracN, hfb, heq⟩ := candidate_parse_eq hwf
  obtain ⟨off, hscan, habs⟩ := candZone_scan hwf.zone hmin
  obtain ⟨hY1, hY2, hM, hD, hH, hMi, hS, hSs, hdep, hzone⟩ := hwf
  have hYb : toNum cap.Y < 10000 := by
    have := toNum_lt hY1
    rw [hY2] at this
    norm_num at this
    exact this
  have hMv : 1 ≤ toNum (cap.M.getD ['1']) ∧ toNum (cap.M.getD ['1']) ≤ 12 := by
    cases hc : cap.M with
    | none => exact ⟨by decide, by decide⟩
    | some t =>
      obtain ⟨-, -, h3, h4⟩ := hM t hc
      simp only [Option.getD_some]
      exact ⟨h3, h4⟩
  have hDv : 1 ≤ toNum (cap.D.getD ['1']) := by
    cases hc : cap.D with
    | none => decide
    | some t =>
      obtain ⟨-, -, h3, -⟩ := hD t hc
      simp only [Option.getD_some]
      exact h3
  have hHv : toNum (cap.h.getD ['0']) ≤ 23 := by
    cases hc : cap.h with
    | none => decide
    | some t =>
      obtain ⟨-, -, h3⟩ := hH t hc
      simp only [Option.getD_some]
      exact h3
  have hMiv : toNum (cap.m.getD ['0']) ≤ 59 := by
    cases hc : cap.m with
    | none => decide
    | some t =>
      obtain ⟨-, -, h3⟩ := hMi t hc
      simp only [Option.getD_some]
      exact h3
  have hSv : toNum (cap.s.getD ['0']) ≤ 60 := by
    cases hc : cap.s with
    | none => decide
    | some t =>
      obtain ⟨-, -, h3⟩ := hS t hc
      simp only [Option.getD_some]
      exact h3
  rw [heq, hscan]
  exact ⟨_, toDatetime_eq_some (by omega) (by omega) hMv.1 hMv.2 hDv hday hHv
    hMiv hSv hfb (by omega) (by omega)⟩

theorem candidate_parse_none {cap : Caps} {hrs2 : List Char}
    (hwf : CapsWF cap) (hzh : cap.Zhrs = some hrs2)
    (h24 : 24 ≤ toNum hrs2) :
    parseRfc3339 (buildCandidate cap) = none := by
  obtain ⟨fracN, hfb, heq⟩ := candidate_parse_eq hwf
  by_cases hm5 : toNum (cap.Zmin.getD ['0', '0']) ≤ 59
  · obtain ⟨off, hscan, habs⟩ := candZone_scan hwf.zone hm5
    rw [hzh, Option.getD_some] at habs
    rw [heq, hscan]
    show toDatetime _ = _
    unfold toDatetime
    split_ifs with hc
    · exfalso
      obtain ⟨-, -, -, -, -, -, -, -, -, -, h11, h12⟩ := hc
      have h11a : -86400 < off := h11
      have h12a : off < 86400 := h12
      omega
    · rfl
  · rw [heq, candZone_scan_badmin hwf.zone (by omega)]

theorem CapsWF.dep {c : Caps} (h : CapsWF c) :
    c.h = none → c.m = none ∧ c.s = none ∧ c.ss = none :=
  h.2.2.2.2.2.2.2.2.1

/-- The captures of the permissive pattern on the input `2018-30`: only the
year and the day are present. -/
def cap201830 : Caps :=
  ⟨"2018".data, none, some ("30".data), none, none, none, none, none, none,
    none, none⟩

/-- The captures of the permissive pattern on `2018-10-11T03:23:38+25:00`:
every group present, offset hours `25`. -/
def cap2018bigoff : Caps :=
  ⟨"2018".data, some ("10".data), some ("11".data), some ("03".data),
    some ("23".data), some ("38".data), none, some ("+25:00".data), some '+',
    some ("25".data), some ("00".data)⟩

/-- Counterexample to claim C8 as stated: `2018+25` is matched by the
permissive pattern with month, day and time-of-day all omitted, and the
assembled candidate fills them with the stated defaults, yet the strict
re-parse of that candidate fails (the offset is out of range), so conversion
errors instead of succeeding. -/
theorem permissive_defaults_counterexample :
    (∃ cap, iso8601Captures ("2018+25".data) = some cap ∧
      cap.M = none ∧ cap.D = none ∧ cap.h = none ∧
      buildCandidate cap = "2018-01-01T00:00:00+25:00".data ∧
      parseRfc3339 (buildCandidate cap) = none) ∧
    tryFromIso ⟨"2018+25".data⟩
      = .error (.convertFail ("2018-01-01T00:00:00+25:00".data)
          ("2018+25".data)) := by
  refine ⟨⟨⟨"2018".data, none, none, none, none, none, none,
    some ("+25".data), some '+', some ("25".data), none⟩,
    by decide, by decide, by decide, by decide, by decide, by decide⟩,
    by decide⟩

/-- Claim C8 (amended): whenever the permissive pattern matches, the
assembled candidate fills an omitted time-of-day with `00:00:00`, an omitted
month or day with `01`, and uses `Z` when the timezone designator is entirely
absent; the strict re-parse of the assembled candidate succeeds provided the
(possibly defaulted) month and day form a valid calendar date and the
(possibly defaulted) offset fields denote an offset below one day with a
minute field below sixty. Without those provisos the re-parse can fail, as
the counterexample records. -/
theorem permissive_defaults_fill {s : List Char} {cap : Caps}
    (hcap : iso8601Captures s = some cap)
    (hday : toNum (cap.D.getD ['1'])
      ≤ daysInMonth (toNum cap.Y : Int) (toNum (cap.M.getD ['1'])))
    (hmin : toNum (cap.Zmin.getD ['0', '0']) ≤ 59)
    (hoff : toNum (cap.Zhrs.getD ['0', '0']) * 3600
        + toNum (cap.Zmin.getD ['0', '0']) * 60 < 86400) :
    (cap.h = none → candTime cap = "00:00:00".data) ∧
    (cap.M = none → padZero 2 (cap.M.getD ['1']) = "01".data) ∧
    (cap.D = none → padZero 2 (cap.D.getD ['1']) = "01".data) ∧
    (cap.Z = none → candZone cap = "Z".data) ∧
    ∃ dt, parseRfc3339 (buildCandidate cap) = some dt := by
  have hwf := iso8601Captures_wf hcap
  refine ⟨?_, ?_, ?_, ?_, candidate_reparse hwf hday hmin hoff⟩
  · intro h0
    obtain ⟨hm0, hs0, -⟩ := hwf.dep h0
    simp only [candTime, h0, hm0, hs0]
    rfl
  · intro h0
    rw [h0]
    rfl
  · intro h0
    rw [h0]
    rfl
  · intro h0
    simp only [candZone, h0]

/-- Witness for C8 at the concrete input `2018-30`: the day is captured, the
month and time are absent and get their defaults, and the candidate
`2018-01-30T00:00:00Z` re-parses. -/
theorem permissive_defaults_fill_witness :
    iso8601Captures ("2018-30".data) = some cap201830 ∧
    toNum (cap201830.D.getD ['1']) ≤ daysInMonth (toNum cap201830.Y : Int)
        (toNum (cap201830.M.getD ['1'])) ∧
    ((cap201830.h = none → candTime cap201830 = "00:00:00".data) ∧
     (cap201830.M = none →
       padZero 2 (cap201830.M.getD ['1']) = "01".data) ∧
     (cap201830.D = none →
       padZero 2 (cap201830.D.getD ['1']) = "01".data) ∧
     (cap201830.Z = none → candZone cap201830 = "Z".data) ∧
     ∃ dt, parseRfc3339 (buildCandidate cap201830) = some dt) :=
  ⟨by decide, by decide,
    @permissive_defaults_fill ("2018-30".data) cap201830 (by decide)
      (by decide) (by decide) (by decide)⟩

/-- Claim C6: when the strict parse of the input fails but the permissive
pattern matches it with a captured offset-hour field of `24` or more, the
strict re-parse of the assembled candidate also fails, and conversion
returns the conversion-failure error naming both the assembled candidate
and the original input. -/
theorem offset_hour_out_of_range {s hrs2 : List Char} {cap : Caps}
    (hstrict : parseRfc3339 s = none)
    (hcap : iso8601Captures s = some cap)
    (hzh : cap.Zhrs = some hrs2) (h24 : 24 ≤ toNum hrs2) :
    parseRfc3339 (buildCandidate cap) = none ∧
    tryFromIso ⟨s⟩ = .error (.convertFail (buildCandidate cap) s) := by
  have hwf := iso8601Captures_wf hcap
  have hnone := candidate_parse_none hwf hzh h24
  refine ⟨hnone, ?_⟩
  simp only [tryFromIso, hstrict, hcap, hnone]

/-- Witness for C6 at the concrete input `2018-10-11T03:23:38+25:00`: the
pattern matches with offset hours `25`, the candidate re-parse fails, and
the conversion error names the candidate and the input. -/
theorem offset_hour_out_of_range_witness :
    parseRfc3339 ("2018-10-11T03:23:38+25:00".data) = none ∧
    iso8601Captures ("2018-10-11T03:23:38+25:00".data)
      = some cap2018bigoff ∧
    cap2018bigoff.Zhrs = some ("25".data) ∧ 24 ≤ toNum ("25".data) ∧
    (parseRfc3339 (buildCandidate cap2018bigoff) = none ∧
      tryFromIso ⟨"2018-10-11T03:23:38+25:00".data⟩
        = .error (.convertFail (buildCandidate cap2018bigoff)
            ("2018-10-11T03:23:38+25:00".data))) :=
  ⟨by decide, by decide, by decide, by decide,
    @offset_hour_out_of_range ("2018-10-11T03:23:38+25:00".data) ("25".data)
      cap2018bigoff (by decide) (by decide) (by decide) (by decide)⟩

/-! ## Exact runs of the permissive pattern on shaped inputs -/

/-- A list of Unicode whitespace characters. -/
def AllWs (l : List Char) : Prop := ∀ c ∈ l, isWs c = true

theorem trimWs_ws_append {w t : List Char} (hw : AllWs w) :
    trimWs (w ++ t) = trimWs t := by
  induction w with
  | nil => rfl
  | cons c cs ih =>
    have hc : isWs c = true := hw c (List.mem_cons_self c cs)
    show trimWs (c :: (cs ++ t)) = _
    unfold trimWs
    rw [List.dropWhile_cons, if_pos hc]
    exact ih fun x hx => hw x (List.mem_cons_of_mem c hx)

theorem trimWs_ws_nil {w : List Char} (hw : AllWs w) : trimWs w = [] := by
  have h := @trimWs_ws_append w [] hw
  rwa [List.append_nil] at h

theorem toNat_c4 : ('4' : Char).toNat = 52 := rfl

theorem toNat_c6 : ('6' : Char).toNat = 54 := rfl

theorem eq_c0 {a : Char} (h : a.toNat = 48) : a = '0' :=
  charEq_iff.mpr (by rw [toNat_c0]; exact h)

theorem eq_c1 {a : Char} (h : a.toNat = 49) : a = '1' :=
  charEq_iff.mpr (by rw [toNat_c1]; exact h)

theorem eq_c2 {a : Char} (h : a.toNat = 50) : a = '2' :=
  charEq_iff.mpr (by rw [toNat_c2]; exact h)

theorem eq_c3 {a : Char} (h : a.toNat = 51) : a = '3' :=
  charEq_iff.mpr (by rw [toNat_c3]; exact h)

theorem eq_c6 {a : Char} (h : a.toNat = 54) : a = '6' :=
  charEq_iff.mpr (by rw [toNat_c6]; exact h)

theorem ge_c0 {a : Char} (h : 48 ≤ a.toNat) : '0' ≤ a :=
  charLe_iff.mpr (by rw [toNat_c0]; exact h)

theorem ge_c1 {a : Char} (h : 49 ≤ a.toNat) : '1' ≤ a :=
  charLe_iff.mpr (by rw [toNat_c1]; exact h)

theorem le_c3 {a : Char} (h : a.toNat ≤ 51) : a ≤ '3' :=
  charLe_iff.mpr (by rw [toNat_c3]; exact h)

theorem le_c5 {a : Char} (h : a.toNat ≤ 53) : a ≤ '5' :=
  charLe_iff.mpr (by rw [toNat_c5]; exact h)

theorem le_c9 {a : Char} (h : a.toNat ≤ 57) : a ≤ '9' :=
  charLe_iff.mpr (by rw [toNat_c9]; exact h)

theorem pYear_run (r : List Char) {y1 y2 y3 y4 : Char}
    (h1 : isDig y1 = true) (h2 : isDig y2 = true) (h3 : isDig y3 = true)
    (h4 : isDig y4 = true) :
    pYear (y1 :: y2 :: y3 :: y4 :: r) = [([y1, y2, y3, y4], r)] := by
  simp only [pYear, h1, h2, h3, h4]
  rfl

theorem pMonth_run (r : List Char) {a b : Char} (ha : isDig a = true)
    (hb : isDig b = true) (h1 : 1 ≤ 10 * digVal a + digVal b)
    (h2 : 10 * digVal a + digVal b ≤ 12) :
    pMonth (a :: b :: r) = [([a, b], r)] := by
  have hna := isDig_toNat ha
  have hnb := isDig_toNat hb
  unfold digVal at h1 h2
  simp only [pMonth]
  have hcase : a.toNat = 48 ∨ a.toNat = 49 := by omega
  rcases hcase with hc | hc
  · rw [if_pos]
    simp only [Bool.and_eq_true, decide_eq_true_eq]
    exact ⟨⟨eq_c0 hc, ge_c1 (by omega)⟩, le_c9 (by omega)⟩
  · rw [if_neg, if_pos]
    · simp only [Bool.and_eq_true, decide_eq_true_eq, Bool.or_eq_true]
      refine ⟨eq_c1 hc, ?_⟩
      have hbc : b.toNat = 48 ∨ b.toNat = 49 ∨ b.toNat = 50 := by omega
      rcases hbc with h | h | h
      · exact Or.inl (Or.inl (eq_c0 h))
      · exact Or.inl (Or.inr (eq_c1 h))
      · exact Or.inr (eq_c2 h)
    · simp only [Bool.and_eq_true, decide_eq_true_eq]
      rintro ⟨⟨h, -⟩, -⟩
      rw [h] at hc
      exact absurd hc (by decide)

theorem pDay_run (r : List Char) {a b : Char} (ha : isDig a = true)
    (hb : isDig b = true) (h1 : 1 ≤ 10 * digVal a + digVal b)
    (h2 : 10 * digVal a + digVal b ≤ 31) :
    pDay (a :: b :: r) = [([a, b], r)] := by
  have hna := isDig_toNat ha
  have hnb := isDig_toNat hb
  unfold digVal at h1 h2
  simp only [pDay]
  have hcase : a.toNat = 48 ∨ (a.toNat = 49 ∨ a.toNat = 50) ∨ a.toNat = 51 :=
    by omega
  rcases hcase with hc | hc | hc
  · rw [if_pos]
    simp only [Bool.and_eq_true, decide_eq_true_eq]
    exact ⟨⟨eq_c0 hc, ge_c1 (by omega)⟩, le_c9 (by omega)⟩
  · rw [if_neg, if_pos]
    · simp only [Bool.and_eq_true, decide_eq_true_eq, Bool.or_eq_true]
      refine ⟨⟨?_, ge_c0 (by omega)⟩, le_c9 (by omega)⟩
      rcases hc with h | h
      · exact Or.inl (eq_c1 h)
      · exact Or.inr (eq_c2 h)
    · simp only [Bool.and_eq_true, decide_eq_true_eq]
      rintro ⟨⟨h, -⟩, -⟩
      rw [h] at hc
      rcases hc with h2c | h2c <;> exact absurd h2c (by decide)
  · rw [if_neg, if_neg, if_pos]
    · simp only [Bool.and_eq_true, decide_eq_true_eq, Bool.or_eq_true]
      refine ⟨eq_c3 hc, ?_⟩
      have hbc : b.toNat = 48 ∨ b.toNat = 49 := by omega
      rcases hbc with h | h
      · exact Or.inl (eq_c0 h)
      · exact Or.inr (eq_c1 h)
    · simp only [Bool.and_eq_true, decide_eq_true_eq, Bool.or_eq_true]
      rintro ⟨⟨h | h, -⟩, -⟩ <;> rw [h] at hc <;>
        exact absurd hc (by decide)
    · simp only [Bool.and_eq_true, decide_eq_true_eq]
      rintro ⟨⟨h, -⟩, -⟩
      rw [h] at hc
      exact absurd hc (by decide)

theorem pHour_run (r : List Char) {a b : Char} (ha : isDig a = true)
    (hb : isDig b = true) (h2 : 10 * digVal a + digVal b ≤ 23) :
    pHour (a :: b :: r) = [([a, b], r)] := by
  have hna := isDig_toNat ha
  have hnb := isDig_toNat hb
  unfold digVal at h2
  simp only [pHour]
  have hcase : (a.toNat = 48 ∨ a.toNat = 49) ∨ a.toNat = 50 := by omega
  rcases hcase with hc | hc
  · rw [if_pos]
    simp only [Bool.and_eq_true, decide_eq_true_eq, Bool.or_eq_true]
    refine ⟨⟨?_, ge_c0 (by omega)⟩, le_c9 (by omega)⟩
    rcases hc with h | h
    · exact Or.inl (eq_c0 h)
    · exact Or.inr (eq_c1 h)
  · rw [if_neg, if_pos]
    · simp only [Bool.and_eq_true, decide_eq_true_eq]
      exact ⟨⟨eq_c2 hc, ge_c0 (by omega)⟩, le_c3 (by omega)⟩
    · simp only [Bool.and_eq_true, decide_eq_true_eq, Bool.or_eq_true]
      rintro ⟨⟨h | h, -⟩, -⟩ <;> rw [h] at hc <;>
        exact absurd hc (by decide)

theorem pMinu_run (r : List Char) {a b : Char} (ha : isDig a = true)
    (hb : isDig b = true) (h : 10 * digVal a + digVal b ≤ 59) :
    pMinu (a :: b :: r) = [([a, b], r)] := by
  have hna := isDig_toNat ha
  have hnb := isDig_toNat hb
  unfold digVal at h
  simp only [pMinu]
  rw [if_pos]
  simp only [Bool.and_eq_true, decide_eq_true_eq]
  exact ⟨⟨⟨ge_c0 (by omega), le_c5 (by omega)⟩, ge_c0 (by omega)⟩,
    le_c9 (by omega)⟩

theorem pSecnd_run (r : List Char) {a b : Char} (ha : isDig a = true)
    (hb : isDig b = true) (h : 10 * digVal a + digVal b ≤ 60) :
    pSecnd (a :: b :: r) = [([a, b], r)] := by
  have hna := isDig_toNat ha
  have hnb := isDig_toNat hb
  unfold digVal at h
  simp only [pSecnd]
  by_cases h59 : a.toNat ≤ 53
  · rw [if_pos]
    simp only [Bool.and_eq_true, decide_eq_true_eq]
    exact ⟨⟨⟨ge_c0 (by omega), le_c5 h59⟩, ge_c0 (by omega)⟩,
      le_c9 (by omega)⟩
  · have ha6 : a.toNat = 54 := by omega
    have hb0 : b.toNat = 48 := by omega
    rw [if_neg, if_pos]
    · simp only [Bool.and_eq_true, decide_eq_true_eq]
      exact ⟨eq_c6 ha6, eq_c0 hb0⟩
    · simp only [Bool.and_eq_true, decide_eq_true_eq]
      rintro ⟨⟨⟨-, h5⟩, -⟩, -⟩
      rw [charLe_iff, toNat_c5] at h5
      omega

theorem pTwoDigs_run (r : List Char) {a b : Char} (ha : isDig a = true)
    (hb : isDig b = true) : pTwoDigs (a :: b :: r) = [([a, b], r)] := by
  simp only [pTwoDigs, ha, hb]
  rfl

theorem pSign_run (r : List Char) {c : Char}
    (hc : c = '+' ∨ c = '-' ∨ c = '−') : pSign (c :: r) = [(c, r)] := by
  simp only [pSign]
  rw [if_pos]
  simp only [Bool.or_eq_true, decide_eq_true_eq]
  tauto

theorem pOptDash_run (t : List Char) :
    ∃ u, pOptDash ('-' :: t) = ((), t) :: u :=
  ⟨[((), '-' :: t)], by simp [pOptDash]⟩

theorem pOptColon_run (t : List Char) :
    ∃ u, pOptColon (':' :: t) = ([':'], t) :: u :=
  ⟨[([], ':' :: t)], by simp [pOptColon]⟩

theorem pWsPlus_run {w t : List Char} (hw : AllWs w) (hne : w ≠ [])
    (ht : HeadNotWs t) : pWsPlus (w ++ t) = [((), t)] := by
  cases w with
  | nil => exact absurd rfl hne
  | cons c cs =>
    have hc : isWs c = true := hw c (List.mem_cons_self c cs)
    show pWsPlus (c :: (cs ++ t)) = _
    simp only [pWsPlus]
    rw [if_pos hc, show c :: (cs ++ t) = (c :: cs) ++ t from rfl,
      trimWs_ws_append hw, trimWs_eq_self ht]

theorem pTimeSep_run {sep : List Char} (t : List Char)
    (hsep : sep = ['T'] ∨ sep = ['t'] ∨ (AllWs sep ∧ sep ≠ []))
    (ht : HeadNotWs t) :
    ∃ u, pTimeSep (sep ++ t) = ((), t) :: u := by
  rcases hsep with h | h | ⟨hw, hne⟩
  · subst h
    refine ⟨pWsPlus ('T' :: t), ?_⟩
    simp only [pTimeSep, List.cons_append, List.nil_append]
    rw [if_pos (by decide)]
    rfl
  · subst h
    refine ⟨pWsPlus ('t' :: t), ?_⟩
    simp only [pTimeSep, List.cons_append, List.nil_append]
    rw [if_pos (by decide)]
    rfl
  · obtain ⟨c, cs, hcs⟩ : ∃ c cs, sep = c :: cs := by
      cases sep with
      | nil => exact absurd rfl hne
      | cons c cs => exact ⟨c, cs, rfl⟩
    subst hcs
    have hc : isWs c = true := hw c (List.mem_cons_self c cs)
    have hcT : ¬ (c = 'T' || c = 't') = true := by
      simp only [Bool.or_eq_true, decide_eq_true_eq]
      rintro (h | h) <;> rw [h] at hc <;> exact absurd hc (by decide)
    refine ⟨[], ?_⟩
    show pTimeSep (c :: (cs ++ t)) = _
    simp only [pTimeSep]
    rw [if_neg hcT, List.nil_append,
      show c :: (cs ++ t) = (c :: cs) ++ t from rfl, pWsPlus_run hw hne ht]

theorem flatMap_head {α β : Type} {l : List α} {a : α} {f : α → List β}
    {b : β} (hl : ∃ u, l = a :: u) (hf : ∃ v, f a = b :: v) :
    ∃ w, l.flatMap f = b :: w := by
  obtain ⟨u, hu⟩ := hl
  obtain ⟨v, hv⟩ := hf
  subst hu
  refine ⟨v ++ u.flatMap f, ?_⟩
  rw [List.flatMap_cons, hv, List.cons_append]

theorem map_head {α β : Type} {l : List α} {a : α} {f : α → β}
    (hl : ∃ u, l = a :: u) : ∃ w, l.map f = f a :: w := by
  obtain ⟨u, hu⟩ := hl
  subst hu
  exact ⟨u.map f, rfl⟩

theorem head_append {β : Type} {l1 l2 : List β} {b : β}
    (h : ∃ u, l1 = b :: u) : ∃ u, l1 ++ l2 = b :: u := by
  obtain ⟨u, hu⟩ := h
  subst hu
  exact ⟨u ++ l2, rfl⟩

theorem pOpt_cons2 {α : Type} {p : List Char → List (α × List Char)}
    {s : List Char} {a : α} {r : List Char}
    (h : ∃ v, p s = (a, r) :: v) :
    ∃ u, pOpt p s = (some a, r) :: u := by
  obtain ⟨v, hv⟩ := h
  refine ⟨v.map (fun x => (some x.1, x.2)) ++ [(none, s)], ?_⟩
  unfold pOpt
  rw [hv]
  rfl

theorem pOpt_nil2 {α : Type} {p : List Char → List (α × List Char)}
    {s : List Char} (h : p s = []) : pOpt p s = [(none, s)] := by
  unfold pOpt
  rw [h]
  rfl

/-- A list that does not begin with a dot or a comma, so the subsecond group
cannot fire on it. -/
def HeadNoFrac : List Char → Prop
  | [] => True
  | c :: _ => c ≠ '.' ∧ c ≠ ','

theorem headNoFrac_of_ws {c : Char} {r : List Char} (hc : isWs c = true) :
    HeadNoFrac (c :: r) := by
  constructor
  · intro h
    rw [h] at hc
    exact absurd hc (by decide)
  · intro h
    rw [h] at hc
    exact absurd hc (by decide)

theorem pFracGroup_nil {t : List Char} (h : HeadNoFrac t) :
    pFracGroup t = [] := by
  cases t with
  | nil => rfl
  | cons c r =>
    obtain ⟨h1, h2⟩ : c ≠ '.' ∧ c ≠ ',' := h
    simp only [pFracGroup]
    rw [if_neg]
    simp only [Bool.or_eq_true, decide_eq_true_eq]
    rintro (h3 | h3)
    · exact h1 h3
    · exact h2 h3

theorem pDayGroup_run (rest : List Char) {d1 d2 : Char}
    (hd1 : isDig d1 = true) (hd2 : isDig d2 = true)
    (hdb1 : 1 ≤ 10 * digVal d1 + digVal d2)
    (hdb2 : 10 * digVal d1 + digVal d2 ≤ 31) :
    ∃ u, pDayGroup ('-' :: d1 :: d2 :: rest) = (some [d1, d2], rest) :: u := by
  unfold pDayGroup
  exact flatMap_head (pOptDash_run _)
    (pOpt_cons2 ⟨[], pDay_run rest hd1 hd2 hdb1 hdb2⟩)

theorem pDateContent_run (rest : List Char) {m1 m2 d1 d2 : Char}
    (hm1 : isDig m1 = true) (hm2 : isDig m2 = true)
    (hmb1 : 1 ≤ 10 * digVal m1 + digVal m2)
    (hmb2 : 10 * digVal m1 + digVal m2 ≤ 12)
    (hd1 : isDig d1 = true) (hd2 : isDig d2 = true)
    (hdb1 : 1 ≤ 10 * digVal d1 + digVal d2)
    (hdb2 : 10 * digVal d1 + digVal d2 ≤ 31) :
    ∃ u, pDateContent ('-' :: m1 :: m2 :: '-' :: d1 :: d2 :: rest)
      = ((some [m1, m2], some [d1, d2]), rest) :: u := by
  unfold pDateContent
  refine flatMap_head (pOptDash_run _) ?_
  refine flatMap_head (pOpt_cons2 ⟨[], pMonth_run _ hm1 hm2 hmb1 hmb2⟩) ?_
  exact map_head (pOpt_cons2 (pDayGroup_run rest hd1 hd2 hdb1 hdb2))

theorem pDate_run (rest : List Char) {m1 m2 d1 d2 : Char}
    (hm1 : isDig m1 = true) (hm2 : isDig m2 = true)
    (hmb1 : 1 ≤ 10 * digVal m1 + digVal m2)
    (hmb2 : 10 * digVal m1 + digVal m2 ≤ 12)
    (hd1 : isDig d1 = true) (hd2 : isDig d2 = true)
    (hdb1 : 1 ≤ 10 * digVal d1 + digVal d2)
    (hdb2 : 10 * digVal d1 + digVal d2 ≤ 31) :
    ∃ u, pDate ('-' :: m1 :: m2 :: '-' :: d1 :: d2 :: rest)
      = ((some [m1, m2], some [d1, d2]), rest) :: u := by
  unfold pDate
  exact map_head (pOpt_cons2
    (pDateContent_run rest hm1 hm2 hmb1 hmb2 hd1 hd2 hdb1 hdb2))

theorem pSecGroup_run (rest : List Char) {s1 s2 : Char}
    (hs1 : isDig s1 = true) (hs2 : isDig s2 = true)
    (hsb : 10 * digVal s1 + digVal s2 ≤ 60) (hnf : HeadNoFrac rest) :
    ∃ u, pSecGroup (':' :: s1 :: s2 :: rest)
      = (([s1, s2], none), rest) :: u := by
  unfold pSecGroup
  refine flatMap_head (pOptColon_run _) ?_
  refine flatMap_head ⟨[], pSecnd_run rest hs1 hs2 hsb⟩ ?_
  exact map_head ⟨[], pOpt_nil2 (pFracGroup_nil hnf)⟩

theorem pMinGroup_run (rest : List Char) {i1 i2 s1 s2 : Char}
    (hi1 : isDig i1 = true) (hi2 : isDig i2 = true)
    (hib : 10 * digVal i1 + digVal i2 ≤ 59)
    (hs1 : isDig s1 = true) (hs2 : isDig s2 = true)
    (hsb : 10 * digVal s1 + digVal s2 ≤ 60) (hnf : HeadNoFrac rest) :
    ∃ u, pMinGroup (':' :: i1 :: i2 :: ':' :: s1 :: s2 :: rest)
      = (([i1, i2], some ([s1, s2], none)), rest) :: u := by
  unfold pMinGroup
  refine flatMap_head (pOptColon_run _) ?_
  refine flatMap_head ⟨[], pMinu_run _ hi1 hi2 hib⟩ ?_
  exact map_head (pOpt_cons2 (pSecGroup_run rest hs1 hs2 hsb hnf))

theorem pTimeContent_run {sep : List Char} (rest : List Char)
    {a1 a2 i1 i2 s1 s2 : Char}
    (hsep : sep = ['T'] ∨ sep = ['t'] ∨ (AllWs sep ∧ sep ≠ []))
    (ha1 : isDig a1 = true) (ha2 : isDig a2 = true)
    (hab : 10 * digVal a1 + digVal a2 ≤ 23)
    (hi1 : isDig i1 = true) (hi2 : isDig i2 = true)
    (hib : 10 * digVal i1 + digVal i2 ≤ 59)
    (hs1 : isDig s1 = true) (hs2 : isDig s2 = true)
    (hsb : 10 * digVal s1 + digVal s2 ≤ 60) (hnf : HeadNoFrac rest) :
    ∃ u, pTimeContent (sep
        ++ (a1 :: a2 :: ':' :: i1 :: i2 :: ':' :: s1 :: s2 :: rest))
      = (⟨[a1, a2], some [i1, i2], some [s1, s2], none⟩, rest) :: u := by
  unfold pTimeContent
  refine flatMap_head
    (pTimeSep_run _ hsep (headNotWs_cons (not_ws_of_dig ha1))) ?_
  refine flatMap_head ⟨[], pHour_run _ ha1 ha2 hab⟩ ?_
  exact map_head (pOpt_cons2 (pMinGroup_run rest hi1 hi2 hib hs1 hs2 hsb hnf))

theorem pZminGroup_run (r : List Char) {u v : Char} (hu : isDig u = true)
    (hv : isDig v = true) :
    ∃ w, pZminGroup (':' :: u :: v :: r) = (([':', u, v], [u, v]), r) :: w := by
  unfold pZminGroup
  refine flatMap_head (pOptColon_run _) ?_
  exact map_head ⟨[], pTwoDigs_run r hu hv⟩

theorem pZoneContent_zulu (r : List Char) {zc : Char}
    (h : zc = 'Z' ∨ zc = 'z') :
    ∃ u, pZoneContent (zc :: r) = (⟨[zc], none, none, none⟩, r) :: u := by
  unfold pZoneContent
  rcases h with h | h <;> subst h <;> exact head_append ⟨[], rfl⟩

theorem pZoneContent_signed (r : List Char) {sg za zb u v : Char}
    (hs : sg = '+' ∨ sg = '-' ∨ sg = '−') (ha : isDig za = true)
    (hb : isDig zb = true) (hu : isDig u = true) (hv : isDig v = true) :
    ∃ w, pZoneContent (sg :: za :: zb :: ':' :: u :: v :: r)
      = (⟨[sg, za, zb, ':', u, v], some sg, some [za, zb], some [u, v]⟩, r)
          :: w := by
  unfold pZoneContent
  rcases hs with h | h | h <;> subst h <;>
    (refine flatMap_head ⟨[], pSign_run _ (by tauto)⟩ ?_
     refine flatMap_head ⟨[], pTwoDigs_run _ ha hb⟩ ?_
     exact map_head (pOpt_cons2 (pZminGroup_run r hu hv)))

theorem reAll_head {w1 w2 w3 sep zt : List Char} {zcap : ZoneCaps}
    {y1 y2 y3 y4 m1 m2 d1 d2 a1 a2 i1 i2 s1 s2 : Char}
    (hw1 : AllWs w1) (hw2 : AllWs w2) (hw3 : AllWs w3)
    (hy1 : isDig y1 = true) (hy2 : isDig y2 = true) (hy3 : isDig y3 = true)
    (hy4 : isDig y4 = true)
    (hm1 : isDig m1 = true) (hm2 : isDig m2 = true)
    (hmb1 : 1 ≤ 10 * digVal m1 + digVal m2)
    (hmb2 : 10 * digVal m1 + digVal m2 ≤ 12)
    (hd1 : isDig d1 = true) (hd2 : isDig d2 = true)
    (hdb1 : 1 ≤ 10 * digVal d1 + digVal d2)
    (hdb2 : 10 * digVal d1 + digVal d2 ≤ 31)
    (ha1 : isDig a1 = true) (ha2 : isDig a2 = true)
    (hab : 10 * digVal a1 + digVal a2 ≤ 23)
    (hi1 : isDig i1 = true) (hi2 : isDig i2 = true)
    (hib : 10 * digVal i1 + digVal i2 ≤ 59)
    (hs1 : isDig s1 = true) (hs2 : isDig s2 = true)
    (hsb : 10 * digVal s1 + digVal s2 ≤ 60)
    (hsep : sep = ['T'] ∨ sep = ['t'] ∨ (AllWs sep ∧ sep ≠ []))
    (hzc : ∃ zh zr, zt = zh :: zr ∧ isWs zh = false ∧ zh ≠ '.' ∧ zh ≠ ',')
    (hzrun : ∃ u, pZoneContent (zt ++ w3) = (zcap, w3) :: u) :
    ∃ u, reAll (w1 ++ (y1 :: y2 :: y3 :: y4 :: '-' :: m1 :: m2 :: '-' :: d1
        :: d2 :: (sep ++ (a1 :: a2 :: ':' :: i1 :: i2 :: ':' :: s1 :: s2 ::
        (w2 ++ (zt ++ w3))))))
      = ({ Y := [y1, y2, y3, y4], M := some [m1, m2], D := some [d1, d2],
           h := some [a1, a2], m := some [i1, i2], s := some [s1, s2],
           ss := none, Z := some zcap.Z, Zsgn := zcap.Zsgn,
           Zhrs := zcap.Zhrs, Zmin := zcap.Zmin }, []) :: u := by
  obtain ⟨zh, zr, hzt, hzw, hzd, hzm⟩ := hzc
  have hnf : HeadNoFrac (w2 ++ (zt ++ w3)) := by
    cases w2 with
    | cons c cs => exact headNoFrac_of_ws (hw2 c (List.mem_cons_self c cs))
    | nil =>
      rw [List.nil_append, hzt]
      exact ⟨hzd, hzm⟩
  have htrim2 : trimWs (w2 ++ (zt ++ w3)) = zt ++ w3 := by
    rw [trimWs_ws_append hw2]
    rw [hzt]
    exact trimWs_eq_self (headNotWs_cons hzw)
  unfold reAll
  rw [trimWs_ws_append hw1,
    trimWs_eq_self (headNotWs_cons (not_ws_of_dig hy1))]
  refine flatMap_head ⟨[], pYear_run _ hy1 hy2 hy3 hy4⟩ ?_
  refine flatMap_head
    (pDate_run _ hm1 hm2 hmb1 hmb2 hd1 hd2 hdb1 hdb2) ?_
  refine flatMap_head (pOpt_cons2
    (pTimeContent_run _ hsep ha1 ha2 hab hi1 hi2 hib hs1 hs2 hsb hnf)) ?_
  simp only [htrim2]
  obtain ⟨v, hv⟩ := pOpt_cons2 hzrun
  simp only [hv, List.map_cons, trimWs_ws_nil hw3]
  exact ⟨_, rfl⟩

theorem captures_of_reAll_head {s : List Char} {cap : Caps}
    (h : ∃ u, reAll s = (cap, []) :: u) : iso8601Captures s = some cap := by
  obtain ⟨u, hu⟩ := h
  unfold iso8601Captures
  rw [hu, List.filter_cons_of_pos (by rfl)]
  rfl

theorem scanTz_unicode_minus (r : List Char) : scanTz ('−' :: r) = none := by
  simp [scanTz]

theorem expectChar_ne {c x : Char} (r : List Char) (h : ¬ x = c) :
    expectChar c (x :: r) = none := by
  simp only [expectChar]
  rw [if_neg h]

/-- The strict parser rejects any input whose date and time-of-day are
separated by whitespace instead of the literal `T`: the day item stops at the
whitespace, the whitespace is trimmed, and the `T` literal meets a digit. -/
theorem parseRfc3339_space_sep {w1 sep rest : List Char}
    {yt mt dt2 : List Char} {c : Char}
    (hw1 : AllWs w1)
    (hy : AllDig yt) (hylen : yt.length = 4)
    (hm : AllDig mt) (hmlen : mt.length = 2)
    (hd : AllDig dt2) (hdlen : dt2.length = 2)
    (hsw : AllWs sep)
    (hc : isDig c = true) :
    parseRfc3339 (w1 ++ (yt ++ '-' :: (mt ++ '-' :: (dt2
        ++ (sep ++ c :: rest))))) = none := by
  have hyne : yt ≠ [] := by intro h; rw [h] at hylen; simp at hylen
  have hmne : mt ≠ [] := by intro h; rw [h] at hmlen; simp at hmlen
  have hdne : dt2 ≠ [] := by intro h; rw [h] at hdlen; simp at hdlen
  unfold parseRfc3339
  rw [trimWs_ws_append hw1, trimWs_eq_self (headNotWs_of_allDig hy hyne),
    scanYear_digits hy hylen]
  simp only [Option.some_bind]
  unfold parseAfterYear
  rw [trimWs_eq_self (headNotWs_cons (by decide)), expectChar_cons]
  simp only [Option.some_bind]
  rw [trimWs_eq_self (headNotWs_of_allDig hm hmne),
    scanNum_exact hm hmlen hmne]
  simp only [Option.some_bind]
  rw [trimWs_eq_self (headNotWs_cons (by decide)), expectChar_cons]
  simp only [Option.some_bind]
  rw [trimWs_eq_self (headNotWs_of_allDig hd hdne),
    scanNum_exact hd hdlen hdne]
  simp only [Option.some_bind]
  rw [trimWs_ws_append hsw,
    trimWs_eq_self (headNotWs_cons (not_ws_of_dig hc)),
    expectChar_ne rest (by intro h; rw [h] at hc; exact absurd hc (by decide))]
  rfl

theorem daysInMonth_le31 (y : Int) (m : Nat) : daysInMonth y m ≤ 31 := by
  unfold daysInMonth
  split_ifs <;> omega

theorem allDig_four {a b c d : Char} (ha : isDig a = true)
    (hb : isDig b = true) (hc : isDig c = true) (hd : isDig d = true) :
    AllDig [a, b, c, d] := by
  intro x hx
  simp only [List.mem_cons, List.not_mem_nil, or_false] at hx
  rcases hx with h | h | h | h <;> subst h <;> assumption

set_option maxHeartbeats 2000000 in
/-- Claim C9: for a full timestamp whose colon-separated offset carries the
Unicode minus sign U+2212, conversion agrees exactly with the identical text
carrying the ASCII hyphen instead: the strict parser rejects U+2212 so the
permissive pattern fires, and the assembled candidate normalises the sign to
the ASCII hyphen, which is precisely the other input; under the stated field
validity both convert to the same instant. -/
theorem unicode_minus_sign {y1 y2 y3 y4 m1 m2 d1 d2 a1 a2 i1 i2 s1 s2
      zh1 zh2 zm1 zm2 : Char}
    (hy1 : isDig y1 = true) (hy2 : isDig y2 = true) (hy3 : isDig y3 = true)
    (hy4 : isDig y4 = true)
    (hm1 : isDig m1 = true) (hm2 : isDig m2 = true)
    (hmb1 : 1 ≤ toNum [m1, m2]) (hmb2 : toNum [m1, m2] ≤ 12)
    (hd1 : isDig d1 = true) (hd2 : isDig d2 = true)
    (hdb1 : 1 ≤ toNum [d1, d2])
    (hdbv : toNum [d1, d2]
      ≤ daysInMonth (toNum [y1, y2, y3, y4] : Int) (toNum [m1, m2]))
    (ha1 : isDig a1 = true) (ha2 : isDig a2 = true)
    (hab : toNum [a1, a2] ≤ 23)
    (hi1 : isDig i1 = true) (hi2 : isDig i2 = true)
    (hib : toNum [i1, i2] ≤ 59)
    (hs1 : isDig s1 = true) (hs2 : isDig s2 = true)
    (hsb : toNum [s1, s2] ≤ 60)
    (hzh1 : isDig zh1 = true) (hzh2 : isDig zh2 = true)
    (hzm1 : isDig zm1 = true) (hzm2 : isDig zm2 = true)
    (hzmb : toNum [zm1, zm2] ≤ 59)
    (hoffb : toNum [zh1, zh2] * 3600 + toNum [zm1, zm2] * 60 < 86400) :
    ∃ dt, tryFromIso ⟨y1 :: y2 :: y3 :: y4 :: '-' :: m1 :: m2 :: '-' :: d1
          :: d2 :: 'T' :: a1 :: a2 :: ':' :: i1 :: i2 :: ':' :: s1 :: s2
          :: '−' :: zh1 :: zh2 :: ':' :: zm1 :: zm2 :: []⟩ = .ok dt ∧
      tryFromIso ⟨y1 :: y2 :: y3 :: y4 :: '-' :: m1 :: m2 :: '-' :: d1
          :: d2 :: 'T' :: a1 :: a2 :: ':' :: i1 :: i2 :: ':' :: s1 :: s2
          :: '-' :: zh1 :: zh2 :: ':' :: zm1 :: zm2 :: []⟩ = .ok dt := by
  have hle5 : zm1 ≤ '5' := two_digit_first_le_five hzm1 hzmb
  have hoffd := hoffb
  rw [toNum_two, toNum_two] at hoffd
  have hY4 : AllDig [y1, y2, y3, y4] := allDig_four hy1 hy2 hy3 hy4
  have hYb : toNum [y1, y2, y3, y4] < 10000 := by
    have := toNum_lt hY4
    norm_num at this
    exact this
  -- the value of the ASCII offset
  have hoffval : tzVal '-' zh1 zh2 zm1 zm2
      = -(((digVal zh1 * 10 + digVal zh2) * 3600
          + (digVal zm1 * 10 + digVal zm2) * 60 : Nat) : Int) := by
    unfold tzVal
    rw [if_pos rfl]
  -- strict parse of the ASCII variant succeeds
  have hcanon : parseRfc3339 ([y1, y2, y3, y4] ++ '-' :: ([m1, m2] ++ '-' ::
      ([d1, d2] ++ 'T' :: ([a1, a2] ++ ':' :: ([i1, i2] ++ ':' :: ([s1, s2]
      ++ ([] ++ ('-' :: zh1 :: zh2 :: ':' :: zm1 :: zm2 :: []))))))))
      = (match scanTz ('-' :: zh1 :: zh2 :: ':' :: zm1 :: zm2 :: []) with
        | some (off, []) =>
          toDatetime ⟨(toNum [y1, y2, y3, y4] : Int), toNum [m1, m2],
            toNum [d1, d2], toNum [a1, a2], toNum [i1, i2], toNum [s1, s2],
            0, off⟩
        | _ => none) :=
    parseRfc3339_canon hY4 rfl (allDig_two hm1 hm2) rfl
      (allDig_two hd1 hd2) rfl (allDig_two ha1 ha2) rfl
      (allDig_two hi1 hi2) rfl (allDig_two hs1 hs2) rfl FracShape.nil
      ⟨by decide, by decide, by decide⟩
  rw [scanTz_signed (Or.inr rfl) hzh1 hzh2 hzm1 hle5 hzm2] at hcanon
  have hstrictA : parseRfc3339 (y1 :: y2 :: y3 :: y4 :: '-' :: m1 :: m2 ::
      '-' :: d1 :: d2 :: 'T' :: a1 :: a2 :: ':' :: i1 :: i2 :: ':' :: s1 ::
      s2 :: '-' :: zh1 :: zh2 :: ':' :: zm1 :: zm2 :: [])
      = toDatetime ⟨(toNum [y1, y2, y3, y4] : Int), toNum [m1, m2],
          toNum [d1, d2], toNum [a1, a2], toNum [i1, i2], toNum [s1, s2],
          0, tzVal '-' zh1 zh2 zm1 zm2⟩ := hcanon
  have hokA : parseRfc3339 (y1 :: y2 :: y3 :: y4 :: '-' :: m1 :: m2 ::
      '-' :: d1 :: d2 :: 'T' :: a1 :: a2 :: ':' :: i1 :: i2 :: ':' :: s1 ::
      s2 :: '-' :: zh1 :: zh2 :: ':' :: zm1 :: zm2 :: [])
      = some ⟨(toNum [y1, y2, y3, y4] : Int), toNum [m1, m2],
          toNum [d1, d2], toNum [a1, a2], toNum [i1, i2],
          foldSec (toNum [s1, s2]), foldNano (toNum [s1, s2]) 0,
          tzVal '-' zh1 zh2 zm1 zm2⟩ :=
    hstrictA.trans (toDatetime_eq_some (by omega) (by omega) hmb1 hmb2 hdb1
      hdbv hab hib hsb (by omega) (by rw [hoffval]; omega)
      (by rw [hoffval]; omega))
  -- strict parse of the U+2212 variant fails
  have hcanonU : parseRfc3339 ([y1, y2, y3, y4] ++ '-' :: ([m1, m2] ++ '-' ::
      ([d1, d2] ++ 'T' :: ([a1, a2] ++ ':' :: ([i1, i2] ++ ':' :: ([s1, s2]
      ++ ([] ++ ('−' :: zh1 :: zh2 :: ':' :: zm1 :: zm2 :: []))))))))
      = (match scanTz ('−' :: zh1 :: zh2 :: ':' :: zm1 :: zm2 :: []) with
        | some (off, []) =>
          toDatetime ⟨(toNum [y1, y2, y3, y4] : Int), toNum [m1, m2],
            toNum [d1, d2], toNum [a1, a2], toNum [i1, i2], toNum [s1, s2],
            0, off⟩
        | _ => none) :=
    parseRfc3339_canon hY4 rfl (allDig_two hm1 hm2) rfl
      (allDig_two hd1 hd2) rfl (allDig_two ha1 ha2) rfl
      (allDig_two hi1 hi2) rfl (allDig_two hs1 hs2) rfl FracShape.nil
      ⟨by decide, by decide, by decide⟩
  rw [scanTz_unicode_minus] at hcanonU
  have hstrictU : parseRfc3339 (y1 :: y2 :: y3 :: y4 :: '-' :: m1 :: m2 ::
      '-' :: d1 :: d2 :: 'T' :: a1 :: a2 :: ':' :: i1 :: i2 :: ':' :: s1 ::
      s2 :: '−' :: zh1 :: zh2 :: ':' :: zm1 :: zm2 :: []) = none := hcanonU
  -- the permissive captures of the U+2212 variant
  have hmb1d := hmb1
  have hmb2d := hmb2
  have hdb1d := hdb1
  have hdb31 : toNum [d1, d2] ≤ 31 :=
    le_trans hdbv (daysInMonth_le31 _ _)
  have habd := hab
  have hibd := hib
  have hsbd := hsb
  rw [toNum_two] at hmb1d hmb2d hdb1d hdb31 habd hibd hsbd
  have hcap : iso8601Captures (y1 :: y2 :: y3 :: y4 :: '-' :: m1 :: m2 ::
      '-' :: d1 :: d2 :: 'T' :: a1 :: a2 :: ':' :: i1 :: i2 :: ':' :: s1 ::
      s2 :: '−' :: zh1 :: zh2 :: ':' :: zm1 :: zm2 :: [])
      = some (⟨[y1, y2, y3, y4], some [m1, m2], some [d1, d2],
          some [a1, a2], some [i1, i2], some [s1, s2], none,
          some ['−', zh1, zh2, ':', zm1, zm2], some '−',
          some [zh1, zh2], some [zm1, zm2]⟩ : Caps) :=
    captures_of_reAll_head (reAll_head (fun c hc => absurd hc
        (List.not_mem_nil c)) (fun c hc => absurd hc (List.not_mem_nil c))
      (fun c hc => absurd hc (List.not_mem_nil c))
      hy1 hy2 hy3 hy4 hm1 hm2 hmb1d hmb2d hd1 hd2 hdb1d hdb31
      ha1 ha2 habd hi1 hi2 hibd hs1 hs2 hsbd (Or.inl rfl)
      ⟨'−', zh1 :: zh2 :: ':' :: zm1 :: zm2 :: [], rfl, by decide,
        by decide, by decide⟩
      (pZoneContent_signed [] (Or.inr (Or.inr rfl)) hzh1 hzh2 hzm1 hzm2))
  -- the candidate of the U+2212 variant is the ASCII variant
  have hbc : buildCandidate (⟨[y1, y2, y3, y4], some [m1, m2],
      some [d1, d2], some [a1, a2], some [i1, i2], some [s1, s2], none,
      some ['−', zh1, zh2, ':', zm1, zm2], some '−',
      some [zh1, zh2], some [zm1, zm2]⟩ : Caps)
      = y1 :: y2 :: y3 :: y4 :: '-' :: m1 :: m2 :: '-' :: d1 :: d2 :: 'T' ::
        a1 :: a2 :: ':' :: i1 :: i2 :: ':' :: s1 :: s2 :: '-' :: zh1 :: zh2
        :: ':' :: zm1 :: zm2 :: [] := rfl
  refine ⟨⟨(toNum [y1, y2, y3, y4] : Int), toNum [m1, m2], toNum [d1, d2],
    toNum [a1, a2], toNum [i1, i2], foldSec (toNum [s1, s2]),
    foldNano (toNum [s1, s2]) 0, tzVal '-' zh1 zh2 zm1 zm2⟩, ?_, ?_⟩
  · simp only [tryFromIso, hstrictU, hcap, hbc, hokA]
  · simp only [tryFromIso, hokA]

theorem allWs_nil : AllWs [] := fun c hc => absurd hc (List.not_mem_nil c)

theorem allWs_single {c : Char} (h : isWs c = true) : AllWs [c] := by
  intro x hx
  simp only [List.mem_singleton] at hx
  subst hx
  exact h

set_option maxHeartbeats 2000000 in
/-- Claim C10: the permissive pattern accepts whitespace between the
time-of-day and the timezone designator as well as leading and trailing
whitespace around the whole timestamp: a `date time [spaces] zone` input
(with either an offset or `Z`, and valid fields) converts successfully and
to exactly the same instant as the identical input without those internal
and surrounding spaces. -/
theorem whitespace_variants {w1 w2 w3 zt : List Char}
    {y1 y2 y3 y4 m1 m2 d1 d2 a1 a2 i1 i2 s1 s2 : Char}
    (hw1 : AllWs w1) (hw2 : AllWs w2) (hw3 : AllWs w3)
    (hy1 : isDig y1 = true) (hy2 : isDig y2 = true) (hy3 : isDig y3 = true)
    (hy4 : isDig y4 = true)
    (hm1 : isDig m1 = true) (hm2 : isDig m2 = true)
    (hmb1 : 1 ≤ toNum [m1, m2]) (hmb2 : toNum [m1, m2] ≤ 12)
    (hd1 : isDig d1 = true) (hd2 : isDig d2 = true)
    (hdb1 : 1 ≤ toNum [d1, d2])
    (hdbv : toNum [d1, d2]
      ≤ daysInMonth (toNum [y1, y2, y3, y4] : Int) (toNum [m1, m2]))
    (ha1 : isDig a1 = true) (ha2 : isDig a2 = true)
    (hab : toNum [a1, a2] ≤ 23)
    (hi1 : isDig i1 = true) (hi2 : isDig i2 = true)
    (hib : toNum [i1, i2] ≤ 59)
    (hs1 : isDig s1 = true) (hs2 : isDig s2 = true)
    (hsb : toNum [s1, s2] ≤ 60)
    (hzone : zt = ['Z'] ∨ ∃ sg zh1 zh2 zm1 zm2, (sg = '+' ∨ sg = '-') ∧
      zt = [sg, zh1, zh2, ':', zm1, zm2] ∧ isDig zh1 = true ∧
      isDig zh2 = true ∧ isDig zm1 = true ∧ isDig zm2 = true ∧
      toNum [zm1, zm2] ≤ 59 ∧
      toNum [zh1, zh2] * 3600 + toNum [zm1, zm2] * 60 < 86400) :
    ∃ dt, tryFromIso ⟨w1 ++ (y1 :: y2 :: y3 :: y4 :: '-' :: m1 :: m2 :: '-'
          :: d1 :: d2 :: ' ' :: a1 :: a2 :: ':' :: i1 :: i2 :: ':' :: s1
          :: s2 :: (w2 ++ (zt ++ w3)))⟩ = .ok dt ∧
      tryFromIso ⟨y1 :: y2 :: y3 :: y4 :: '-' :: m1 :: m2 :: '-' :: d1 :: d2
          :: ' ' :: a1 :: a2 :: ':' :: i1 :: i2 :: ':' :: s1 :: s2 :: zt⟩
        = .ok dt := by
  have hmb1d := hmb1
  have hmb2d := hmb2
  have hdb1d := hdb1
  have hdb31 : toNum [d1, d2] ≤ 31 :=
    le_trans hdbv (daysInMonth_le31 _ _)
  have habd := hab
  have hibd := hib
  have hsbd := hsb
  rw [toNum_two] at hmb1d hmb2d hdb1d hdb31 habd hibd hsbd
  have hY4 := allDig_four hy1 hy2 hy3 hy4
  have hsep : ([' '] : List Char) = ['T'] ∨ ([' '] : List Char) = ['t'] ∨
      (AllWs [' '] ∧ ([' '] : List Char) ≠ []) := by
    refine Or.inr (Or.inr ⟨allWs_single (by decide), by decide⟩)
  have hstrictF : parseRfc3339 (w1 ++ (y1 :: y2 :: y3 :: y4 :: '-' :: m1 ::
      m2 :: '-' :: d1 :: d2 :: ' ' :: a1 :: a2 :: ':' :: i1 :: i2 :: ':' ::
      s1 :: s2 :: (w2 ++ (zt ++ w3)))) = none :=
    parseRfc3339_space_sep hw1 hY4 rfl (allDig_two hm1 hm2) rfl
      (allDig_two hd1 hd2) rfl (allWs_single (by decide)) ha1
  have hstrictC : parseRfc3339 (y1 :: y2 :: y3 :: y4 :: '-' :: m1 :: m2 ::
      '-' :: d1 :: d2 :: ' ' :: a1 :: a2 :: ':' :: i1 :: i2 :: ':' :: s1 ::
      s2 :: zt) = none :=
    parseRfc3339_space_sep allWs_nil hY4 rfl (allDig_two hm1 hm2) rfl
      (allDig_two hd1 hd2) rfl (allWs_single (by decide)) ha1
  rcases hzone with hzu | ⟨sg, zh1, zh2, zm1, zm2, hsg, hzt, hzh1, hzh2,
    hzm1, hzm2, hzmb, hoffz⟩
  · subst hzu
    have hcapF : iso8601Captures (w1 ++ (y1 :: y2 :: y3 :: y4 :: '-' :: m1 ::
        m2 :: '-' :: d1 :: d2 :: ' ' :: a1 :: a2 :: ':' :: i1 :: i2 :: ':' ::
        s1 :: s2 :: (w2 ++ (['Z'] ++ w3))))
        = some (⟨[y1, y2, y3, y4], some [m1, m2], some [d1, d2],
            some [a1, a2], some [i1, i2], some [s1, s2], none, some ['Z'],
            none, none, none⟩ : Caps) :=
      captures_of_reAll_head (reAll_head hw1 hw2 hw3 hy1 hy2 hy3 hy4 hm1 hm2
        hmb1d hmb2d hd1 hd2 hdb1d hdb31 ha1 ha2 habd hi1 hi2 hibd hs1 hs2
        hsbd hsep ⟨'Z', [], rfl, by decide, by decide, by decide⟩
        (pZoneContent_zulu w3 (Or.inl rfl)))
    have hcapC : iso8601Captures (y1 :: y2 :: y3 :: y4 :: '-' :: m1 :: m2 ::
        '-' :: d1 :: d2 :: ' ' :: a1 :: a2 :: ':' :: i1 :: i2 :: ':' :: s1 ::
        s2 :: ['Z'])
        = some (⟨[y1, y2, y3, y4], some [m1, m2], some [d1, d2],
            some [a1, a2], some [i1, i2], some [s1, s2], none, some ['Z'],
            none, none, none⟩ : Caps) :=
      captures_of_reAll_head (reAll_head allWs_nil allWs_nil allWs_nil hy1
        hy2 hy3 hy4 hm1 hm2 hmb1d hmb2d hd1 hd2 hdb1d hdb31 ha1 ha2 habd hi1
        hi2 hibd hs1 hs2 hsbd hsep
        ⟨'Z', [], rfl, by decide, by decide, by decide⟩
        (pZoneContent_zulu [] (Or.inl rfl)))
    obtain ⟨dt, hdt⟩ := candidate_reparse (iso8601Captures_wf hcapF) hdbv
      (by show toNum (['0', '0'] : List Char) ≤ 59; decide)
      (by show toNum (['0', '0'] : List Char) * 3600
            + toNum (['0', '0'] : List Char) * 60 < 86400
          decide)
    refine ⟨dt, ?_, ?_⟩
    · simp only [tryFromIso, hstrictF, hcapF, hdt]
    · simp only [tryFromIso, hstrictC, hcapC, hdt]
  · subst hzt
    have hsg3 : sg = '+' ∨ sg = '-' ∨ sg = '−' := by
      rcases hsg with h9 | h9
      · exact Or.inl h9
      · exact Or.inr (Or.inl h9)
    have hzc : ∃ zh zr, ([sg, zh1, zh2, ':', zm1, zm2] : List Char)
        = zh :: zr ∧ isWs zh = false ∧ zh ≠ '.' ∧ zh ≠ ',' := by
      refine ⟨sg, [zh1, zh2, ':', zm1, zm2], rfl, ?_, ?_, ?_⟩ <;>
        rcases hsg with h9 | h9 <;> rw [h9] <;> decide
    have hcapF : iso8601Captures (w1 ++ (y1 :: y2 :: y3 :: y4 :: '-' :: m1 ::
        m2 :: '-' :: d1 :: d2 :: ' ' :: a1 :: a2 :: ':' :: i1 :: i2 :: ':' ::
        s1 :: s2 :: (w2 ++ ([sg, zh1, zh2, ':', zm1, zm2] ++ w3))))
        = some (⟨[y1, y2, y3, y4], some [m1, m2], some [d1, d2],
            some [a1, a2], some [i1, i2], some [s1, s2], none,
            some [sg, zh1, zh2, ':', zm1, zm2], some sg, some [zh1, zh2],
            some [zm1, zm2]⟩ : Caps) :=
      captures_of_reAll_head (reAll_head hw1 hw2 hw3 hy1 hy2 hy3 hy4 hm1 hm2
        hmb1d hmb2d hd1 hd2 hdb1d hdb31 ha1 ha2 habd hi1 hi2 hibd hs1 hs2
        hsbd hsep hzc (pZoneContent_signed w3 hsg3 hzh1 hzh2 hzm1 hzm2))
    have hcapC : iso8601Captures (y1 :: y2 :: y3 :: y4 :: '-' :: m1 :: m2 ::
        '-' :: d1 :: d2 :: ' ' :: a1 :: a2 :: ':' :: i1 :: i2 :: ':' :: s1 ::
        s2 :: [sg, zh1, zh2, ':', zm1, zm2])
        = some (⟨[y1, y2, y3, y4], some [m1, m2], some [d1, d2],
            some [a1, a2], some [i1, i2], some [s1, s2], none,
            some [sg, zh1, zh2, ':', zm1, zm2], some sg, some [zh1, zh2],
            some [zm1, zm2]⟩ : Caps) :=
      captures_of_reAll_head (reAll_head allWs_nil allWs_nil allWs_nil hy1
        hy2 hy3 hy4 hm1 hm2 hmb1d hmb2d hd1 hd2 hdb1d hdb31 ha1 ha2 habd hi1
        hi2 hibd hs1 hs2 hsbd hsep hzc
        (pZoneContent_signed [] hsg3 hzh1 hzh2 hzm1 hzm2))
    obtain ⟨dt, hdt⟩ := candidate_reparse (iso8601Captures_wf hcapF) hdbv
      hzmb hoffz
    refine ⟨dt, ?_, ?_⟩
    · simp only [tryFromIso, hstrictF, hcapF, hdt]
    · simp only [tryFromIso, hstrictC, hcapC, hdt]

/-- Witness for C9 at the concrete pair `2018-10-11T03:23:38−08:00` (Unicode
minus) and `2018-10-11T03:23:38-08:00` (ASCII hyphen): both convert to the
same instant. -/
theorem unicode_minus_sign_witness :
    (1 ≤ toNum ['1', '0'] ∧ toNum ['1', '0'] ≤ 12) ∧
    (1 ≤ toNum ['1', '1'] ∧ toNum ['1', '1']
      ≤ daysInMonth (toNum ['2', '0', '1', '8'] : Int) (toNum ['1', '0'])) ∧
    (toNum ['0', '3'] ≤ 23 ∧ toNum ['2', '3'] ≤ 59 ∧
      toNum ['3', '8'] ≤ 60) ∧
    (toNum ['0', '0'] ≤ 59 ∧
      toNum ['0', '8'] * 3600 + toNum ['0', '0'] * 60 < 86400) ∧
    ∃ dt, tryFromIso ⟨"2018-10-11T03:23:38−08:00".data⟩ = .ok dt ∧
      tryFromIso ⟨"2018-10-11T03:23:38-08:00".data⟩ = .ok dt :=
  ⟨⟨by decide, by decide⟩, ⟨by decide, by decide⟩,
    ⟨by decide, by decide, by decide⟩, ⟨by decide, by decide⟩,
    unicode_minus_sign (by decide) (by decide) (by decide) (by decide)
      (by decide) (by decide) (by decide) (by decide) (by decide)
      (by decide) (by decide) (by decide) (by decide) (by decide)
      (by decide) (by decide) (by decide) (by decide) (by decide)
      (by decide) (by decide) (by decide) (by decide) (by decide)
      (by decide) (by decide) (by decide)⟩

/-- Witness for C10 at the repository test input `2018-01-01 03:23:00
+00:00` and its no-internal-space variant `2018-01-01 03:23:00+00:00`. -/
theorem whitespace_variants_witness :
    (1 ≤ toNum ['0', '1'] ∧ toNum ['0', '1'] ≤ 12) ∧
    (1 ≤ toNum ['0', '1'] ∧ toNum ['0', '1']
      ≤ daysInMonth (toNum ['2', '0', '1', '8'] : Int) (toNum ['0', '1'])) ∧
    (toNum ['0', '3'] ≤ 23 ∧ toNum ['2', '3'] ≤ 59 ∧
      toNum ['0', '0'] ≤ 60) ∧
    ∃ dt, tryFromIso ⟨"2018-01-01 03:23:00 +00:00".data⟩ = .ok dt ∧
      tryFromIso ⟨"2018-01-01 03:23:00+00:00".data⟩ = .ok dt :=
  ⟨⟨by decide, by decide⟩, ⟨by decide, by decide⟩,
    ⟨by decide, by decide, by decide⟩,
    whitespace_variants allWs_nil (allWs_single (by decide)) allWs_nil
      (by decide) (by decide) (by decide) (by decide) (by decide)
      (by decide) (by decide) (by decide) (by decide) (by decide)
      (by decide) (by decide) (by decide) (by decide) (by decide)
      (by decide) (by decide) (by decide) (by decide) (by decide)
      (by decide)
      (Or.inr ⟨'+', '0', '0', '0', '0', Or.inl rfl, rfl, by decide,
        by decide, by decide, by decide, by decide, by decide⟩)⟩

end HoloTime
